import Mathlib

/-! Room lifecycle and tic-tac-toe engine of `src/server.js`

A shallow embedding of the socket server: the two in-memory maps (`rooms`,
`players`), the socket event handlers, the two `setTimeout` callbacks and the
game functions `initializeGame`, `processGameAction`, `checkWin`.

Modelling conventions

* JavaScript objects are mutated in place; here every handler returns the new
  server state. A room object keeps its identity in the ghost field `ref`,
  which the post-game reset callback uses to find "its" room again (the
  callback closes over the object, not over the room id).
* `Map` and plain-object property access are association lists with
  first-match lookup, in-place overwrite and append of new keys.
* A `TypeError` escaping a handler is the outcome `threw`; it carries the
  state as mutated up to the throw and has no successor state.
* `Math.random()` is a double of `[0,1)`, and the room id is computed in double
  arithmetic with both roundings (`roundToDouble`); socket ids, room ids and
  names are strings; the move position is an integer.
* `io.to(r)`, `socket.to(r)` and `socket.emit` are kept symbolic as emission
  targets; payloads are snapshots taken at the time of the call. Which sockets
  are members of a socket.io room (`socket.join`, `socket.leave`) is not
  tracked.
* Pending timers may fire at any time and in any order; the delays of 10 s and
  5 min are not modelled.
-/

namespace MultiplayerGame

/-! ## Data model -/

/-- Socket id (`socket.id`). -/
abbrev ConnId := String

/-- Room id, the key of the `rooms` map. -/
abbrev RoomId := String

/-- The two marks written on the board, `'X'` and `'O'`. -/
inductive Mark where
  | X
  | O
deriving DecidableEq, Repr

/-- A board cell: `none` is JavaScript `null`. -/
abbrev Cell := Option Mark

/-- The three values of `room.gameState`. -/
inductive Phase where
  | waiting
  | playing
  | finished
deriving DecidableEq, Repr

/-- A JavaScript number as far as the score table needs it: an integer or `NaN`. -/
inductive JSNum where
  | num (n : Int)
  | nan
deriving DecidableEq, Repr

/-- The value `x + 1` where `x` is a property read that may be `undefined`
(`none`): `undefined + 1` and `NaN + 1` are `NaN`. -/
def JSNum.plusOne : Option JSNum → JSNum
  | some (JSNum.num n) => JSNum.num (n + 1)
  | some JSNum.nan => JSNum.nan
  | none => JSNum.nan

/-- A player record as built by the `join-room` handler. -/
structure Player where
  id : ConnId
  name : String
  score : Nat
  isReady : Bool
  isHost : Bool
deriving DecidableEq, Repr

/-- The object returned by `initializeGame`. The property `gameState` does not
exist on a fresh object (`none`); `processGameAction` adds it. -/
structure GameData where
  turn : ConnId
  round : Nat
  scores : List (ConnId × JSNum)
  board : List Cell
  gameType : String
  winner : Option ConnId
  gameState : Option Phase
deriving DecidableEq, Repr

/-- A room object. `ref` is the identity of the JavaScript object (not a
property of it); `createdAt` is the creation time stamp handed in by the
environment. -/
structure Room where
  ref : Nat
  id : RoomId
  players : List Player
  maxPlayers : Nat
  gameState : Phase
  creator : String
  createdAt : Nat
  gameData : Option GameData
deriving DecidableEq, Repr

/-- The value stored in the `players` map for a socket. -/
structure Session where
  roomId : RoomId
  playerName : String
deriving DecidableEq, Repr

/-- A pending `setTimeout` callback. `reset` closes over the room object
(`ref`) and the room id; `sweep` closes over the room id only. -/
inductive Timer where
  | reset (ref : Nat) (roomId : RoomId)
  | sweep (roomId : RoomId)
deriving DecidableEq, Repr

/-- Whom an emission is addressed to: `socket.emit`, `io.to(r).emit`,
`socket.to(r).emit`. -/
inductive Target where
  | socket (c : ConnId)
  | room (r : RoomId)
  | roomExcept (r : RoomId) (c : ConnId)
deriving DecidableEq, Repr

/-- Outbound events with their payloads. -/
inductive Msg where
  | error (message : String)
  | roomJoined (room : Room) (playerId : ConnId) (isHost : Bool)
  | playerJoined (player : Player)
  | playerReadyUpdate (playerId : ConnId) (allReady : Bool)
  | gameStarted (g : GameData)
  | gameUpdate (g : GameData)
  | gameReset
  | newMessage (playerName : String) (message : String) (timestamp : String)
  | playerLeft (c : ConnId)
deriving DecidableEq, Repr

/-- One emission. -/
structure Emit where
  target : Target
  msg : Msg
deriving DecidableEq, Repr

/-- The whole server state: the `rooms` map, the `players` map, the pending
timers and the next fresh object identity. -/
structure Server where
  rooms : List (RoomId × Room)
  players : List (ConnId × Session)
  timers : List Timer
  nextRef : Nat
deriving DecidableEq, Repr

/-- The state right after start-up: both maps empty, no timer pending. -/
def Server.empty : Server :=
  { rooms := [], players := [], timers := [], nextRef := 0 }

/-! ## Maps -/

/-- The method `Map.prototype.get`, or a property read `o[k]`: first entry
with key `k`. -/
def mapGet {β : Type} : List (String × β) → String → Option β
  | [], _ => none
  | (k', v) :: rest, k => if k' = k then some v else mapGet rest k

/-- The method `Map.prototype.set`, or a property write `o[k] = v`: overwrite
in place, or append a new entry. -/
def mapSet {β : Type} : List (String × β) → String → β → List (String × β)
  | [], k, v => [(k, v)]
  | (k', v') :: rest, k, v =>
    if k' = k then (k, v) :: rest else (k', v') :: mapSet rest k v

/-- The method `Map.prototype.delete`. -/
def mapDelete {β : Type} (m : List (String × β)) (k : String) : List (String × β) :=
  m.filter (fun e => decide (e.1 ≠ k))

/-- The method `Map.prototype.has`. -/
def mapHas {β : Type} (m : List (String × β)) (k : String) : Bool :=
  (mapGet m k).isSome

/-! ## Game logic functions -/

/-- The array `winPatterns` of `checkWin`. -/
def winPatterns : List (Nat × Nat × Nat) :=
  [(0, 1, 2), (3, 4, 5), (6, 7, 8), (0, 3, 6), (1, 4, 7), (2, 5, 8), (0, 4, 8), (2, 4, 6)]

/-- The `for` loop of `checkWin` over the remaining patterns. `board[a]` is
`board[a]?`, with `none` for `undefined`; the test
`board[a] && board[a] === board[b] && board[a] === board[c]` succeeds only
when `board[a]` is a mark. -/
def checkWinLoop (board : List Cell) : List (Nat × Nat × Nat) → Option Mark
  | [] => none
  | (a, b, c) :: rest =>
    match board[a]? with
    | some (some m) =>
      if board[b]? = some (some m) ∧ board[c]? = some (some m) then some m
      else checkWinLoop board rest
    | _ => checkWinLoop board rest

/-- The function `checkWin(board)`: the mark of the first complete pattern, or
`none` for `null`. -/
def checkWin (board : List Cell) : Option Mark :=
  checkWinLoop board winPatterns

/-- The function `initializeGame(players)`. Reading `players[0].id` on an
empty array throws, which is the result `none`. -/
def initializeGame (players : List Player) : Option GameData :=
  match players with
  | [] => none
  | p :: _ =>
    some
      { turn := p.id
        round := 1
        scores := players.foldl (fun acc q => mapSet acc q.id (JSNum.num 0)) []
        board := List.replicate 9 none
        gameType := "tic-tac-toe"
        winner := none
        gameState := none }

/-- The expression `players.findIndex(p => p.id === playerId)`, searching from
position `i`: index of the first match, or `-1`. -/
def findIndexFrom (playerId : ConnId) : List Player → Nat → Int
  | [], _ => -1
  | p :: ps, i => if p.id = playerId then (i : Int) else findIndexFrom playerId ps (i + 1)

/-- The expression `room.players.findIndex(p => p.id === playerId)`. -/
def findIndex (players : List Player) (playerId : ConnId) : Int :=
  findIndexFrom playerId players 0

/-- The property read `board[position]` for an integer position: `none` is
`undefined` (index outside the array). -/
def boardAt (board : List Cell) (position : Int) : Option Cell :=
  if 0 ≤ position then board[position.toNat]? else none

/-- The test `board.every(cell => cell !== null)`. -/
def boardFull (board : List Cell) : Bool :=
  board.all (fun cell => cell.isSome)

/-- What a call of `processGameAction` does: return `null` without touching
anything, return the (mutated) `gameData`, or throw with `gameData` as mutated
so far. -/
inductive ActionResult where
  | null
  | update (g : GameData)
  | threw (g : Option GameData)
deriving DecidableEq, Repr

/-- The function `processGameAction(room, action, data, playerId)` with
`data = {position}`. Reading `gameData.turn` on `null` throws. With an empty
player list `(currentPlayerIndex + 1) % 0` is `NaN`, `room.players[NaN]` is
`undefined` and reading its `id` throws, after the board has been written.
Otherwise the dividend is at least 0 and `%` is the ordinary remainder. -/
def processGameAction (room : Room) (action : String) (position : Int)
    (playerId : ConnId) : ActionResult :=
  if action = "move" then
    match room.gameData with
    | none => ActionResult.threw none
    | some gameData =>
      if gameData.turn ≠ playerId then ActionResult.null
      else if boardAt gameData.board position ≠ some none then ActionResult.null
      else
        let playerIndex := findIndex room.players playerId
        let mark := if playerIndex = 0 then Mark.X else Mark.O
        let g1 : GameData := { gameData with board := gameData.board.set position.toNat (some mark) }
        match checkWin g1.board with
        | some _ =>
          ActionResult.update
            { g1 with
              winner := some playerId
              scores := mapSet g1.scores playerId (JSNum.plusOne (mapGet g1.scores playerId))
              gameState := some Phase.finished }
        | none =>
          if boardFull g1.board then
            ActionResult.update { g1 with gameState := some Phase.finished }
          else
            let currentPlayerIndex := findIndex room.players playerId
            if room.players.length = 0 then ActionResult.threw (some g1)
            else
              let nextPlayerIndex := (currentPlayerIndex + 1) % (room.players.length : Int)
              match room.players[nextPlayerIndex.toNat]? with
              | none => ActionResult.threw (some g1)
              | some p => ActionResult.update { g1 with turn := p.id, round := g1.round + 1 }
  else ActionResult.null

/-- A value of `Math.random()`: the double `mant / 2^exp`. Every double in
`[0,1)`, subnormal ones included, has this form with `mant < 2^53`,
`mant < 2^exp` and `exp ≤ 1074`. -/
structure Draw where
  mant : Nat
  exp : Nat
deriving DecidableEq, Repr

/-- The draw is a double of `[0,1)`. -/
def Draw.valid (r : Draw) : Prop :=
  r.mant < 2 ^ 53 ∧ r.mant < 2 ^ r.exp ∧ r.exp ≤ 1074

instance (r : Draw) : Decidable r.valid :=
  inferInstanceAs (Decidable (r.mant < 2 ^ 53 ∧ r.mant < 2 ^ r.exp ∧ r.exp ≤ 1074))

/-- Number of halvings that bring `n` below `2^53`: the exponent `d` of the
spacing `2^d` of the doubles around `n`. The first argument bounds the number
of halvings. -/
def shiftTo53 : Nat → Nat → Nat
  | 0, _ => 0
  | fuel + 1, n => if n < 2 ^ 53 then 0 else shiftTo53 fuel (n / 2) + 1

/-- IEEE 754 binary64 rounding (to nearest, ties to even) of the natural
number `n`, read as the numerator of a fraction over a fixed power of two: at
most 53 significant bits are kept. The representable neighbours of `n` are the
multiples of the spacing `2^d`. -/
def roundToDouble (n : Nat) : Nat :=
  if n < 2 ^ 53 then n
  else
    let d := shiftTo53 n n
    let q := n / 2 ^ d
    let rem := n % 2 ^ d
    if 2 ^ d < 2 * rem ∨ (2 * rem = 2 ^ d ∧ q % 2 = 1) then (q + 1) * 2 ^ d else q * 2 ^ d

/-- The number `Math.floor(100000 + r * 900000)` for `r = mant / 2^exp`, in
double arithmetic. All quantities are numerators over `2^exp`: the product
`r * 900000` is `mant * 900000` rounded, the sum adds `100000 * 2^exp` and is
rounded again, and `Math.floor` is the integer quotient by `2^exp`. -/
def Draw.scaled (r : Draw) : Nat :=
  roundToDouble (100000 * 2 ^ r.exp + roundToDouble (r.mant * 900000)) / 2 ^ r.exp

/-- The loop of `generateRoomId` over the successive values of
`Math.random()`: `none` when every supplied draw collides with a live room,
so that the loop has not returned yet. -/
def generateRoomId (rooms : List (RoomId × Room)) : List Draw → Option RoomId
  | [] => none
  | r :: rest =>
    let id := toString r.scaled
    if mapHas rooms id then generateRoomId rooms rest else some id

/-! ## Handlers -/

/-- How a handler run ends: normally, with the new state and the emissions in
order; by an uncaught exception; or, for `create-room`, not at all within the
supplied random draws. -/
inductive Outcome where
  | done (s : Server) (out : List Emit)
  | threw (s : Server) (out : List Emit)
  | noReturn
deriving DecidableEq, Repr

/-- The route `POST /api/create-room`. -/
def createRoom (s : Server) (playerName : String) (now : Nat) (draws : List Draw) : Outcome :=
  match generateRoomId s.rooms draws with
  | none => Outcome.noReturn
  | some roomId =>
    let room : Room :=
      { ref := s.nextRef
        id := roomId
        players := []
        maxPlayers := 4
        gameState := Phase.waiting
        creator := playerName
        createdAt := now
        gameData := none }
    Outcome.done { s with rooms := mapSet s.rooms roomId room, nextRef := s.nextRef + 1 } []

/-- The handler of `join-room` on socket `c`. -/
def joinRoom (s : Server) (c : ConnId) (roomId : RoomId) (playerName : String) : Outcome :=
  match mapGet s.rooms roomId with
  | none => Outcome.done s [⟨Target.socket c, Msg.error "Room tidak ditemukan"⟩]
  | some room =>
    if room.players.length ≥ room.maxPlayers then
      Outcome.done s [⟨Target.socket c, Msg.error "Room penuh"⟩]
    else
      let player : Player :=
        { id := c
          name := playerName
          score := 0
          isReady := false
          isHost := decide (room.players.length = 0) }
      let room1 : Room := { room with players := room.players ++ [player] }
      Outcome.done
        { s with
          rooms := mapSet s.rooms roomId room1
          players := mapSet s.players c ⟨roomId, playerName⟩ }
        [⟨Target.socket c, Msg.roomJoined room1 c player.isHost⟩,
         ⟨Target.roomExcept roomId c, Msg.playerJoined player⟩]

/-- The two statements `room.players.find(p => p.id === playerId)` and
`player.isReady = true`: `none` when no player has that id, otherwise the list
with the first such player marked ready. -/
def markReady (playerId : ConnId) : List Player → Option (List Player)
  | [] => none
  | p :: ps =>
    if p.id = playerId then some ({ p with isReady := true } :: ps)
    else (markReady playerId ps).map (fun qs => p :: qs)

/-- The handler of `player-ready`. -/
def playerReady (s : Server) (roomId : RoomId) (playerId : ConnId) : Outcome :=
  match mapGet s.rooms roomId with
  | none => Outcome.done s []
  | some room =>
    match markReady playerId room.players with
    | none => Outcome.done s []
    | some players1 =>
      let allReady := players1.all (fun p => p.isReady)
      let update : Emit := ⟨Target.room roomId, Msg.playerReadyUpdate playerId allReady⟩
      let room1 : Room := { room with players := players1 }
      if allReady ∧ players1.length ≥ 2 then
        match initializeGame players1 with
        | none => Outcome.threw { s with rooms := mapSet s.rooms roomId room1 } [update]
        | some g =>
          Outcome.done
            { s with
              rooms := mapSet s.rooms roomId
                { room1 with gameState := Phase.playing, gameData := some g } }
            [update, ⟨Target.room roomId, Msg.gameStarted g⟩]
      else Outcome.done { s with rooms := mapSet s.rooms roomId room1 } [update]

/-- The handler of `game-action` on socket `c`, with `data = {position}`. -/
def gameAction (s : Server) (c : ConnId) (roomId : RoomId) (action : String)
    (position : Int) : Outcome :=
  match mapGet s.rooms roomId with
  | none => Outcome.done s []
  | some room =>
    if room.gameState = Phase.playing then
      match processGameAction room action position c with
      | ActionResult.null => Outcome.done s []
      | ActionResult.threw g =>
        Outcome.threw { s with rooms := mapSet s.rooms roomId { room with gameData := g } } []
      | ActionResult.update g =>
        let out : List Emit := [⟨Target.room roomId, Msg.gameUpdate g⟩]
        if g.gameState = some Phase.finished then
          Outcome.done
            { s with
              rooms := mapSet s.rooms roomId
                { room with gameData := some g, gameState := Phase.finished }
              timers := s.timers ++ [Timer.reset room.ref roomId] }
            out
        else
          Outcome.done
            { s with rooms := mapSet s.rooms roomId { room with gameData := some g } } out
    else Outcome.done s []

/-- The handler of `send-message`. -/
def sendMessage (s : Server) (roomId : RoomId) (message : String) (playerName : String)
    (timestamp : String) : Outcome :=
  Outcome.done s [⟨Target.room roomId, Msg.newMessage playerName message timestamp⟩]

/-- The handler of `leave-room` on socket `c`. -/
def leaveRoom (s : Server) (c : ConnId) (roomId : RoomId) : Outcome :=
  match mapGet s.rooms roomId with
  | none => Outcome.done s []
  | some room =>
    let room1 : Room := { room with players := room.players.filter (fun p => decide (p.id ≠ c)) }
    Outcome.done
      { s with
        rooms := mapSet s.rooms roomId room1
        players := mapDelete s.players c
        timers := if room1.players.length = 0 then s.timers ++ [Timer.sweep roomId] else s.timers }
      [⟨Target.room roomId, Msg.playerLeft c⟩]

/-- The handler of `disconnect` on socket `c`. -/
def disconnect (s : Server) (c : ConnId) : Outcome :=
  match mapGet s.players c with
  | none => Outcome.done s []
  | some player =>
    match mapGet s.rooms player.roomId with
    | some room =>
      let room1 : Room := { room with players := room.players.filter (fun p => decide (p.id ≠ c)) }
      Outcome.done
        { s with
          rooms := mapSet s.rooms player.roomId room1
          players := mapDelete s.players c }
        [⟨Target.room player.roomId, Msg.playerLeft c⟩]
    | none => Outcome.done { s with players := mapDelete s.players c } []

/-- The body of the post-game reset callback applied to one room object. -/
def resetRoom (room : Room) : Room :=
  { room with
    gameState := Phase.waiting
    players := room.players.map (fun p => { p with isReady := false }) }

/-- The post-game reset callback: it mutates the room object it closed over
(wherever that object sits in the registry; nothing visible happens to the
state if the object is no longer registered) and emits `game-reset`. -/
def fireReset (s : Server) (ref : Nat) (roomId : RoomId) : Outcome :=
  Outcome.done
    { s with rooms := s.rooms.map (fun e => if e.2.ref = ref then (e.1, resetRoom e.2) else e) }
    [⟨Target.room roomId, Msg.gameReset⟩]

/-- The empty-room sweep callback:
`if (rooms.get(roomId)?.players.length === 0) rooms.delete(roomId)`. -/
def fireSweep (s : Server) (roomId : RoomId) : Outcome :=
  match mapGet s.rooms roomId with
  | none => Outcome.done s []
  | some room =>
    if room.players.length = 0 then
      Outcome.done { s with rooms := mapDelete s.rooms roomId } []
    else Outcome.done s []

/-- Run one pending timer callback. -/
def fireTimer (s : Server) : Timer → Outcome
  | Timer.reset ref roomId => fireReset s ref roomId
  | Timer.sweep roomId => fireSweep s roomId

/-! ## Events and reachable states -/

/-- Everything the event loop can run: the HTTP route, the socket events and
the firing of the `i`-th pending timer. -/
inductive Event where
  | createRoom (playerName : String) (now : Nat) (draws : List Draw)
  | joinRoom (c : ConnId) (roomId : RoomId) (playerName : String)
  | playerReady (c : ConnId) (roomId : RoomId) (playerId : ConnId)
  | gameAction (c : ConnId) (roomId : RoomId) (action : String) (position : Int)
  | sendMessage (c : ConnId) (roomId : RoomId) (message : String) (playerName : String)
      (timestamp : String)
  | leaveRoom (c : ConnId) (roomId : RoomId)
  | disconnect (c : ConnId)
  | fire (i : Nat)

/-- An event can occur in a state: random draws are doubles of `[0,1)`, and
only a pending timer fires. -/
def Event.enabled (s : Server) : Event → Bool
  | Event.createRoom _ _ draws => draws.all (fun r => decide r.valid)
  | Event.fire i => decide (i < s.timers.length)
  | _ => true

/-- Run one event to completion. A fired timer leaves the pending list. -/
def handle (s : Server) : Event → Outcome
  | Event.createRoom playerName now draws => createRoom s playerName now draws
  | Event.joinRoom c roomId playerName => joinRoom s c roomId playerName
  | Event.playerReady _ roomId playerId => playerReady s roomId playerId
  | Event.gameAction c roomId action position => gameAction s c roomId action position
  | Event.sendMessage _ roomId message playerName timestamp =>
    sendMessage s roomId message playerName timestamp
  | Event.leaveRoom c roomId => leaveRoom s c roomId
  | Event.disconnect c => disconnect s c
  | Event.fire i =>
    match s.timers[i]? with
    | none => Outcome.done s []
    | some t => fireTimer { s with timers := s.timers.eraseIdx i } t

/-- One step of the event loop that ran to completion. -/
def step (s : Server) (e : Event) : Option Server :=
  if e.enabled s then
    match handle s e with
    | Outcome.done s1 _ => some s1
    | _ => none
  else none

/-- Run a sequence of events, each to completion. -/
def run (s : Server) : List Event → Option Server
  | [] => some s
  | e :: es =>
    match step s e with
    | none => none
    | some s1 => run s1 es

/-- States reachable from the empty registry by events and timer firings. -/
inductive Reachable : Server → Prop where
  | init : Reachable Server.empty
  | step {s s1 : Server} (e : Event) : Reachable s → step s e = some s1 → Reachable s1

/-! ## Vocabulary of the statements -/

/-- All three cells of the pattern `t` hold the mark `m`. -/
def tripleHolds (board : List Cell) (t : Nat × Nat × Nat) (m : Mark) : Prop :=
  board[t.1]? = some (some m) ∧ board[t.2.1]? = some (some m) ∧ board[t.2.2]? = some (some m)

instance (board : List Cell) (t : Nat × Nat × Nat) (m : Mark) :
    Decidable (tripleHolds board t m) := by
  unfold tripleHolds; infer_instance

/-- What every registered room satisfies: capacity 4 and never exceeded, a
board of 9 cells, a running game has a game object without winner and without
the `gameState` property, a finished game still has its game object. -/
def RoomInv (room : Room) : Prop :=
  room.maxPlayers = 4 ∧ room.players.length ≤ 4 ∧
  (∀ g, room.gameData = some g → g.board.length = 9) ∧
  (room.gameState = Phase.playing →
    ∃ g, room.gameData = some g ∧ g.gameState = none ∧ g.winner = none) ∧
  (room.gameState = Phase.finished → room.gameData ≠ none)

/-- Every registered room satisfies `RoomInv`. -/
def ServerInv (s : Server) : Prop :=
  ∀ e ∈ s.rooms, RoomInv e.2

/-- The mark `processGameAction` writes for `playerId`: `'X'` for the first
player of the list, `'O'` for everybody else. -/
def markOf (room : Room) (playerId : ConnId) : Mark :=
  if findIndex room.players playerId = 0 then Mark.X else Mark.O

/-! ## Concrete runs -/

/-- The state a run from the empty registry ends in (the empty registry itself
if some event of the run does not complete). -/
def stateAfter (es : List Event) : Server :=
  (run Server.empty es).getD Server.empty

/-- The room registered under `roomId`, if any. -/
def Server.room? (s : Server) (roomId : RoomId) : Option Room :=
  mapGet s.rooms roomId

/-- The game object of the room registered under `roomId`, if any. -/
def Server.game? (s : Server) (roomId : RoomId) : Option GameData :=
  (mapGet s.rooms roomId).bind (fun room => room.gameData)

/-- One room is created (the draw `0` gives the id `"100000"`), `A` and `B`
join it and both report ready: the game starts. -/
def startedTrace : List Event :=
  [Event.createRoom "ann" 0 [⟨0, 1⟩],
   Event.joinRoom "A" "100000" "ann",
   Event.joinRoom "B" "100000" "bob",
   Event.playerReady "A" "100000" "A",
   Event.playerReady "B" "100000" "B"]

/-- Both players leave the room while the game is running. -/
def abandonedTrace : List Event :=
  startedTrace ++ [Event.leaveRoom "A" "100000", Event.leaveRoom "B" "100000"]

/-- A third player `C` joins the running game; the turn then rotates over
`A`, `B`, `C`, and the board is one move by `C` away from the row `0,1,2`. -/
def lateJoinerTrace : List Event :=
  startedTrace ++
    [Event.joinRoom "C" "100000" "cat",
     Event.gameAction "A" "100000" "move" 4,
     Event.gameAction "B" "100000" "move" 0,
     Event.gameAction "C" "100000" "move" 1,
     Event.gameAction "A" "100000" "move" 8,
     Event.gameAction "B" "100000" "move" 3]

/-- The handler ran to completion. -/
def Outcome.completed : Outcome → Bool
  | Outcome.done _ _ => true
  | _ => false

/-- The handler was left by an uncaught exception. -/
def Outcome.threwError : Outcome → Bool
  | Outcome.threw _ _ => true
  | _ => false

/-- The state the handler left behind (also when it threw). -/
def Outcome.server? : Outcome → Option Server
  | Outcome.done s _ => some s
  | Outcome.threw s _ => some s
  | Outcome.noReturn => none

/-- The emissions the handler made (also when it threw). -/
def Outcome.emits : Outcome → List Emit
  | Outcome.done _ out => out
  | Outcome.threw _ out => out
  | Outcome.noReturn => []

/-- One room with the single player `A`. -/
def soloTrace : List Event :=
  [Event.createRoom "ann" 0 [⟨0, 1⟩], Event.joinRoom "A" "100000" "ann"]

/-- Four players fill the room; the join of a fifth, `E`, is refused. -/
def fullTrace : List Event :=
  [Event.createRoom "ann" 0 [⟨0, 1⟩],
   Event.joinRoom "A" "100000" "ann",
   Event.joinRoom "B" "100000" "bob",
   Event.joinRoom "C" "100000" "cat",
   Event.joinRoom "D" "100000" "dan",
   Event.joinRoom "E" "100000" "eve"]

/-- The room after `fullTrace`. -/
def fullRoom : Room :=
  { ref := 0
    id := "100000"
    players :=
      [{ id := "A", name := "ann", score := 0, isReady := false, isHost := true },
       { id := "B", name := "bob", score := 0, isReady := false, isHost := false },
       { id := "C", name := "cat", score := 0, isReady := false, isHost := false },
       { id := "D", name := "dan", score := 0, isReady := false, isHost := false }]
    maxPlayers := 4
    gameState := Phase.waiting
    creator := "ann"
    createdAt := 0
    gameData := none }

/-- One room, `A` and `B` joined, only `A` has reported ready. -/
def oneReadyTrace : List Event :=
  [Event.createRoom "ann" 0 [⟨0, 1⟩],
   Event.joinRoom "A" "100000" "ann",
   Event.joinRoom "B" "100000" "bob",
   Event.playerReady "A" "100000" "A"]

/-- The room after `oneReadyTrace`. -/
def oneReadyRoom : Room :=
  { ref := 0
    id := "100000"
    players :=
      [{ id := "A", name := "ann", score := 0, isReady := true, isHost := true },
       { id := "B", name := "bob", score := 0, isReady := false, isHost := false }]
    maxPlayers := 4
    gameState := Phase.waiting
    creator := "ann"
    createdAt := 0
    gameData := none }

/-- The state after the first move of the game, `A` on cell 4. -/
def firstMoveState : Server :=
  ((gameAction (stateAfter startedTrace) "A" "100000" "move" 4).server?).getD Server.empty

/-- The game object before the first move. -/
def freshGame : GameData :=
  { turn := "A"
    round := 1
    scores := [("A", JSNum.num 0), ("B", JSNum.num 0)]
    board := [none, none, none, none, none, none, none, none, none]
    gameType := "tic-tac-toe"
    winner := none
    gameState := none }

/-- The room in which the game has just started. -/
def startedRoom : Room :=
  { ref := 0
    id := "100000"
    players :=
      [{ id := "A", name := "ann", score := 0, isReady := true, isHost := true },
       { id := "B", name := "bob", score := 0, isReady := true, isHost := false }]
    maxPlayers := 4
    gameState := Phase.playing
    creator := "ann"
    createdAt := 0
    gameData := some freshGame }

/-- The game object after the first move. -/
def firstMoveGame : GameData :=
  { freshGame with
    turn := "B"
    round := 2
    board := [none, none, none, none, some Mark.X, none, none, none, none] }

/-- After the game started, `A` joins the same room a second time: the player
list holds the ids `A`, `B`, `A`. -/
def rejoinTrace : List Event :=
  startedTrace ++ [Event.joinRoom "A" "100000" "ann"]

/-- Eight moves of a game that ends in a draw with the ninth, `A` on cell 8. -/
def drawTrace : List Event :=
  startedTrace ++
    [Event.gameAction "A" "100000" "move" 0,
     Event.gameAction "B" "100000" "move" 1,
     Event.gameAction "A" "100000" "move" 2,
     Event.gameAction "B" "100000" "move" 4,
     Event.gameAction "A" "100000" "move" 3,
     Event.gameAction "B" "100000" "move" 5,
     Event.gameAction "A" "100000" "move" 7,
     Event.gameAction "B" "100000" "move" 6]

/-- The game object before the last move of the drawn game. -/
def drawGameBefore : GameData :=
  { freshGame with
    turn := "A"
    round := 9
    board := [some Mark.X, some Mark.O, some Mark.X, some Mark.X, some Mark.O, some Mark.O,
      some Mark.O, some Mark.X, none] }

/-- The room before the last move of the drawn game. -/
def drawRoomBefore : Room :=
  { startedRoom with gameData := some drawGameBefore }

/-- The game object after the last move of the drawn game. -/
def drawGameAfter : GameData :=
  { drawGameBefore with
    board := [some Mark.X, some Mark.O, some Mark.X, some Mark.X, some Mark.O, some Mark.O,
      some Mark.O, some Mark.X, some Mark.X]
    gameState := some Phase.finished }

/-- The state after the last move of the drawn game. -/
def drawFinalState : Server :=
  ((gameAction (stateAfter drawTrace) "A" "100000" "move" 8).server?).getD Server.empty

/-- Object identities are consistent: every registered room and every pending
reset callback refers to an identity that has been handed out, no two
registered rooms share one, and the room a pending reset callback closed over
carries a game object. -/
def RefInv (rooms : List (RoomId × Room)) (timers : List Timer) (nextRef : Nat) : Prop :=
  (∀ e ∈ rooms, e.2.ref < nextRef) ∧
  (rooms.map (fun e => e.2.ref)).Nodup ∧
  (∀ ref roomId, Timer.reset ref roomId ∈ timers → ref < nextRef) ∧
  (∀ ref roomId, Timer.reset ref roomId ∈ timers →
    ∀ e ∈ rooms, e.2.ref = ref → e.2.gameData ≠ none)

/-- A game that `A` wins with the row `0,1,2`; the finishing move schedules
the post-game reset. -/
def winTrace : List Event :=
  startedTrace ++
    [Event.gameAction "A" "100000" "move" 0,
     Event.gameAction "B" "100000" "move" 3,
     Event.gameAction "A" "100000" "move" 1,
     Event.gameAction "B" "100000" "move" 4,
     Event.gameAction "A" "100000" "move" 2]

/-! ## What one event does to one room -/

/-- The room `createRoom` registers under `roomId`. -/
def freshRoom (ref : Nat) (roomId : RoomId) (playerName : String) (now : Nat) : Room :=
  { ref := ref
    id := roomId
    players := []
    maxPlayers := 4
    gameState := Phase.waiting
    creator := playerName
    createdAt := now
    gameData := none }

/-- The ways in which an event that ran to completion in state `s` turns the
room registered under `k` into a different value: a join, a `player-ready`
without or with game start, an accepted move that continues or finishes the
game, a leave, a disconnect of a bound connection, the post-game reset of this
room object. -/
inductive RoomEvent (s : Server) (k : RoomId) (room : Room) : Event → Room → Prop where
  | join (c : ConnId) (playerName : String) (hfree : room.players.length < room.maxPlayers) :
      RoomEvent s k room (Event.joinRoom c k playerName)
        { room with
          players := room.players ++
            [{ id := c, name := playerName, score := 0, isReady := false,
               isHost := decide (room.players.length = 0) }] }
  | ready (c : ConnId) (playerId : ConnId) (players1 : List Player)
      (hmark : markReady playerId room.players = some players1)
      (hwait : ¬ (players1.all (fun p => p.isReady) = true ∧ players1.length ≥ 2)) :
      RoomEvent s k room (Event.playerReady c k playerId) { room with players := players1 }
  | start (c : ConnId) (playerId : ConnId) (players1 : List Player) (g : GameData)
      (hmark : markReady playerId room.players = some players1)
      (hall : players1.all (fun p => p.isReady) = true ∧ players1.length ≥ 2)
      (hinit : initializeGame players1 = some g) :
      RoomEvent s k room (Event.playerReady c k playerId)
        { room with players := players1, gameState := Phase.playing, gameData := some g }
  | move (c : ConnId) (action : String) (position : Int) (g : GameData)
      (hplay : room.gameState = Phase.playing)
      (hres : processGameAction room action position c = ActionResult.update g)
      (hgo : g.gameState ≠ some Phase.finished) :
      RoomEvent s k room (Event.gameAction c k action position) { room with gameData := some g }
  | finish (c : ConnId) (action : String) (position : Int) (g : GameData)
      (hplay : room.gameState = Phase.playing)
      (hres : processGameAction room action position c = ActionResult.update g)
      (hfin : g.gameState = some Phase.finished) :
      RoomEvent s k room (Event.gameAction c k action position)
        { room with gameData := some g, gameState := Phase.finished }
  | leave (c : ConnId) :
      RoomEvent s k room (Event.leaveRoom c k)
        { room with players := room.players.filter (fun p => decide (p.id ≠ c)) }
  | disconnect (c : ConnId) (playerName : String)
      (hbound : mapGet s.players c = some ⟨k, playerName⟩) :
      RoomEvent s k room (Event.disconnect c)
        { room with players := room.players.filter (fun p => decide (p.id ≠ c)) }
  | reset (i : Nat) (roomId : RoomId)
      (htimer : s.timers[i]? = some (Timer.reset room.ref roomId)) :
      RoomEvent s k room (Event.fire i) (resetRoom room)

/-- Only the first player of the list can be the host. -/
def HostInv (room : Room) : Prop :=
  ∀ q ∈ room.players.tail, q.isHost = false

/-- While a game is running its board has no complete pattern, is not full,
and carries one mark per completed round. -/
def GameInv (room : Room) : Prop :=
  room.gameState = Phase.playing → ∀ g, room.gameData = some g →
    checkWin g.board = none ∧ boardFull g.board = false ∧
      g.board.countP (fun cell => cell.isSome) + 1 = g.round

/-- The only player of the room leaves: the empty-room sweep is pending. -/
def emptiedTrace : List Event :=
  soloTrace ++ [Event.leaveRoom "A" "100000"]

/-- After `A` left, `B` joins and leaves as well, so that two sweeps for
`"100000"` are pending; the first one fires and removes the empty room. -/
def sweptTrace : List Event :=
  emptiedTrace ++
    [Event.joinRoom "B" "100000" "bob", Event.leaveRoom "B" "100000", Event.fire 0]

/-- The freed id `"100000"` is issued again to a new room while the second
sweep of the removed room is still pending. -/
def reusedIdTrace : List Event :=
  sweptTrace ++ [Event.createRoom "cat" 9 [⟨0, 1⟩]]

/-- The first draw `0` collides with the registered room `"100000"`, the
second draw `1/2` gives the free id `"550000"`. -/
def collidingDraws : List Draw :=
  [⟨0, 1⟩, ⟨1, 1⟩]

/-- A game one move before a win: `A` holds cells 0 and 1, `B` cells 3 and 4,
and it is the turn of `A`. -/
def beforeWinTrace : List Event :=
  startedTrace ++
    [Event.gameAction "A" "100000" "move" 0,
     Event.gameAction "B" "100000" "move" 3,
     Event.gameAction "A" "100000" "move" 1,
     Event.gameAction "B" "100000" "move" 4]

/-- The game object after `beforeWinTrace`. -/
def beforeWinGame : GameData :=
  { freshGame with
    turn := "A"
    round := 5
    board := [some Mark.X, some Mark.X, none, some Mark.O, some Mark.O, none, none, none, none] }

/-- The room after `beforeWinTrace`. -/
def beforeWinRoom : Room :=
  { startedRoom with gameData := some beforeWinGame }

/-- The host `A` and a second player `B` join; then the host leaves. -/
def hostLeftTrace : List Event :=
  [Event.createRoom "ann" 0 [⟨0, 1⟩],
   Event.joinRoom "A" "100000" "ann",
   Event.joinRoom "B" "100000" "bob",
   Event.leaveRoom "A" "100000"]

/-- The room after `hostLeftTrace`: `B` alone, not host. -/
def hostLeftRoom : Room :=
  { ref := 0
    id := "100000"
    players := [{ id := "B", name := "bob", score := 0, isReady := false, isHost := false }]
    maxPlayers := 4
    gameState := Phase.waiting
    creator := "ann"
    createdAt := 0
    gameData := none }

/-- The game has started with the turn of `A`; then `A` leaves the room. -/
def turnHolderLeftTrace : List Event :=
  startedTrace ++ [Event.leaveRoom "A" "100000"]

/-- The room after `turnHolderLeftTrace`: `B` alone, still `playing`, turn `A`. -/
def turnHolderLeftRoom : Room :=
  { startedRoom with
    players := [{ id := "B", name := "bob", score := 0, isReady := true, isHost := false }] }

/-- Two rooms are created (ids `"100000"` and `"550000"`); the socket `A`
joins the first, then the second, then the second once more. -/
def twoRoomsTrace : List Event :=
  [Event.createRoom "ann" 0 [⟨0, 1⟩],
   Event.createRoom "ann" 1 [⟨1, 1⟩],
   Event.joinRoom "A" "100000" "ann",
   Event.joinRoom "A" "550000" "ann",
   Event.joinRoom "A" "550000" "ann"]

/-- Whenever the session index binds a connection to a room id, a room is
registered under that id and the connection is one of its players. -/
def BoundInv (s : Server) : Prop :=
  ∀ c sess, mapGet s.players c = some sess →
    ∃ room, mapGet s.rooms sess.roomId = some room ∧ ∃ p ∈ room.players, p.id = c

/-- After `A` has won and before the post-game reset fires, `A` reports ready
again: every `isReady` flag is still set, so a new game starts. -/
def restartTrace : List Event :=
  winTrace ++ [Event.playerReady "A" "100000" "A"]

/-- The game has started and `A` has made the first move. -/
def firstMoveTrace : List Event :=
  startedTrace ++ [Event.gameAction "A" "100000" "move" 4]

/-- The game object after the move with which `A` won. -/
def wonGame : GameData :=
  { freshGame with
    turn := "A"
    round := 5
    scores := [("A", JSNum.num 1), ("B", JSNum.num 0)]
    board := [some Mark.X, some Mark.X, some Mark.X, some Mark.O, some Mark.O, none, none, none,
      none]
    winner := some "A"
    gameState := some Phase.finished }

/-- The room after the move with which `A` won. -/
def wonRoom : Room :=
  { startedRoom with gameState := Phase.finished, gameData := some wonGame }

/-! # Theorems -/

/-! ## Maps -/

theorem mem_mapSet {β : Type} (k : String) (v : β) (e : String × β) :
    ∀ m : List (String × β), e ∈ mapSet m k v → e = (k, v) ∨ e ∈ m := by
  intro m
  induction m with
  | nil => intro h; simpa [mapSet] using h
  | cons x rest ih =>
    obtain ⟨k1, v1⟩ := x
    intro h
    unfold mapSet at h
    split_ifs at h with hk
    · rcases List.mem_cons.mp h with h | h
      · exact Or.inl h
      · exact Or.inr (List.mem_cons_of_mem _ h)
    · rcases List.mem_cons.mp h with h | h
      · exact Or.inr (h ▸ List.mem_cons_self _ _)
      · rcases ih h with h | h
        · exact Or.inl h
        · exact Or.inr (List.mem_cons_of_mem _ h)

theorem mapGet_mapSet_self {β : Type} (k : String) (v : β) :
    ∀ m : List (String × β), mapGet (mapSet m k v) k = some v := by
  intro m
  induction m with
  | nil => simp [mapSet, mapGet]
  | cons x rest ih =>
    obtain ⟨k1, v1⟩ := x
    unfold mapSet
    split_ifs with hk
    · simp [mapGet]
    · simp [mapGet, hk, ih]

theorem mapGet_mapSet_ne {β : Type} (k k1 : String) (v : β) (hne : k1 ≠ k) :
    ∀ m : List (String × β), mapGet (mapSet m k v) k1 = mapGet m k1 := by
  intro m
  induction m with
  | nil => simp [mapSet, mapGet, Ne.symm hne]
  | cons x rest ih =>
    obtain ⟨k2, v2⟩ := x
    unfold mapSet
    split_ifs with hk
    · subst hk
      simp [mapGet, Ne.symm hne]
    · simp [mapGet, ih]

theorem mapGet_mem {β : Type} (k : String) (v : β) :
    ∀ m : List (String × β), mapGet m k = some v → (k, v) ∈ m := by
  intro m
  induction m with
  | nil => intro h; simp [mapGet] at h
  | cons x rest ih =>
    obtain ⟨k1, v1⟩ := x
    intro h
    unfold mapGet at h
    split_ifs at h with hk
    · subst hk
      simp only [Option.some.injEq] at h
      subst h
      exact List.mem_cons_self _ _
    · exact List.mem_cons_of_mem _ (ih h)

theorem mem_of_mem_mapDelete {β : Type} (k : String) (e : String × β)
    (m : List (String × β)) (h : e ∈ mapDelete m k) : e ∈ m :=
  (List.mem_filter.mp h).1

theorem mapGet_mapDelete_self {β : Type} (k : String) :
    ∀ m : List (String × β), mapGet (mapDelete m k) k = none := by
  intro m
  induction m with
  | nil => simp [mapDelete, mapGet]
  | cons x rest ih =>
    obtain ⟨k1, v1⟩ := x
    by_cases hk : k1 = k
    · simpa [mapDelete, List.filter_cons, hk] using ih
    · simpa [mapDelete, List.filter_cons, hk, mapGet] using ih


/-! ## The engine -/

/-- Every way in which `processGameAction` returns the game object. -/
theorem processGameAction_eq_update {room : Room} {action : String} {p : Int} {c : ConnId}
    {g : GameData} (h : processGameAction room action p c = ActionResult.update g) :
    action = "move" ∧ ∃ g0, room.gameData = some g0 ∧ g0.turn = c ∧
      boardAt g0.board p = some none ∧
      (((∃ m, checkWin (g0.board.set p.toNat (some (markOf room c))) = some m) ∧
          g = { g0 with
                board := g0.board.set p.toNat (some (markOf room c))
                winner := some c
                scores := mapSet g0.scores c (JSNum.plusOne (mapGet g0.scores c))
                gameState := some Phase.finished }) ∨
        (checkWin (g0.board.set p.toNat (some (markOf room c))) = none ∧
          boardFull (g0.board.set p.toNat (some (markOf room c))) = true ∧
          g = { g0 with
                board := g0.board.set p.toNat (some (markOf room c))
                gameState := some Phase.finished }) ∨
        (checkWin (g0.board.set p.toNat (some (markOf room c))) = none ∧
          boardFull (g0.board.set p.toNat (some (markOf room c))) = false ∧
          ∃ q, room.players[((findIndex room.players c + 1) %
                  (room.players.length : Int)).toNat]? = some q ∧
            g = { g0 with
                  board := g0.board.set p.toNat (some (markOf room c))
                  turn := q.id
                  round := g0.round + 1 })) := by
  by_cases hact : action = "move"
  swap
  · simp [processGameAction, hact] at h
  refine ⟨hact, ?_⟩
  cases hgd : room.gameData with
  | none => simp [processGameAction, hact, hgd] at h
  | some g0 =>
    by_cases hturn : g0.turn = c
    swap
    · simp [processGameAction, hact, hgd, hturn] at h
    subst hturn
    by_cases hcell : boardAt g0.board p = some none
    swap
    · simp [processGameAction, hact, hgd, hcell] at h
    refine ⟨g0, rfl, rfl, hcell, ?_⟩
    unfold markOf
    cases hw : checkWin (g0.board.set p.toNat
        (some (if findIndex room.players g0.turn = 0 then Mark.X else Mark.O))) with
    | some m =>
      left
      simp only [processGameAction, hact, hgd, hcell, hw, if_true, ne_eq,
        not_true_eq_false, if_false, ActionResult.update.injEq] at h
      exact ⟨⟨m, rfl⟩, h.symm⟩
    | none =>
      right
      by_cases hfull : boardFull (g0.board.set p.toNat
          (some (if findIndex room.players g0.turn = 0 then Mark.X else Mark.O))) = true
      · left
        simp only [processGameAction, hact, hgd, hcell, hw, hfull, if_true, ne_eq,
          not_true_eq_false, if_false, ActionResult.update.injEq] at h
        exact ⟨rfl, hfull, h.symm⟩
      · right
        have hfull1 : boardFull (g0.board.set p.toNat
            (some (if findIndex room.players g0.turn = 0 then Mark.X else Mark.O))) = false := by
          simpa using hfull
        by_cases hlen : room.players.length = 0
        · simp [processGameAction, hact, hgd, hcell, hw, hfull1, hlen] at h
        cases hq : room.players[((findIndex room.players g0.turn + 1) %
            (room.players.length : Int)).toNat]? with
        | none => simp [processGameAction, hact, hgd, hcell, hw, hfull1, hlen, hq] at h
        | some q =>
          simp only [processGameAction, hact, hgd, hcell, hw, hfull1, hlen, hq, if_true,
            ne_eq, not_true_eq_false, if_false, Bool.false_eq_true,
            ActionResult.update.injEq] at h
          exact ⟨rfl, hfull1, q, rfl, h.symm⟩

/-- What `initializeGame` returns on a non-empty list. -/
theorem initializeGame_eq_some {players : List Player} {g : GameData}
    (h : initializeGame players = some g) :
    ∃ p rest, players = p :: rest ∧
      g = { turn := p.id
            round := 1
            scores := players.foldl (fun acc q => mapSet acc q.id (JSNum.num 0)) []
            board := List.replicate 9 none
            gameType := "tic-tac-toe"
            winner := none
            gameState := none } := by
  cases players with
  | nil => simp [initializeGame] at h
  | cons p rest =>
    simp only [initializeGame, Option.some.injEq] at h
    exact ⟨p, rest, rfl, h.symm⟩

theorem markReady_length {playerId : ConnId} :
    ∀ {players players1 : List Player}, markReady playerId players = some players1 →
      players1.length = players.length := by
  intro players
  induction players with
  | nil => intro players1 h; simp [markReady] at h
  | cons p ps ih =>
    intro players1 h
    unfold markReady at h
    split_ifs at h with hp
    · simp only [Option.some.injEq] at h
      subst h
      rfl
    · cases hm : markReady playerId ps with
      | none => simp [hm] at h
      | some qs =>
        simp only [hm, Option.map_some', Option.some.injEq] at h
        subst h
        simp [ih hm]

/-- The two ways in which the `game-action` handler completes: nothing
happened, or `processGameAction` returned the game object, which was emitted
to the room, and a finishing move also set the room to `finished` and
scheduled the reset. -/
theorem gameAction_done {s s1 : Server} {c : ConnId} {roomId : RoomId} {action : String}
    {p : Int} {out : List Emit}
    (h : gameAction s c roomId action p = Outcome.done s1 out) :
    (s1 = s ∧ out = []) ∨
    ∃ room g, mapGet s.rooms roomId = some room ∧ room.gameState = Phase.playing ∧
      processGameAction room action p c = ActionResult.update g ∧
      out = [⟨Target.room roomId, Msg.gameUpdate g⟩] ∧
      ((g.gameState = some Phase.finished ∧
          s1 = { s with
                 rooms := mapSet s.rooms roomId
                   { room with gameData := some g, gameState := Phase.finished }
                 timers := s.timers ++ [Timer.reset room.ref roomId] }) ∨
        (g.gameState ≠ some Phase.finished ∧
          s1 = { s with rooms := mapSet s.rooms roomId { room with gameData := some g } })) := by
  unfold gameAction at h
  cases hroom : mapGet s.rooms roomId with
  | none =>
    simp only [hroom, Outcome.done.injEq] at h
    exact Or.inl ⟨h.1.symm, h.2.symm⟩
  | some room =>
    simp only [hroom] at h
    by_cases hplay : room.gameState = Phase.playing
    swap
    · simp only [hplay, if_false, Outcome.done.injEq] at h
      exact Or.inl ⟨h.1.symm, h.2.symm⟩
    simp only [hplay, if_true] at h
    cases hres : processGameAction room action p c with
    | null =>
      simp only [hres, Outcome.done.injEq] at h
      exact Or.inl ⟨h.1.symm, h.2.symm⟩
    | threw g => simp [hres] at h
    | update g =>
      simp only [hres] at h
      right
      refine ⟨room, g, rfl, hplay, hres, ?_⟩
      by_cases hfin : g.gameState = some Phase.finished
      · simp only [hfin, if_true, Outcome.done.injEq] at h
        exact ⟨h.2.symm, Or.inl ⟨hfin, h.1.symm⟩⟩
      · simp only [hfin, if_false, Outcome.done.injEq] at h
        exact ⟨h.2.symm, Or.inr ⟨hfin, by rw [hplay]; exact h.1.symm⟩⟩

theorem mapGet_mapSet {β : Type} (m : List (String × β)) (k k1 : String) (v : β) :
    mapGet (mapSet m k v) k1 = if k1 = k then some v else mapGet m k1 := by
  by_cases h : k1 = k
  · subst h
    simp [mapGet_mapSet_self]
  · simp [h, mapGet_mapSet_ne k k1 v h]

/-- The score table built by `initializeGame`: `0` for the ids of the given
players, on top of what the accumulator held. -/
theorem mapGet_foldl_scores (k : ConnId) :
    ∀ (players : List Player) (acc : List (ConnId × JSNum)),
      mapGet (players.foldl (fun acc q => mapSet acc q.id (JSNum.num 0)) acc) k =
        if ∃ p ∈ players, p.id = k then some (JSNum.num 0) else mapGet acc k := by
  intro players
  induction players with
  | nil => intro acc; simp
  | cons p ps ih =>
    intro acc
    simp only [List.foldl_cons, ih, mapGet_mapSet]
    by_cases h1 : ∃ q ∈ ps, q.id = k
    · have h2 : ∃ q ∈ p :: ps, q.id = k := by
        obtain ⟨q, hq, hk⟩ := h1
        exact ⟨q, List.mem_cons_of_mem _ hq, hk⟩
      simp [h1, h2]
    · by_cases h3 : k = p.id
      · have h2 : ∃ q ∈ p :: ps, q.id = k := ⟨p, List.mem_cons_self _ _, h3.symm⟩
        simp [h1, h2, h3]
      · have h2 : ¬ ∃ q ∈ p :: ps, q.id = k := by
          rintro ⟨q, hq, hk⟩
          rcases List.mem_cons.mp hq with rfl | hq
          · exact h3 hk.symm
          · exact h1 ⟨q, hq, hk⟩
        have h4 : ¬ p.id = k := fun h => h3 h.symm
        simp [h1, h3, h4]

/-- The list `markReady` returns: the first entry with the given id has been
marked ready, nothing else changed. -/
theorem markReady_eq_some {playerId : ConnId} :
    ∀ {players players1 : List Player}, markReady playerId players = some players1 →
      ∃ i p, players[i]? = some p ∧ p.id = playerId ∧
        (∀ j q, j < i → players[j]? = some q → q.id ≠ playerId) ∧
        players1 = players.set i { p with isReady := true } := by
  intro players
  induction players with
  | nil => intro players1 h; simp [markReady] at h
  | cons p ps ih =>
    intro players1 h
    unfold markReady at h
    split_ifs at h with hp
    · simp only [Option.some.injEq] at h
      refine ⟨0, p, by simp, hp, ?_, by simp [← h]⟩
      intro j q hj
      omega
    · cases hm : markReady playerId ps with
      | none => simp [hm] at h
      | some qs =>
        simp only [hm, Option.map_some', Option.some.injEq] at h
        obtain ⟨i, q, hq, hid, hfirst, hset⟩ := ih hm
        refine ⟨i + 1, q, by simpa using hq, hid, ?_, by simp [← h, hset]⟩
        intro j r hj hr
        cases j with
        | zero =>
          simp only [List.getElem?_cons_zero, Option.some.injEq] at hr
          rw [← hr]; exact hp
        | succ j =>
          simp only [List.getElem?_cons_succ] at hr
          exact hfirst j r (by omega) hr

theorem markReady_isSome {playerId : ConnId} :
    ∀ {players : List Player}, (∃ p ∈ players, p.id = playerId) →
      ∃ players1, markReady playerId players = some players1 := by
  intro players
  induction players with
  | nil => rintro ⟨p, hp, -⟩; cases hp
  | cons p ps ih =>
    rintro ⟨q, hq, hid⟩
    unfold markReady
    split_ifs with hp
    · exact ⟨_, rfl⟩
    · rcases List.mem_cons.mp hq with rfl | hq
      · exact absurd hid hp
      · obtain ⟨qs, hqs⟩ := ih ⟨q, hq, hid⟩
        exact ⟨p :: qs, by simp [hqs]⟩

theorem findIndexFrom_eq {c : ConnId} :
    ∀ {players : List Player} {k i : Nat} {q : Player}, players[i]? = some q → q.id = c →
      (∀ j r, j < i → players[j]? = some r → r.id ≠ c) →
      findIndexFrom c players k = ((k + i : Nat) : Int) := by
  intro players
  induction players with
  | nil => intro k i q hq; simp at hq
  | cons p ps ih =>
    intro k i q hq hid hfirst
    cases i with
    | zero =>
      simp only [List.getElem?_cons_zero, Option.some.injEq] at hq
      subst hq
      simp [findIndexFrom, hid]
    | succ i =>
      have hp : p.id ≠ c := hfirst 0 p (by omega) (by simp)
      simp only [List.getElem?_cons_succ] at hq
      have := ih (k := k + 1) hq hid (fun j r hj hr => hfirst (j + 1) r (by omega) (by simpa using hr))
      simp only [findIndexFrom, hp, if_false, this]
      congr 1
      omega

/-- The index `findIndex` returns for a connection that is in the list: the
first position holding its id. -/
theorem findIndex_eq {c : ConnId} {players : List Player} {i : Nat} {q : Player}
    (hq : players[i]? = some q) (hid : q.id = c)
    (hfirst : ∀ j r, j < i → players[j]? = some r → r.id ≠ c) :
    findIndex players c = (i : Int) := by
  have := findIndexFrom_eq (k := 0) hq hid hfirst
  simpa [findIndex] using this

/-- An accepted move: the handler completed and emitted the game object `g1`
to the room. Then the room was `playing`, `processGameAction` returned `g1`,
and the room of the new state carries `g1`, with the same players. -/
theorem gameAction_accepted {s s1 : Server} {c : ConnId} {roomId : RoomId} {action : String}
    {p : Int} {g1 : GameData} {room : Room}
    (hroom : mapGet s.rooms roomId = some room)
    (h : gameAction s c roomId action p
      = Outcome.done s1 [⟨Target.room roomId, Msg.gameUpdate g1⟩]) :
    room.gameState = Phase.playing ∧
    processGameAction room action p c = ActionResult.update g1 ∧
    ∃ room1, mapGet s1.rooms roomId = some room1 ∧ room1.gameData = some g1 ∧
      room1.players = room.players ∧
      (g1.gameState = some Phase.finished → room1.gameState = Phase.finished) ∧
      (g1.gameState ≠ some Phase.finished → room1.gameState = Phase.playing) := by
  rcases gameAction_done h with ⟨-, hout⟩ | ⟨room0, g, hroom0, hplay, hres, hout, hcase⟩
  · cases hout
  rw [hroom] at hroom0
  simp only [Option.some.injEq] at hroom0
  subst hroom0
  simp only [List.cons.injEq, Emit.mk.injEq, Msg.gameUpdate.injEq, true_and, and_true] at hout
  subst hout
  refine ⟨hplay, hres, ?_⟩
  rcases hcase with ⟨hfin, rfl⟩ | ⟨hfin, rfl⟩
  · exact ⟨_, mapGet_mapSet_self _ _ _, rfl, rfl, fun _ => rfl, fun h => absurd hfin h⟩
  · exact ⟨_, mapGet_mapSet_self _ _ _, rfl, rfl, fun h => absurd h hfin, fun _ => hplay⟩

/-! ## The room invariant -/

theorem serverInv_mapSet {s : Server} {roomId : RoomId} {room : Room}
    (hs : ServerInv s) (hr : RoomInv room) :
    ∀ e ∈ mapSet s.rooms roomId room, RoomInv e.2 := by
  intro e he
  rcases mem_mapSet roomId room e s.rooms he with h | h
  · rw [h]; exact hr
  · exact hs e h

theorem roomInv_of_mapGet {s : Server} {roomId : RoomId} {room : Room}
    (hs : ServerInv s) (h : mapGet s.rooms roomId = some room) : RoomInv room :=
  hs (roomId, room) (mapGet_mem roomId room s.rooms h)

theorem createRoom_inv {s s1 : Server} {playerName : String} {now : Nat} {draws : List Draw}
    {out : List Emit} (hs : ServerInv s)
    (h : createRoom s playerName now draws = Outcome.done s1 out) : ServerInv s1 := by
  unfold createRoom at h
  cases hid : generateRoomId s.rooms draws with
  | none => simp [hid] at h
  | some roomId =>
    simp only [hid, Outcome.done.injEq] at h
    rw [← h.1]
    exact serverInv_mapSet hs (by simp [RoomInv])

theorem joinRoom_inv {s s1 : Server} {c : ConnId} {roomId : RoomId} {playerName : String}
    {out : List Emit} (hs : ServerInv s)
    (h : joinRoom s c roomId playerName = Outcome.done s1 out) : ServerInv s1 := by
  unfold joinRoom at h
  cases hroom : mapGet s.rooms roomId with
  | none =>
    simp only [hroom, Outcome.done.injEq] at h
    rw [← h.1]; exact hs
  | some room =>
    simp only [hroom] at h
    have hr := roomInv_of_mapGet hs hroom
    by_cases hfull : room.players.length ≥ room.maxPlayers
    · simp only [hfull, if_true, Outcome.done.injEq] at h
      rw [← h.1]; exact hs
    · simp only [hfull, if_false, Outcome.done.injEq] at h
      rw [← h.1]
      refine serverInv_mapSet hs ?_
      obtain ⟨h1, h2, h3, h4, h5⟩ := hr
      refine ⟨h1, ?_, h3, h4, h5⟩
      simp only [List.length_append, List.length_singleton]
      omega

theorem playerReady_inv {s s1 : Server} {roomId : RoomId} {playerId : ConnId}
    {out : List Emit} (hs : ServerInv s)
    (h : playerReady s roomId playerId = Outcome.done s1 out) : ServerInv s1 := by
  unfold playerReady at h
  cases hroom : mapGet s.rooms roomId with
  | none =>
    simp only [hroom, Outcome.done.injEq] at h
    rw [← h.1]; exact hs
  | some room =>
    simp only [hroom] at h
    obtain ⟨h1, h2, h3, h4, h5⟩ := roomInv_of_mapGet hs hroom
    cases hmark : markReady playerId room.players with
    | none =>
      simp only [hmark, Outcome.done.injEq] at h
      rw [← h.1]; exact hs
    | some players1 =>
      simp only [hmark] at h
      have hlen := markReady_length hmark
      split_ifs at h with hstart
      · cases hinit : initializeGame players1 with
        | none => simp [hinit] at h
        | some g =>
          simp only [hinit, Outcome.done.injEq] at h
          rw [← h.1]
          refine serverInv_mapSet hs ?_
          obtain ⟨p, rest, -, hg⟩ := initializeGame_eq_some hinit
          refine ⟨h1, by simpa [hlen] using h2, ?_, ?_, by simp⟩
          · intro g1 hg1
            simp only [Option.some.injEq] at hg1
            rw [← hg1, hg]
            simp
          · intro _
            exact ⟨g, rfl, by rw [hg], by rw [hg]⟩
      · simp only [Outcome.done.injEq] at h
        rw [← h.1]
        exact serverInv_mapSet hs ⟨h1, by simpa [hlen] using h2, h3, h4, h5⟩

theorem gameAction_inv {s s1 : Server} {c : ConnId} {roomId : RoomId} {action : String}
    {p : Int} {out : List Emit} (hs : ServerInv s)
    (h : gameAction s c roomId action p = Outcome.done s1 out) : ServerInv s1 := by
  rcases gameAction_done h with ⟨rfl, -⟩ | ⟨room, g, hroom, hplay, hres, -, hcase⟩
  · exact hs
  obtain ⟨h1, h2, h3, h4, h5⟩ := roomInv_of_mapGet hs hroom
  obtain ⟨g0, hg0, hgs0, hw0⟩ := h4 hplay
  obtain ⟨-, g0', hg0', -, -, hshape⟩ := processGameAction_eq_update hres
  rw [hg0] at hg0'
  simp only [Option.some.injEq] at hg0'
  subst hg0'
  have hb0 : g0.board.length = 9 := h3 g0 hg0
  have hboard : g.board.length = 9 := by
    rcases hshape with ⟨-, hg⟩ | ⟨-, -, hg⟩ | ⟨-, -, q, -, hg⟩ <;>
      · rw [hg]; simpa using hb0
  rcases hcase with ⟨hfin, rfl⟩ | ⟨hfin, rfl⟩
  · refine serverInv_mapSet hs ⟨h1, h2, ?_, by simp, by simp⟩
    intro g1 hg1
    simp only [Option.some.injEq] at hg1
    rw [← hg1]; exact hboard
  · refine serverInv_mapSet hs ⟨h1, h2, ?_, ?_, by simp⟩
    · intro g1 hg1
      simp only [Option.some.injEq] at hg1
      rw [← hg1]; exact hboard
    · intro _
      refine ⟨g, rfl, ?_⟩
      rcases hshape with ⟨-, hg⟩ | ⟨-, -, hg⟩ | ⟨-, -, q, -, hg⟩
      · rw [hg] at hfin; simp at hfin
      · rw [hg] at hfin; simp at hfin
      · rw [hg]; exact ⟨hgs0, hw0⟩

theorem leaveRoom_inv {s s1 : Server} {c : ConnId} {roomId : RoomId} {out : List Emit}
    (hs : ServerInv s) (h : leaveRoom s c roomId = Outcome.done s1 out) : ServerInv s1 := by
  unfold leaveRoom at h
  cases hroom : mapGet s.rooms roomId with
  | none =>
    simp only [hroom, Outcome.done.injEq] at h
    rw [← h.1]; exact hs
  | some room =>
    simp only [hroom, Outcome.done.injEq] at h
    obtain ⟨h1, h2, h3, h4, h5⟩ := roomInv_of_mapGet hs hroom
    rw [← h.1]
    exact serverInv_mapSet hs
      ⟨h1, le_trans (List.length_filter_le _ _) h2, h3, h4, h5⟩

theorem disconnect_inv {s s1 : Server} {c : ConnId} {out : List Emit}
    (hs : ServerInv s) (h : disconnect s c = Outcome.done s1 out) : ServerInv s1 := by
  unfold disconnect at h
  cases hp : mapGet s.players c with
  | none =>
    simp only [hp, Outcome.done.injEq] at h
    rw [← h.1]; exact hs
  | some player =>
    simp only [hp] at h
    cases hroom : mapGet s.rooms player.roomId with
    | none =>
      simp only [hroom, Outcome.done.injEq] at h
      rw [← h.1]; exact hs
    | some room =>
      simp only [hroom, Outcome.done.injEq] at h
      obtain ⟨h1, h2, h3, h4, h5⟩ := roomInv_of_mapGet hs hroom
      rw [← h.1]
      exact serverInv_mapSet hs
        ⟨h1, le_trans (List.length_filter_le _ _) h2, h3, h4, h5⟩

theorem roomInv_resetRoom {room : Room} (hr : RoomInv room) : RoomInv (resetRoom room) := by
  obtain ⟨h1, h2, h3, -, -⟩ := hr
  exact ⟨h1, by simpa [resetRoom] using h2, h3, by simp [resetRoom], by simp [resetRoom]⟩

theorem fireTimer_inv {s s1 : Server} {t : Timer} {out : List Emit}
    (hs : ServerInv s) (h : fireTimer s t = Outcome.done s1 out) : ServerInv s1 := by
  cases t with
  | reset ref roomId =>
    simp only [fireTimer, fireReset, Outcome.done.injEq] at h
    rw [← h.1]
    intro e he
    simp only [List.mem_map] at he
    obtain ⟨e0, he0, rfl⟩ := he
    split_ifs
    · exact roomInv_resetRoom (hs e0 he0)
    · exact hs e0 he0
  | sweep roomId =>
    simp only [fireTimer, fireSweep] at h
    cases hroom : mapGet s.rooms roomId with
    | none =>
      simp only [hroom, Outcome.done.injEq] at h
      rw [← h.1]; exact hs
    | some room =>
      simp only [hroom] at h
      split_ifs at h
      · simp only [Outcome.done.injEq] at h
        rw [← h.1]
        intro e he
        exact hs e (mem_of_mem_mapDelete roomId e s.rooms he)
      · simp only [Outcome.done.injEq] at h
        rw [← h.1]; exact hs

theorem handle_inv {s s1 : Server} {e : Event} {out : List Emit}
    (hs : ServerInv s) (h : handle s e = Outcome.done s1 out) : ServerInv s1 := by
  cases e with
  | createRoom playerName now draws => exact createRoom_inv hs h
  | joinRoom c roomId playerName => exact joinRoom_inv hs h
  | playerReady c roomId playerId => exact playerReady_inv hs h
  | gameAction c roomId action position => exact gameAction_inv hs h
  | sendMessage c roomId message playerName timestamp =>
    simp only [handle, sendMessage, Outcome.done.injEq] at h
    rw [← h.1]; exact hs
  | leaveRoom c roomId => exact leaveRoom_inv hs h
  | disconnect c => exact disconnect_inv hs h
  | fire i =>
    simp only [handle] at h
    cases ht : s.timers[i]? with
    | none =>
      simp only [ht, Outcome.done.injEq] at h
      rw [← h.1]; exact hs
    | some t =>
      simp only [ht] at h
      exact fireTimer_inv (s := { s with timers := s.timers.eraseIdx i }) hs h

theorem step_eq_some {s s1 : Server} {e : Event} (h : step s e = some s1) :
    e.enabled s = true ∧ ∃ out, handle s e = Outcome.done s1 out := by
  unfold step at h
  split_ifs at h with hen
  refine ⟨hen, ?_⟩
  cases hh : handle s e with
  | done s2 out =>
    simp only [hh, Option.some.injEq] at h
    exact ⟨out, by rw [h]⟩
  | threw s2 out => simp [hh] at h
  | noReturn => simp [hh] at h

/-- Every reachable state satisfies the room invariant. -/
theorem reachable_inv {s : Server} (h : Reachable s) : ServerInv s := by
  induction h with
  | init => intro e he; simp [Server.empty] at he
  | step e _ hstep ih =>
    obtain ⟨-, out, hh⟩ := step_eq_some hstep
    exact handle_inv ih hh

theorem reachable_run {s : Server} (hs : Reachable s) :
    ∀ {es : List Event} {s1 : Server}, run s es = some s1 → Reachable s1 := by
  intro es
  induction es generalizing s with
  | nil =>
    intro s1 h
    simp only [run, Option.some.injEq] at h
    exact h ▸ hs
  | cons e es ih =>
    intro s1 h
    unfold run at h
    cases hstep : step s e with
    | none => simp [hstep] at h
    | some s2 =>
      simp only [hstep] at h
      exact ih (Reachable.step e hs hstep) h

theorem reachable_stateAfter (es : List Event) (h : (run Server.empty es).isSome = true) :
    Reachable (stateAfter es) := by
  cases hr : run Server.empty es with
  | none => simp [hr] at h
  | some s1 =>
    have : stateAfter es = s1 := by simp [stateAfter, hr]
    rw [this]
    exact reachable_run Reachable.init hr

/-! ## Object identities -/

theorem generateRoomId_fresh {rooms : List (RoomId × Room)} :
    ∀ {draws : List Draw} {roomId : RoomId}, generateRoomId rooms draws = some roomId →
      mapGet rooms roomId = none := by
  intro draws
  induction draws with
  | nil => intro roomId h; simp [generateRoomId] at h
  | cons r rest ih =>
    intro roomId h
    simp only [generateRoomId] at h
    split_ifs at h with hhas
    · exact ih h
    · simp only [Option.some.injEq] at h
      subst h
      simpa [mapHas] using hhas

theorem mapSet_of_mapGet_none {β : Type} (k : String) (v : β) :
    ∀ m : List (String × β), mapGet m k = none → mapSet m k v = m ++ [(k, v)] := by
  intro m
  induction m with
  | nil => intro _; rfl
  | cons x rest ih =>
    obtain ⟨k1, v1⟩ := x
    intro h
    unfold mapGet at h
    split_ifs at h with hk
    simp [mapSet, hk, ih h]

theorem map_ref_mapSet {k : RoomId} {room room1 : Room} (href : room1.ref = room.ref) :
    ∀ m : List (RoomId × Room), mapGet m k = some room →
      (mapSet m k room1).map (fun e => e.2.ref) = m.map (fun e => e.2.ref) := by
  intro m
  induction m with
  | nil => intro h; simp [mapGet] at h
  | cons x rest ih =>
    obtain ⟨k1, v1⟩ := x
    intro h
    unfold mapGet at h
    split_ifs at h with hk
    · simp only [Option.some.injEq] at h
      subst h
      simp [mapSet, hk, href]
    · simp [mapSet, hk, ih h]

theorem refInv_timers {rooms : List (RoomId × Room)} {timers timers1 : List Timer} {n : Nat}
    (h : RefInv rooms timers n)
    (hsub : ∀ ref roomId, Timer.reset ref roomId ∈ timers1 → Timer.reset ref roomId ∈ timers) :
    RefInv rooms timers1 n :=
  ⟨h.1, h.2.1, fun ref roomId ht => h.2.2.1 ref roomId (hsub ref roomId ht),
    fun ref roomId ht => h.2.2.2 ref roomId (hsub ref roomId ht)⟩

theorem refInv_update {rooms : List (RoomId × Room)} {timers : List Timer} {n : Nat}
    {k : RoomId} {room room1 : Room} (h : RefInv rooms timers n)
    (hroom : mapGet rooms k = some room) (href : room1.ref = room.ref)
    (hgd : room.gameData ≠ none → room1.gameData ≠ none) :
    RefInv (mapSet rooms k room1) timers n := by
  obtain ⟨h1, h2, h3, h4⟩ := h
  have hmem := mapGet_mem k room rooms hroom
  refine ⟨?_, ?_, h3, ?_⟩
  · intro e he
    rcases mem_mapSet k room1 e rooms he with rfl | he
    · simpa [href] using h1 _ hmem
    · exact h1 e he
  · rw [map_ref_mapSet href rooms hroom]; exact h2
  · intro ref roomId ht e he hr
    rcases mem_mapSet k room1 e rooms he with rfl | he
    · exact hgd (h4 ref roomId ht _ hmem (by simpa [href] using hr))
    · exact h4 ref roomId ht e he hr

theorem refInv_finish {rooms : List (RoomId × Room)} {timers : List Timer} {n : Nat}
    {k : RoomId} {room room1 : Room} (h : RefInv rooms timers n)
    (hroom : mapGet rooms k = some room) (href : room1.ref = room.ref)
    (hgd : room1.gameData ≠ none) :
    RefInv (mapSet rooms k room1) (timers ++ [Timer.reset room.ref k]) n := by
  have hup := refInv_update h hroom href (fun _ => hgd)
  obtain ⟨h1, h2, h3, h4⟩ := hup
  have hlt : room.ref < n := h.1 _ (mapGet_mem k room rooms hroom)
  have hself : (k, room1) ∈ mapSet rooms k room1 :=
    mapGet_mem k room1 _ (mapGet_mapSet_self k room1 rooms)
  refine ⟨h1, h2, ?_, ?_⟩
  · intro ref roomId ht
    rcases List.mem_append.mp ht with ht | ht
    · exact h3 ref roomId ht
    · simp only [List.mem_singleton, Timer.reset.injEq] at ht
      rw [ht.1]; exact hlt
  · intro ref roomId ht e he hr
    rcases List.mem_append.mp ht with ht | ht
    · exact h4 ref roomId ht e he hr
    · simp only [List.mem_singleton, Timer.reset.injEq] at ht
      have heq : e = (k, room1) :=
        List.inj_on_of_nodup_map h2 he hself (by simp [hr, ht.1, href])
      rw [heq]; exact hgd

theorem handle_refInv {s s1 : Server} {e : Event} {out : List Emit}
    (hs : RefInv s.rooms s.timers s.nextRef) (h : handle s e = Outcome.done s1 out) :
    RefInv s1.rooms s1.timers s1.nextRef := by
  cases e with
  | createRoom playerName now draws =>
    simp only [handle, createRoom] at h
    cases hid : generateRoomId s.rooms draws with
    | none => simp [hid] at h
    | some roomId =>
      simp only [hid, Outcome.done.injEq] at h
      rw [← h.1]
      obtain ⟨h1, h2, h3, h4⟩ := hs
      simp only [mapSet_of_mapGet_none roomId _ s.rooms (generateRoomId_fresh hid)]
      refine ⟨?_, ?_, ?_, ?_⟩
      · intro e he
        rcases List.mem_append.mp he with he | he
        · exact Nat.lt_succ_of_lt (h1 e he)
        · simp only [List.mem_singleton] at he
          subst he
          exact Nat.lt_succ_self _
      · rw [List.map_append, List.nodup_append]
        refine ⟨h2, by simp, ?_⟩
        intro a ha hb
        simp only [List.map_cons, List.map_nil, List.mem_singleton] at hb
        obtain ⟨e, he, hea⟩ := List.mem_map.mp ha
        have := h1 e he
        omega
      · intro ref rid ht
        exact Nat.lt_succ_of_lt (h3 ref rid ht)
      · intro ref rid ht e he hr
        rcases List.mem_append.mp he with he | he
        · exact h4 ref rid ht e he hr
        · simp only [List.mem_singleton] at he
          subst he
          have := h3 ref rid ht
          simp only at hr
          omega
  | joinRoom c roomId playerName =>
    simp only [handle, joinRoom] at h
    cases hroom : mapGet s.rooms roomId with
    | none =>
      simp only [hroom, Outcome.done.injEq] at h
      rw [← h.1]; exact hs
    | some room =>
      simp only [hroom] at h
      split_ifs at h
      · simp only [Outcome.done.injEq] at h
        rw [← h.1]; exact hs
      · simp only [Outcome.done.injEq] at h
        rw [← h.1]
        exact refInv_update hs hroom rfl id
  | playerReady c roomId playerId =>
    simp only [handle, playerReady] at h
    cases hroom : mapGet s.rooms roomId with
    | none =>
      simp only [hroom, Outcome.done.injEq] at h
      rw [← h.1]; exact hs
    | some room =>
      simp only [hroom] at h
      cases hmark : markReady playerId room.players with
      | none =>
        simp only [hmark, Outcome.done.injEq] at h
        rw [← h.1]; exact hs
      | some players1 =>
        simp only [hmark] at h
        split_ifs at h
        · cases hinit : initializeGame players1 with
          | none => simp [hinit] at h
          | some g =>
            simp only [hinit, Outcome.done.injEq] at h
            rw [← h.1]
            exact refInv_update hs hroom rfl (fun _ => by simp)
        · simp only [Outcome.done.injEq] at h
          rw [← h.1]
          exact refInv_update hs hroom rfl id
  | gameAction c roomId action position =>
    rcases gameAction_done h with ⟨rfl, -⟩ | ⟨room, g, hroom, -, -, -, hcase⟩
    · exact hs
    rcases hcase with ⟨-, rfl⟩ | ⟨-, rfl⟩
    · exact refInv_finish hs hroom rfl (by simp)
    · exact refInv_update hs hroom rfl (fun _ => by simp)
  | sendMessage c roomId message playerName timestamp =>
    simp only [handle, sendMessage, Outcome.done.injEq] at h
    rw [← h.1]; exact hs
  | leaveRoom c roomId =>
    simp only [handle, leaveRoom] at h
    cases hroom : mapGet s.rooms roomId with
    | none =>
      simp only [hroom, Outcome.done.injEq] at h
      rw [← h.1]; exact hs
    | some room =>
      simp only [hroom, Outcome.done.injEq] at h
      rw [← h.1]
      refine refInv_timers (refInv_update hs hroom rfl id) ?_
      intro ref rid ht
      split_ifs at ht
      · simpa using ht
      · exact ht
  | disconnect c =>
    simp only [handle, disconnect] at h
    cases hp : mapGet s.players c with
    | none =>
      simp only [hp, Outcome.done.injEq] at h
      rw [← h.1]; exact hs
    | some player =>
      simp only [hp] at h
      cases hroom : mapGet s.rooms player.roomId with
      | none =>
        simp only [hroom, Outcome.done.injEq] at h
        rw [← h.1]; exact hs
      | some room =>
        simp only [hroom, Outcome.done.injEq] at h
        rw [← h.1]
        exact refInv_update hs hroom rfl id
  | fire i =>
    simp only [handle] at h
    cases ht : s.timers[i]? with
    | none =>
      simp only [ht, Outcome.done.injEq] at h
      rw [← h.1]; exact hs
    | some t =>
      simp only [ht] at h
      have hs1 : RefInv s.rooms (s.timers.eraseIdx i) s.nextRef :=
        refInv_timers hs (fun ref rid hmem => (List.eraseIdx_sublist _ _).subset hmem)
      obtain ⟨h1, h2, h3, h4⟩ := hs1
      cases t with
      | reset ref roomId =>
        simp only [fireTimer, fireReset, Outcome.done.injEq] at h
        rw [← h.1]
        have hmap : (s.rooms.map (fun e =>
              if e.2.ref = ref then (e.1, resetRoom e.2) else e)).map (fun e => e.2.ref)
            = s.rooms.map (fun e => e.2.ref) := by
          rw [List.map_map]
          apply List.map_congr_left
          intro e _
          simp only [Function.comp]
          split_ifs <;> rfl
        refine ⟨?_, by simpa [hmap] using h2, h3, ?_⟩
        · intro e he
          obtain ⟨e0, he0, rfl⟩ := List.mem_map.mp he
          split_ifs
          · exact h1 e0 he0
          · exact h1 e0 he0
        · intro ref1 rid ht1 e he hr
          obtain ⟨e0, he0, rfl⟩ := List.mem_map.mp he
          split_ifs at hr ⊢ with hc
          · exact h4 ref1 rid ht1 e0 he0 hr
          · exact h4 ref1 rid ht1 e0 he0 hr
      | sweep roomId =>
        simp only [fireTimer, fireSweep] at h
        cases hroom : mapGet s.rooms roomId with
        | none =>
          simp only [hroom, Outcome.done.injEq] at h
          rw [← h.1]; exact ⟨h1, h2, h3, h4⟩
        | some room =>
          simp only [hroom] at h
          split_ifs at h
          · simp only [Outcome.done.injEq] at h
            rw [← h.1]
            refine ⟨fun e he => h1 e (mem_of_mem_mapDelete _ _ _ he), ?_, h3,
              fun ref rid ht e he => h4 ref rid ht e (mem_of_mem_mapDelete _ _ _ he)⟩
            exact h2.sublist (List.Sublist.map _ (List.filter_sublist _))
          · simp only [Outcome.done.injEq] at h
            rw [← h.1]; exact ⟨h1, h2, h3, h4⟩

/-- Every reachable state has consistent object identities. -/
theorem reachable_refInv {s : Server} (h : Reachable s) :
    RefInv s.rooms s.timers s.nextRef := by
  induction h with
  | init => simp [RefInv, Server.empty]
  | step e _ hstep ih =>
    obtain ⟨-, out, hh⟩ := step_eq_some hstep
    exact handle_refInv ih hh

/-! ## C1: acceptance of a move -/

/-- C1 (code defect). After `A` and `B` started a game and both left the room,
the room is still `playing` with an empty player list, `A` still holds the
turn and cell 0 is empty, so all three conditions of C1 for accepting the move
hold. The handler nevertheless throws while computing the next turn
(`0 % 0` is `NaN`, `room.players[NaN]` is `undefined`): no `game-update` is
emitted although the board has already been written. -/
theorem gameAction_throws_in_abandoned_room :
    run Server.empty abandonedTrace = some (stateAfter abandonedTrace) ∧
    ((stateAfter abandonedTrace).room? "100000").map (fun r => (r.gameState, r.players))
      = some (Phase.playing, []) ∧
    ((stateAfter abandonedTrace).game? "100000").map (fun g => (g.turn, boardAt g.board 0))
      = some ("A", some none) ∧
    (gameAction (stateAfter abandonedTrace) "A" "100000" "move" 0).threwError = true ∧
    (gameAction (stateAfter abandonedTrace) "A" "100000" "move" 0).emits = [] ∧
    ((gameAction (stateAfter abandonedTrace) "A" "100000" "move" 0).server?.bind
        (fun s1 => s1.game? "100000")).map (fun g => boardAt g.board 0)
      = some (some (some Mark.O)) := by
  refine ⟨?_, ?_, ?_, ?_, ?_, ?_⟩ <;> decide

theorem findIndexFrom_bounds (c : ConnId) :
    ∀ (players : List Player) (k : Nat),
      findIndexFrom c players k = -1 ∨
        ((k : Int) ≤ findIndexFrom c players k ∧
          findIndexFrom c players k < ((k + players.length : Nat) : Int)) := by
  intro players
  induction players with
  | nil => intro k; left; rfl
  | cons p ps ih =>
    intro k
    unfold findIndexFrom
    split_ifs with hp
    · right
      simp only [List.length_cons]
      omega
    · rcases ih (k + 1) with h | ⟨h1, h2⟩
      · left; exact h
      · right
        simp only [List.length_cons]
        omega

theorem next_index_lt (c : ConnId) (players : List Player) (hne : players ≠ []) :
    ((findIndex players c + 1) % (players.length : Int)).toNat < players.length := by
  have hpos : 0 < players.length := List.length_pos.mpr hne
  have hposI : (0 : Int) < (players.length : Int) := by exact_mod_cast hpos
  have h1 := Int.emod_nonneg (findIndex players c + 1) (ne_of_gt hposI)
  have h2 := Int.emod_lt_of_pos (findIndex players c + 1) hposI
  omega

/-- The part of C1 the code does satisfy: in a room with at least one player
whose game object is present, a `move` is accepted (the cell is written and
`game-update` is emitted to the room) exactly when the room is `playing`, the
sender holds the turn and the position is an empty cell of the board; in every
other case, and for every action other than `move`, the handler completes with
the state unchanged and nothing emitted. -/
theorem gameAction_move_accepted_iff (s : Server) (c : ConnId) (roomId : RoomId) (p : Int)
    (room : Room) (g : GameData)
    (hroom : mapGet s.rooms roomId = some room) (hg : room.gameData = some g)
    (hne : room.players ≠ []) :
    ((∃ s1 g1, gameAction s c roomId "move" p
          = Outcome.done s1 [⟨Target.room roomId, Msg.gameUpdate g1⟩] ∧
        g1.board = g.board.set p.toNat (some (markOf room c)) ∧ g1.board ≠ g.board) ↔
      (room.gameState = Phase.playing ∧ g.turn = c ∧ boardAt g.board p = some none)) ∧
    (¬ (room.gameState = Phase.playing ∧ g.turn = c ∧ boardAt g.board p = some none) →
      gameAction s c roomId "move" p = Outcome.done s []) ∧
    (∀ action, action ≠ "move" → gameAction s c roomId action p = Outcome.done s []) := by
  refine ⟨⟨?_, ?_⟩, ?_, ?_⟩
  · rintro ⟨s1, g1, hmove, -, -⟩
    obtain ⟨hplay, hres, -⟩ := gameAction_accepted hroom hmove
    obtain ⟨-, g0, hg0, hturn, hcell, -⟩ := processGameAction_eq_update hres
    rw [hg] at hg0
    simp only [Option.some.injEq] at hg0
    subst hg0
    exact ⟨hplay, hturn, hcell⟩
  · rintro ⟨hplay, hturn, hcell⟩
    have hp0 : 0 ≤ p := by
      by_contra hneg
      simp [boardAt, hneg] at hcell
    have hget : g.board[p.toNat]? = some none := by simpa [boardAt, hp0] using hcell
    have hlt : p.toNat < g.board.length := (List.getElem?_eq_some.mp hget).1
    have hchanged : g.board.set p.toNat (some (markOf room c)) ≠ g.board := by
      intro heq
      have h1 : (g.board.set p.toNat (some (markOf room c)))[p.toNat]?
          = some (some (markOf room c)) := by
        simp [List.getElem?_set_self, hlt]
      rw [heq, hget] at h1
      simp at h1
    have hlen : ¬ room.players.length = 0 := fun h => hne (List.length_eq_zero.mp h)
    obtain ⟨next, hnext⟩ : ∃ next, room.players[((findIndex room.players c + 1) %
        (room.players.length : Int)).toNat]? = some next :=
      ⟨_, List.getElem?_eq_getElem (next_index_lt c room.players hne)⟩
    have hmark : (if findIndex room.players c = 0 then Mark.X else Mark.O) = markOf room c := rfl
    have hproc : ∃ g1, processGameAction room "move" p c = ActionResult.update g1 ∧
        g1.board = g.board.set p.toNat (some (markOf room c)) := by
      cases hw : checkWin (g.board.set p.toNat (some (markOf room c))) with
      | some m =>
        refine ⟨{ g with
            board := g.board.set p.toNat (some (markOf room c))
            winner := some c
            scores := mapSet g.scores c (JSNum.plusOne (mapGet g.scores c))
            gameState := some Phase.finished }, ?_, rfl⟩
        simp only [processGameAction, hg, hturn, hcell, if_true, ne_eq, not_true_eq_false,
          if_false, hmark, hw]
      | none =>
        by_cases hfull : boardFull (g.board.set p.toNat (some (markOf room c))) = true
        · refine ⟨{ g with
              board := g.board.set p.toNat (some (markOf room c))
              gameState := some Phase.finished }, ?_, rfl⟩
          simp only [processGameAction, hg, hturn, hcell, if_true, ne_eq, not_true_eq_false,
            if_false, hmark, hw, hfull]
        · have hfull1 : boardFull (g.board.set p.toNat (some (markOf room c))) = false := by
            simpa using hfull
          refine ⟨{ g with
              board := g.board.set p.toNat (some (markOf room c))
              turn := next.id
              round := g.round + 1 }, ?_, rfl⟩
          simp only [processGameAction, hg, hturn, hcell, if_true, ne_eq, not_true_eq_false,
            if_false, hmark, hw, hfull1, Bool.false_eq_true, hlen, hnext]
    obtain ⟨g1, hres, hb⟩ := hproc
    by_cases hfin : g1.gameState = some Phase.finished
    · refine ⟨{ s with
          rooms := mapSet s.rooms roomId
            { room with gameData := some g1, gameState := Phase.finished }
          timers := s.timers ++ [Timer.reset room.ref roomId] }, g1, ?_, hb, hb ▸ hchanged⟩
      simp only [gameAction, hroom, hplay, if_true, hres, hfin]
    · refine ⟨{ s with rooms := mapSet s.rooms roomId { room with gameData := some g1 } },
        g1, ?_, hb, hb ▸ hchanged⟩
      simp only [gameAction, hroom, hplay, if_true, hres, hfin, if_false]
  · intro hcond
    by_cases hplay : room.gameState = Phase.playing
    swap
    · simp [gameAction, hroom, hplay]
    by_cases hturn : g.turn = c
    swap
    · simp [gameAction, hroom, hplay, processGameAction, hg, hturn]
    have hcell : ¬ boardAt g.board p = some none := fun h => hcond ⟨hplay, hturn, h⟩
    simp [gameAction, hroom, hplay, processGameAction, hg, hturn, hcell]
  · intro action haction
    by_cases hplay : room.gameState = Phase.playing
    · simp [gameAction, hroom, hplay, processGameAction, haction]
    · simp [gameAction, hroom, hplay]

/-! ## C2: win detection -/

theorem checkWinLoop_cons_of_holds {board : List Cell} {t : Nat × Nat × Nat} {m : Mark}
    (rest : List (Nat × Nat × Nat)) (h : tripleHolds board t m) :
    checkWinLoop board (t :: rest) = some m := by
  obtain ⟨a, b, c⟩ := t
  obtain ⟨ha, hb, hc⟩ := h
  simp only at ha hb hc
  simp [checkWinLoop, ha, hb, hc]

theorem checkWinLoop_cons_of_not {board : List Cell} {t : Nat × Nat × Nat}
    (rest : List (Nat × Nat × Nat)) (h : ∀ m, ¬ tripleHolds board t m) :
    checkWinLoop board (t :: rest) = checkWinLoop board rest := by
  obtain ⟨a, b, c⟩ := t
  rw [checkWinLoop]
  split
  · rename_i m hm
    have := h m
    simp only [tripleHolds, hm, true_and] at this
    simp [this]
  · rfl

theorem checkWinLoop_eq_some_iff (board : List Cell) (m : Mark) :
    ∀ pats : List (Nat × Nat × Nat),
      checkWinLoop board pats = some m ↔
        ∃ pre t post, pats = pre ++ t :: post ∧ tripleHolds board t m ∧
          ∀ u ∈ pre, ∀ m1, ¬ tripleHolds board u m1 := by
  intro pats
  induction pats with
  | nil => simp [checkWinLoop]
  | cons t rest ih =>
    by_cases hc : ∃ m1, tripleHolds board t m1
    · obtain ⟨m1, hm1⟩ := hc
      rw [checkWinLoop_cons_of_holds rest hm1]
      constructor
      · intro h
        have : m1 = m := by simpa using h
        subst this
        exact ⟨[], t, rest, rfl, hm1, by simp⟩
      · rintro ⟨pre, u, post, heq, hu, hpre⟩
        cases pre with
        | nil =>
          simp only [List.nil_append, List.cons.injEq] at heq
          obtain ⟨rfl, -⟩ := heq
          obtain ⟨h1, -, -⟩ := hm1
          obtain ⟨h2, -, -⟩ := hu
          rw [h1] at h2
          simpa using h2
        | cons v pre1 =>
          simp only [List.cons_append, List.cons.injEq] at heq
          obtain ⟨rfl, -⟩ := heq
          exact absurd hm1 (hpre _ (List.mem_cons_self _ _) m1)
    · have hc1 : ∀ m1, ¬ tripleHolds board t m1 := fun m1 h => hc ⟨m1, h⟩
      rw [checkWinLoop_cons_of_not rest hc1, ih]
      constructor
      · rintro ⟨pre, u, post, heq, hu, hpre⟩
        refine ⟨t :: pre, u, post, by simp [heq], hu, ?_⟩
        intro v hv m1
        rcases List.mem_cons.mp hv with rfl | hv
        · exact hc1 m1
        · exact hpre v hv m1
      · rintro ⟨pre, u, post, heq, hu, hpre⟩
        cases pre with
        | nil =>
          simp only [List.nil_append, List.cons.injEq] at heq
          obtain ⟨rfl, -⟩ := heq
          exact absurd hu (hc1 m)
        | cons v pre1 =>
          simp only [List.cons_append, List.cons.injEq] at heq
          obtain ⟨rfl, rfl⟩ := heq
          exact ⟨pre1, u, post, rfl, hu, fun w hw => hpre w (List.mem_cons_of_mem _ hw)⟩

theorem checkWinLoop_eq_none_iff (board : List Cell) :
    ∀ pats : List (Nat × Nat × Nat),
      checkWinLoop board pats = none ↔ ∀ t ∈ pats, ∀ m, ¬ tripleHolds board t m := by
  intro pats
  induction pats with
  | nil => simp [checkWinLoop]
  | cons t rest ih =>
    by_cases hc : ∃ m1, tripleHolds board t m1
    · obtain ⟨m1, hm1⟩ := hc
      rw [checkWinLoop_cons_of_holds rest hm1]
      constructor
      · intro h; cases h
      · intro h; exact absurd hm1 (h t (List.mem_cons_self _ _) m1)
    · have hc1 : ∀ m1, ¬ tripleHolds board t m1 := fun m1 h => hc ⟨m1, h⟩
      rw [checkWinLoop_cons_of_not rest hc1, ih]
      constructor
      · intro h u hu m
        rcases List.mem_cons.mp hu with rfl | hu
        · exact hc1 m
        · exact h u hu m
      · intro h u hu m
        exact h u (List.mem_cons_of_mem _ hu) m

/-- C2, as stated, fails. On the board `X X X / O O O / - - -` the pattern
`[3,4,5]` has its three cells equal to `O`, yet `checkWin` returns `X`, the
mark of the earlier pattern `[0,1,2]`: "returns `m` if and only if some pattern
holds three `m`" is false for `m = O`. -/
theorem checkWin_two_marks_counterexample :
    ¬ (∀ (board : List Cell), board.length = 9 → ∀ m : Mark,
        (checkWin board = some m ↔ ∃ t ∈ winPatterns, tripleHolds board t m)) := by
  intro h
  have h1 := (h [some Mark.X, some Mark.X, some Mark.X, some Mark.O, some Mark.O, some Mark.O,
    none, none, none] (by decide) Mark.O).mpr ⟨(3, 4, 5), by decide, by decide⟩
  revert h1
  decide

/-- C2, amended. For every board (in particular every board of 9 cells):
`checkWin` returns the mark `m` if and only if some pattern of the list holds
three `m` and no pattern before it in the listed order is complete, that is,
`m` is the mark of the first complete pattern; it returns `null` exactly when
no pattern is complete; and it returns some mark exactly when some pattern is
complete. -/
theorem checkWin_first_complete_triple (board : List Cell) :
    (∀ m : Mark, checkWin board = some m ↔
        ∃ pre t post, winPatterns = pre ++ t :: post ∧ tripleHolds board t m ∧
          ∀ u ∈ pre, ∀ m1, ¬ tripleHolds board u m1) ∧
    (checkWin board = none ↔ ∀ t ∈ winPatterns, ∀ m, ¬ tripleHolds board t m) ∧
    ((∃ m, checkWin board = some m) ↔ ∃ t ∈ winPatterns, ∃ m, tripleHolds board t m) := by
  refine ⟨fun m => checkWinLoop_eq_some_iff board m winPatterns,
    checkWinLoop_eq_none_iff board winPatterns, ?_⟩
  have hn := checkWinLoop_eq_none_iff board winPatterns
  constructor
  · rintro ⟨m, hm⟩
    by_contra hcon
    push_neg at hcon
    have : checkWin board = none := hn.mpr hcon
    rw [this] at hm
    cases hm
  · rintro ⟨t, ht, m, hm⟩
    cases hcw : checkWin board with
    | none => exact absurd hm (hn.mp hcw t ht m)
    | some m1 => exact ⟨m1, rfl⟩

/-! ## C3: a winning move -/

/-- C3 (code defect). `C` joined after `initializeGame` built the score table,
so the table has no entry for `C`. `C` holds the turn, moves on the empty cell
2 and completes the row `0,1,2`: the move is accepted, the winner is `C` and
the room is `finished`, but `scores[C] += 1` on the missing entry stores `NaN`
instead of a count that grew by one. The other entries, turn and round are
unchanged. -/
theorem winning_late_joiner_score_is_nan :
    run Server.empty lateJoinerTrace = some (stateAfter lateJoinerTrace) ∧
    ((stateAfter lateJoinerTrace).room? "100000").map (fun r => r.gameState)
      = some Phase.playing ∧
    ((stateAfter lateJoinerTrace).game? "100000").map
        (fun g => (g.turn, g.round, boardAt g.board 2, mapGet g.scores "C"))
      = some ("C", 6, some none, none) ∧
    (gameAction (stateAfter lateJoinerTrace) "C" "100000" "move" 2).completed = true ∧
    ((gameAction (stateAfter lateJoinerTrace) "C" "100000" "move" 2).emits.map
        (fun e => e.target)) = [Target.room "100000"] ∧
    ((gameAction (stateAfter lateJoinerTrace) "C" "100000" "move" 2).server?.bind
        (fun s1 => s1.room? "100000")).map (fun r => r.gameState) = some Phase.finished ∧
    ((gameAction (stateAfter lateJoinerTrace) "C" "100000" "move" 2).server?.bind
        (fun s1 => s1.game? "100000")).map
        (fun g => (checkWin g.board, g.winner, g.turn, g.round))
      = some (some Mark.O, some "C", "C", 6) ∧
    ((gameAction (stateAfter lateJoinerTrace) "C" "100000" "move" 2).server?.bind
        (fun s1 => s1.game? "100000")).map (fun g => g.scores)
      = some [("A", JSNum.num 0), ("B", JSNum.num 0), ("C", JSNum.nan)] := by
  refine ⟨?_, ?_, ?_, ?_, ?_, ?_, ?_, ?_⟩ <;> decide

/-- What a winning move does in general: in a reachable state, after an
accepted move by `c` that leaves a complete pattern on the board, the room is
`finished`, the winner is `c`, turn and round are unchanged, every score entry
other than that of `c` is unchanged, and the entry of `c` holds the result of
`scores[c] + 1`: one more than before when `c` had an entry, `NaN` when it had
none. -/
theorem win_updates_score (s : Server) (hs : Reachable s) (c : ConnId)
    (roomId : RoomId) (p : Int) (room : Room) (g : GameData) (s1 : Server) (g1 : GameData)
    (hroom : mapGet s.rooms roomId = some room)
    (hg : room.gameData = some g)
    (hmove : gameAction s c roomId "move" p
      = Outcome.done s1 [⟨Target.room roomId, Msg.gameUpdate g1⟩])
    (hwin : ∃ m, checkWin g1.board = some m) :
    ∃ room1,
      mapGet s1.rooms roomId = some room1 ∧ room1.gameData = some g1 ∧
      room1.gameState = Phase.finished ∧
      g.winner = none ∧ g1.winner = some c ∧
      mapGet g1.scores c = some (JSNum.plusOne (mapGet g.scores c)) ∧
      (∀ k, k ≠ c → mapGet g1.scores k = mapGet g.scores k) ∧
      g1.turn = g.turn ∧ g1.round = g.round := by
  obtain ⟨hplay, hres, room1, hroom1, hg1, -, hfin, -⟩ := gameAction_accepted hroom hmove
  obtain ⟨-, -, -, hrun, -⟩ := roomInv_of_mapGet (reachable_inv hs) hroom
  obtain ⟨g0, hg0, -, hw0⟩ := hrun hplay
  rw [hg] at hg0
  simp only [Option.some.injEq] at hg0
  subst hg0
  obtain ⟨-, g0, hg0, -, -, hshape⟩ := processGameAction_eq_update hres
  rw [hg] at hg0
  simp only [Option.some.injEq] at hg0
  subst hg0
  obtain ⟨m, hm⟩ := hwin
  rcases hshape with ⟨-, hg1eq⟩ | ⟨hnone, -, hg1eq⟩ | ⟨hnone, -, next, -, hg1eq⟩
  · have hgs1 : g1.gameState = some Phase.finished := by rw [hg1eq]
    refine ⟨room1, hroom1, hg1, hfin hgs1, hw0, by rw [hg1eq], ?_, ?_, by rw [hg1eq],
      by rw [hg1eq]⟩
    · rw [hg1eq]
      exact mapGet_mapSet_self _ _ _
    · intro k hk
      rw [hg1eq]
      exact mapGet_mapSet_ne _ _ _ hk _
  · rw [hg1eq] at hm
    simp only at hm
    rw [hnone] at hm
    cases hm
  · rw [hg1eq] at hm
    simp only at hm
    rw [hnone] at hm
    cases hm

/-! ## C4: readiness and game start -/

/-- C4. A `player-ready` event names a player present in a registered room.
The handler marks the first entry with that id ready and completes; the
`player-ready-update` it emits carries `allReady` = (every player of the
resulting list is ready). `game-started` is emitted if and only if every
player is then ready and there are at least 2 players; in that case the room is
`playing` with a fresh game object: turn = id of the first player in join
order, round 1, 9 empty cells, score 0 for every present player, no winner.
Otherwise `gameState` and `gameData` are unchanged. -/
theorem playerReady_spec (s : Server) (roomId : RoomId) (playerId : ConnId) (room : Room)
    (hroom : mapGet s.rooms roomId = some room)
    (hin : ∃ p ∈ room.players, p.id = playerId) :
    ∃ i p s1 out room1,
      room.players[i]? = some p ∧ p.id = playerId ∧
      (∀ j q, j < i → room.players[j]? = some q → q.id ≠ playerId) ∧
      playerReady s roomId playerId = Outcome.done s1 out ∧
      mapGet s1.rooms roomId = some room1 ∧
      room1.players = room.players.set i { p with isReady := true } ∧
      out.head? = some ⟨Target.room roomId,
        Msg.playerReadyUpdate playerId (room1.players.all (fun q => q.isReady))⟩ ∧
      ((∃ g, (⟨Target.room roomId, Msg.gameStarted g⟩ : Emit) ∈ out) ↔
        (room1.players.all (fun q => q.isReady) = true ∧ 2 ≤ room1.players.length)) ∧
      ((room1.players.all (fun q => q.isReady) = true ∧ 2 ≤ room1.players.length) →
        ∃ g first,
          room1.gameState = Phase.playing ∧ room1.gameData = some g ∧
          out = [⟨Target.room roomId, Msg.playerReadyUpdate playerId true⟩,
                 ⟨Target.room roomId, Msg.gameStarted g⟩] ∧
          room1.players.head? = some first ∧ g.turn = first.id ∧ g.round = 1 ∧
          g.board = List.replicate 9 none ∧
          (∀ q ∈ room1.players, mapGet g.scores q.id = some (JSNum.num 0)) ∧
          g.winner = none) ∧
      (¬ (room1.players.all (fun q => q.isReady) = true ∧ 2 ≤ room1.players.length) →
        room1.gameState = room.gameState ∧ room1.gameData = room.gameData ∧
        out = [⟨Target.room roomId,
          Msg.playerReadyUpdate playerId (room1.players.all (fun q => q.isReady))⟩]) := by
  obtain ⟨players1, hmark⟩ := markReady_isSome hin
  obtain ⟨i, p, hp, hid, hfirst, hset⟩ := markReady_eq_some hmark
  by_cases hstart : players1.all (fun q => q.isReady) = true ∧ 2 ≤ players1.length
  · cases hinit : initializeGame players1 with
    | none =>
      cases players1 with
      | nil => simp at hstart
      | cons q qs => simp [initializeGame] at hinit
    | some g =>
      obtain ⟨first, rest, hcons, hg⟩ := initializeGame_eq_some hinit
      have hrun : playerReady s roomId playerId =
          Outcome.done
            { s with
              rooms := mapSet s.rooms roomId
                { room with players := players1, gameState := Phase.playing, gameData := some g } }
            [⟨Target.room roomId, Msg.playerReadyUpdate playerId true⟩,
             ⟨Target.room roomId, Msg.gameStarted g⟩] := by
        have h2 : players1.length ≥ 2 := hstart.2
        simp only [playerReady, hroom, hmark, hstart.1, h2, and_self, if_true, hinit]
      refine ⟨i, p, _, _, _, hp, hid, hfirst, hrun, mapGet_mapSet_self _ _ _, hset, ?_, ?_, ?_, ?_⟩
      · simp [hstart.1]
      · constructor
        · intro _; exact hstart
        · intro _; exact ⟨g, by simp⟩
      · intro _
        refine ⟨g, first, rfl, rfl, rfl, by simp [hcons], by rw [hg], by rw [hg],
          by rw [hg], ?_, by rw [hg]⟩
        intro q hq
        have hq1 : ∃ r ∈ players1, r.id = q.id := ⟨q, hq, rfl⟩
        rw [hg]
        simp only [mapGet_foldl_scores, hq1, if_true]
      · intro hn; exact absurd hstart hn
  · have hrun : playerReady s roomId playerId =
        Outcome.done { s with rooms := mapSet s.rooms roomId { room with players := players1 } }
          [⟨Target.room roomId,
            Msg.playerReadyUpdate playerId (players1.all (fun q => q.isReady))⟩] := by
      have h2 : ¬ (players1.all (fun q => q.isReady) = true ∧ players1.length ≥ 2) := hstart
      simp only [playerReady, hroom, hmark, h2, if_false]
    refine ⟨i, p, _, _, _, hp, hid, hfirst, hrun, mapGet_mapSet_self _ _ _, hset, ?_, ?_, ?_, ?_⟩
    · simp
    · constructor
      · rintro ⟨g, hg⟩
        simp at hg
      · intro h; exact absurd h hstart
    · intro h; exact absurd h hstart
    · intro _; exact ⟨rfl, rfl, rfl⟩

/-- C4 at the room where `A` is ready and `B` reports ready: the game starts. -/
theorem playerReady_spec_witness :
    mapGet (stateAfter oneReadyTrace).rooms "100000" = some oneReadyRoom ∧
    (∃ p ∈ oneReadyRoom.players, p.id = "B") ∧
    ∃ i p s1 out room1,
      oneReadyRoom.players[i]? = some p ∧ p.id = "B" ∧
      (∀ j q, j < i → oneReadyRoom.players[j]? = some q → q.id ≠ "B") ∧
      playerReady (stateAfter oneReadyTrace) "100000" "B" = Outcome.done s1 out ∧
      mapGet s1.rooms "100000" = some room1 ∧
      room1.players = oneReadyRoom.players.set i { p with isReady := true } ∧
      out.head? = some ⟨Target.room "100000",
        Msg.playerReadyUpdate "B" (room1.players.all (fun q => q.isReady))⟩ ∧
      ((∃ g, (⟨Target.room "100000", Msg.gameStarted g⟩ : Emit) ∈ out) ↔
        (room1.players.all (fun q => q.isReady) = true ∧ 2 ≤ room1.players.length)) ∧
      ((room1.players.all (fun q => q.isReady) = true ∧ 2 ≤ room1.players.length) →
        ∃ g first,
          room1.gameState = Phase.playing ∧ room1.gameData = some g ∧
          out = [⟨Target.room "100000", Msg.playerReadyUpdate "B" true⟩,
                 ⟨Target.room "100000", Msg.gameStarted g⟩] ∧
          room1.players.head? = some first ∧ g.turn = first.id ∧ g.round = 1 ∧
          g.board = List.replicate 9 none ∧
          (∀ q ∈ room1.players, mapGet g.scores q.id = some (JSNum.num 0)) ∧
          g.winner = none) ∧
      (¬ (room1.players.all (fun q => q.isReady) = true ∧ 2 ≤ room1.players.length) →
        room1.gameState = oneReadyRoom.gameState ∧ room1.gameData = oneReadyRoom.gameData ∧
        out = [⟨Target.room "100000",
          Msg.playerReadyUpdate "B" (room1.players.all (fun q => q.isReady))⟩]) :=
  ⟨by decide, by decide,
    playerReady_spec (stateAfter oneReadyTrace) "100000" "B" oneReadyRoom (by decide)
      (by decide)⟩

/-! ## C5: turn rotation -/

/-- C5, as stated, fails when a connection occurs twice in the player list.
`A` joined the running game a second time, so the list holds the ids
`A, B, A` and `A` is (also) the player at index 2 of 3. `A` moves on cell 4;
no pattern is complete and the board is not full. The claim gives the turn to
the player at index `(2 + 1) mod 3 = 0`, which is `A`; the code, which takes
the first index of `A`, gives it to `B`. -/
theorem turn_after_rejoin_counterexample :
    run Server.empty rejoinTrace = some (stateAfter rejoinTrace) ∧
    ((stateAfter rejoinTrace).room? "100000").map (fun r => r.players.map (fun q => q.id))
      = some ["A", "B", "A"] ∧
    ((stateAfter rejoinTrace).room? "100000").map
        (fun r => (r.players[2]?.map (fun q => q.id),
          r.players[(2 + 1) % r.players.length]?.map (fun q => q.id)))
      = some (some "A", some "A") ∧
    (gameAction (stateAfter rejoinTrace) "A" "100000" "move" 4).completed = true ∧
    ((gameAction (stateAfter rejoinTrace) "A" "100000" "move" 4).emits.map
        (fun e => e.target)) = [Target.room "100000"] ∧
    ((gameAction (stateAfter rejoinTrace) "A" "100000" "move" 4).server?.bind
        (fun s1 => s1.game? "100000")).map
        (fun g => (checkWin g.board, boardFull g.board, g.turn))
      = some (none, false, "B") := by
  refine ⟨?_, ?_, ?_, ?_, ?_, ?_⟩ <;> decide

/-- C5, amended: `i` is the first index at which the acting connection occurs
in the player list. In a reachable state, for an accepted move by `c` after
which no pattern is complete and the board is not full, the resulting turn is
the id of the player at index `(i + 1) mod n`, round is the previous round plus
1, winner and scores are unchanged, and the room was and stays `playing`. -/
theorem turn_advances_from_first_index (s : Server) (hs : Reachable s) (c : ConnId)
    (roomId : RoomId) (p : Int) (room : Room) (g : GameData) (s1 : Server) (g1 : GameData)
    (i : Nat) (q : Player)
    (hroom : mapGet s.rooms roomId = some room)
    (hg : room.gameData = some g)
    (hmove : gameAction s c roomId "move" p
      = Outcome.done s1 [⟨Target.room roomId, Msg.gameUpdate g1⟩])
    (hnowin : checkWin g1.board = none)
    (hnotfull : boardFull g1.board = false)
    (hq : room.players[i]? = some q) (hid : q.id = c)
    (hfirst : ∀ j r, j < i → room.players[j]? = some r → r.id ≠ c) :
    ∃ next room1,
      room.players[(i + 1) % room.players.length]? = some next ∧
      g1.turn = next.id ∧ g1.round = g.round + 1 ∧
      g1.winner = g.winner ∧ g1.scores = g.scores ∧
      room.gameState = Phase.playing ∧
      mapGet s1.rooms roomId = some room1 ∧ room1.gameData = some g1 ∧
      room1.gameState = Phase.playing := by
  obtain ⟨hplay, hres, room1, hroom1, hg1, -, -, hstay⟩ := gameAction_accepted hroom hmove
  obtain ⟨-, -, -, hrun, -⟩ := roomInv_of_mapGet (reachable_inv hs) hroom
  obtain ⟨g0, hg0, hgs0, -⟩ := hrun hplay
  rw [hg] at hg0
  simp only [Option.some.injEq] at hg0
  subst hg0
  obtain ⟨-, g0, hg0, -, -, hshape⟩ := processGameAction_eq_update hres
  rw [hg] at hg0
  simp only [Option.some.injEq] at hg0
  subst hg0
  rcases hshape with ⟨⟨m, hm⟩, hg1eq⟩ | ⟨-, hf, hg1eq⟩ | ⟨-, -, next, hnext, hg1eq⟩
  · rw [hg1eq] at hnowin
    simp only at hnowin
    rw [hm] at hnowin
    cases hnowin
  · rw [hg1eq] at hnotfull
    simp only at hnotfull
    rw [hf] at hnotfull
    cases hnotfull
  · have hidx : findIndex room.players c = (i : Int) := findIndex_eq hq hid hfirst
    have hmod : (((i : Int) + 1) % (room.players.length : Int)).toNat
        = (i + 1) % room.players.length := by
      have : ((i : Int) + 1) % (room.players.length : Int)
          = (((i + 1) % room.players.length : Nat) : Int) := by
        push_cast
        rfl
      rw [this, Int.toNat_ofNat]
    rw [hidx, hmod] at hnext
    have hgs1 : g1.gameState ≠ some Phase.finished := by
      rw [hg1eq]
      simp [hgs0]
    exact ⟨next, room1, hnext, by rw [hg1eq], by rw [hg1eq], by rw [hg1eq], by rw [hg1eq],
      hplay, hroom1, hg1, hstay hgs1⟩

/-- C5 (amended) at the first move of a two-player game: `A`, at index 0, moves
on cell 4 and the turn goes to `B`, at index 1. -/
theorem turn_advances_from_first_index_witness :
    Reachable (stateAfter startedTrace) ∧
    mapGet (stateAfter startedTrace).rooms "100000" = some startedRoom ∧
    startedRoom.gameData = some freshGame ∧
    gameAction (stateAfter startedTrace) "A" "100000" "move" 4
      = Outcome.done firstMoveState [⟨Target.room "100000", Msg.gameUpdate firstMoveGame⟩] ∧
    checkWin firstMoveGame.board = none ∧
    boardFull firstMoveGame.board = false ∧
    startedRoom.players[0]?
      = some { id := "A", name := "ann", score := 0, isReady := true, isHost := true } ∧
    ∃ next room1,
      startedRoom.players[(0 + 1) % startedRoom.players.length]? = some next ∧
      firstMoveGame.turn = next.id ∧ firstMoveGame.round = freshGame.round + 1 ∧
      firstMoveGame.winner = freshGame.winner ∧ firstMoveGame.scores = freshGame.scores ∧
      startedRoom.gameState = Phase.playing ∧
      mapGet firstMoveState.rooms "100000" = some room1 ∧
      room1.gameData = some firstMoveGame ∧ room1.gameState = Phase.playing :=
  ⟨reachable_stateAfter startedTrace (by decide), by decide, by decide, by decide, by decide,
    by decide, by decide,
    turn_advances_from_first_index (stateAfter startedTrace)
      (reachable_stateAfter startedTrace (by decide)) "A" "100000" 4 startedRoom freshGame
      firstMoveState firstMoveGame 0
      { id := "A", name := "ann", score := 0, isReady := true, isHost := true }
      (by decide) (by decide) (by decide) (by decide) (by decide) (by decide) (by decide)
      (by intro j r hj; omega)⟩

/-! ## C6: a draw -/

/-- C6. In a reachable state, for an accepted move after which no pattern is
complete and all 9 cells are filled: the room becomes `finished`, the winner
was absent and stays absent, and scores, turn and round are unchanged. -/
theorem draw_finishes_without_winner (s : Server) (hs : Reachable s) (c : ConnId)
    (roomId : RoomId) (p : Int) (room : Room) (g : GameData) (s1 : Server) (g1 : GameData)
    (hroom : mapGet s.rooms roomId = some room)
    (hg : room.gameData = some g)
    (hmove : gameAction s c roomId "move" p
      = Outcome.done s1 [⟨Target.room roomId, Msg.gameUpdate g1⟩])
    (hnowin : checkWin g1.board = none)
    (hfull : boardFull g1.board = true) :
    ∃ room1,
      mapGet s1.rooms roomId = some room1 ∧ room1.gameData = some g1 ∧
      room1.gameState = Phase.finished ∧
      g1.board.length = 9 ∧
      g.winner = none ∧ g1.winner = none ∧
      g1.scores = g.scores ∧ g1.turn = g.turn ∧ g1.round = g.round := by
  obtain ⟨hplay, hres, room1, hroom1, hg1, -, hfin, -⟩ := gameAction_accepted hroom hmove
  obtain ⟨-, -, hlen, hrun, -⟩ := roomInv_of_mapGet (reachable_inv hs) hroom
  obtain ⟨g0, hg0, -, hw0⟩ := hrun hplay
  rw [hg] at hg0
  simp only [Option.some.injEq] at hg0
  subst hg0
  have hlen0 : g.board.length = 9 := hlen g hg
  obtain ⟨-, g0, hg0, -, -, hshape⟩ := processGameAction_eq_update hres
  rw [hg] at hg0
  simp only [Option.some.injEq] at hg0
  subst hg0
  rcases hshape with ⟨⟨m, hm⟩, hg1eq⟩ | ⟨-, -, hg1eq⟩ | ⟨-, hf, next, -, hg1eq⟩
  · rw [hg1eq] at hnowin
    simp only at hnowin
    rw [hm] at hnowin
    cases hnowin
  · have hgs1 : g1.gameState = some Phase.finished := by rw [hg1eq]
    refine ⟨room1, hroom1, hg1, hfin hgs1, ?_, hw0, ?_, ?_, ?_, ?_⟩
    · rw [hg1eq]; simpa using hlen0
    · rw [hg1eq]; exact hw0
    · rw [hg1eq]
    · rw [hg1eq]
    · rw [hg1eq]
  · rw [hg1eq] at hfull
    simp only at hfull
    rw [hf] at hfull
    cases hfull

/-- C6 at the ninth move of a drawn two-player game. -/
theorem draw_finishes_without_winner_witness :
    Reachable (stateAfter drawTrace) ∧
    mapGet (stateAfter drawTrace).rooms "100000" = some drawRoomBefore ∧
    drawRoomBefore.gameData = some drawGameBefore ∧
    gameAction (stateAfter drawTrace) "A" "100000" "move" 8
      = Outcome.done drawFinalState [⟨Target.room "100000", Msg.gameUpdate drawGameAfter⟩] ∧
    checkWin drawGameAfter.board = none ∧
    boardFull drawGameAfter.board = true ∧
    ∃ room1,
      mapGet drawFinalState.rooms "100000" = some room1 ∧
      room1.gameData = some drawGameAfter ∧
      room1.gameState = Phase.finished ∧
      drawGameAfter.board.length = 9 ∧
      drawGameBefore.winner = none ∧ drawGameAfter.winner = none ∧
      drawGameAfter.scores = drawGameBefore.scores ∧
      drawGameAfter.turn = drawGameBefore.turn ∧
      drawGameAfter.round = drawGameBefore.round :=
  ⟨reachable_stateAfter drawTrace (by decide), by decide, by decide, by decide, by decide,
    by decide,
    draw_finishes_without_winner (stateAfter drawTrace)
      (reachable_stateAfter drawTrace (by decide)) "A" "100000" 8 drawRoomBefore
      drawGameBefore drawFinalState drawGameAfter
      (by decide) (by decide) (by decide) (by decide) (by decide)⟩

/-! ## C7: capacity -/

/-- C7. In every state reachable from the empty registry by `create-room`,
`join-room`, `player-ready`, `game-action`, `send-message`, `leave-room`,
`disconnect` and timer firings, every registered room has `maxPlayers = 4` and
at most `maxPlayers` players. -/
theorem players_length_le_maxPlayers (s : Server) (hs : Reachable s) (roomId : RoomId)
    (room : Room) (hroom : (roomId, room) ∈ s.rooms) :
    room.maxPlayers = 4 ∧ room.players.length ≤ room.maxPlayers := by
  obtain ⟨h1, h2, -⟩ := reachable_inv hs (roomId, room) hroom
  exact ⟨h1, by rw [h1]; exact h2⟩

/-- C7 at the room that four players filled and a fifth tried to join. -/
theorem players_length_le_maxPlayers_witness :
    Reachable (stateAfter fullTrace) ∧ ("100000", fullRoom) ∈ (stateAfter fullTrace).rooms ∧
      fullRoom.maxPlayers = 4 ∧ fullRoom.players.length ≤ fullRoom.maxPlayers :=
  ⟨reachable_stateAfter fullTrace (by decide), by decide,
    players_length_le_maxPlayers (stateAfter fullTrace)
      (reachable_stateAfter fullTrace (by decide)) "100000" fullRoom (by decide)⟩

/-! ## C8: joining a room -/

/-- C8. In a reachable state, a `join-room` from socket `c` fails, that is,
emits exactly one `error` event addressed to `c` alone, if and only if the
room id is not registered or the room already holds `maxPlayers` players. On
failure the whole state (registry, player lists, session index, timers) is
unchanged. On success the new player is appended at the end of the player list
with score 0, `isReady = false` and `isHost` = (the list was empty), every
other room and every other session is untouched, the session of `c` is bound
to `(roomId, playerName)`, `room-joined` goes to `c` and `player-joined` to the
rest of the room. -/
theorem joinRoom_spec (s : Server) (hs : Reachable s) (c : ConnId) (roomId : RoomId)
    (playerName : String) :
    ((∃ message, (joinRoom s c roomId playerName).emits
          = [⟨Target.socket c, Msg.error message⟩]) ↔
      (mapGet s.rooms roomId = none ∨
        ∃ room, mapGet s.rooms roomId = some room ∧
          room.players.length = room.maxPlayers)) ∧
    ((mapGet s.rooms roomId = none ∨
        ∃ room, mapGet s.rooms roomId = some room ∧
          room.players.length = room.maxPlayers) →
      ∃ message, joinRoom s c roomId playerName
        = Outcome.done s [⟨Target.socket c, Msg.error message⟩]) ∧
    (∀ room, mapGet s.rooms roomId = some room →
      room.players.length ≠ room.maxPlayers →
      ∃ s1 room1 player,
        joinRoom s c roomId playerName
          = Outcome.done s1
              [⟨Target.socket c, Msg.roomJoined room1 c player.isHost⟩,
               ⟨Target.roomExcept roomId c, Msg.playerJoined player⟩] ∧
        player = { id := c, name := playerName, score := 0, isReady := false,
                   isHost := room.players.isEmpty } ∧
        room1 = { room with players := room.players ++ [player] } ∧
        mapGet s1.rooms roomId = some room1 ∧
        (∀ k, k ≠ roomId → mapGet s1.rooms k = mapGet s.rooms k) ∧
        mapGet s1.players c = some ⟨roomId, playerName⟩ ∧
        (∀ k, k ≠ c → mapGet s1.players k = mapGet s.players k) ∧
        s1.timers = s.timers) := by
  have hinv := reachable_inv hs
  have hfail : (mapGet s.rooms roomId = none ∨
        ∃ room, mapGet s.rooms roomId = some room ∧
          room.players.length = room.maxPlayers) →
      ∃ message, joinRoom s c roomId playerName
        = Outcome.done s [⟨Target.socket c, Msg.error message⟩] := by
    rintro (hnone | ⟨room, hroom, hfull⟩)
    · exact ⟨"Room tidak ditemukan", by simp [joinRoom, hnone]⟩
    · exact ⟨"Room penuh", by simp [joinRoom, hroom, hfull]⟩
  have hok : ∀ room, mapGet s.rooms roomId = some room →
      room.players.length ≠ room.maxPlayers →
      ∃ s1 room1 player,
        joinRoom s c roomId playerName
          = Outcome.done s1
              [⟨Target.socket c, Msg.roomJoined room1 c player.isHost⟩,
               ⟨Target.roomExcept roomId c, Msg.playerJoined player⟩] ∧
        player = { id := c, name := playerName, score := 0, isReady := false,
                   isHost := room.players.isEmpty } ∧
        room1 = { room with players := room.players ++ [player] } ∧
        mapGet s1.rooms roomId = some room1 ∧
        (∀ k, k ≠ roomId → mapGet s1.rooms k = mapGet s.rooms k) ∧
        mapGet s1.players c = some ⟨roomId, playerName⟩ ∧
        (∀ k, k ≠ c → mapGet s1.players k = mapGet s.players k) ∧
        s1.timers = s.timers := by
    intro room hroom hne
    obtain ⟨h1, h2, -⟩ := roomInv_of_mapGet hinv hroom
    have hlt : ¬ room.players.length ≥ room.maxPlayers := by omega
    have hhost : decide (room.players.length = 0) = room.players.isEmpty := by
      cases room.players <;> simp
    refine ⟨{ s with
        rooms := mapSet s.rooms roomId
          { room with
            players := room.players ++
              [{ id := c, name := playerName, score := 0, isReady := false,
                 isHost := room.players.isEmpty }] }
        players := mapSet s.players c ⟨roomId, playerName⟩ },
      _, _, ?_, rfl, rfl, ?_, ?_, ?_, ?_, rfl⟩
    · simp only [joinRoom, hroom, hlt, if_false, hhost]
    · exact mapGet_mapSet_self _ _ _
    · intro k hk
      exact mapGet_mapSet_ne _ _ _ hk _
    · exact mapGet_mapSet_self _ _ _
    · intro k hk
      exact mapGet_mapSet_ne _ _ _ hk _
  refine ⟨⟨?_, ?_⟩, hfail, hok⟩
  · rintro ⟨message, hmsg⟩
    cases hroom : mapGet s.rooms roomId with
    | none => exact Or.inl rfl
    | some room =>
      right
      refine ⟨room, rfl, ?_⟩
      by_contra hne
      obtain ⟨s1, room1, player, hjoin, -⟩ := hok room hroom hne
      rw [hjoin] at hmsg
      simp [Outcome.emits] at hmsg
  · intro h
    obtain ⟨message, hjoin⟩ := hfail h
    exact ⟨message, by rw [hjoin]; rfl⟩

/-- C8 at the full room: the join of `E` is refused with a single `error`
event for `E`, and the state stays as it is. -/
theorem joinRoom_spec_witness :
    Reachable (stateAfter fullTrace) ∧
      ∃ message, joinRoom (stateAfter fullTrace) "E" "100000" "eve"
        = Outcome.done (stateAfter fullTrace) [⟨Target.socket "E", Msg.error message⟩] :=
  ⟨reachable_stateAfter fullTrace (by decide),
    (joinRoom_spec (stateAfter fullTrace) (reachable_stateAfter fullTrace (by decide))
      "E" "100000" "eve").2.1 (Or.inr ⟨fullRoom, by decide, by decide⟩)⟩

/-! ## C9: the post-game reset -/

theorem mapGet_map_reset (ref : Nat) (k : RoomId) :
    ∀ m : List (RoomId × Room),
      mapGet (m.map (fun e => if e.2.ref = ref then (e.1, resetRoom e.2) else e)) k =
        (mapGet m k).map (fun r => if r.ref = ref then resetRoom r else r) := by
  intro m
  induction m with
  | nil => rfl
  | cons x rest ih =>
    obtain ⟨k1, v1⟩ := x
    have hx : (if (k1, v1).2.ref = ref then ((k1, v1).1, resetRoom (k1, v1).2) else (k1, v1))
        = (k1, if v1.ref = ref then resetRoom v1 else v1) := by
      by_cases hr : v1.ref = ref <;> simp [hr]
    rw [List.map_cons, hx]
    by_cases hk : k1 = k
    · simp only [mapGet, hk, if_true, Option.map_some']
    · simp only [mapGet, hk, if_false, ih]

/-- C9, as stated, fails. `A` wins a game, which schedules the reset; when the
reset fires the room is `waiting` and nobody is ready, but `gameData` is not
`null`: the game object of the finished game is still attached, so a room in
state `waiting` holds a GameState. -/
theorem reset_keeps_gameData_counterexample :
    run Server.empty winTrace = some (stateAfter winTrace) ∧
    (stateAfter winTrace).timers = [Timer.reset 0 "100000"] ∧
    ((stateAfter winTrace).room? "100000").map (fun r => r.gameState)
      = some Phase.finished ∧
    (handle (stateAfter winTrace) (Event.fire 0)).completed = true ∧
    (handle (stateAfter winTrace) (Event.fire 0)).emits
      = [⟨Target.room "100000", Msg.gameReset⟩] ∧
    ((handle (stateAfter winTrace) (Event.fire 0)).server?.bind
        (fun s1 => s1.room? "100000")).map
        (fun r => (r.gameState, r.players.map (fun q => q.isReady)))
      = some (Phase.waiting, [false, false]) ∧
    ((handle (stateAfter winTrace) (Event.fire 0)).server?.bind
        (fun s1 => s1.game? "100000")).map (fun g => g.winner) = some (some "A") ∧
    ((handle (stateAfter winTrace) (Event.fire 0)).server?.bind
        (fun s1 => s1.room? "100000")).map (fun r => decide (r.gameData = none))
      = some false := by
  refine ⟨?_, ?_, ?_, ?_, ?_, ?_, ?_, ?_⟩ <;> decide

/-- C9, amended. In a reachable state, when a pending post-game reset fires,
`game-reset` is emitted to the room and the room object the callback closed
over (if still registered) ends in state `waiting` with every player's
`isReady` false and the players otherwise as they were, while its `gameData` is
left as it was, and that is a game object, not `null`. In every reachable state
a room that is `playing` or `finished` holds a game object. -/
theorem reset_leaves_gameData (s : Server) (hs : Reachable s) (i : Nat) (ref : Nat)
    (roomId : RoomId) (ht : s.timers[i]? = some (Timer.reset ref roomId)) :
    (∃ s1, handle s (Event.fire i)
        = Outcome.done s1 [⟨Target.room roomId, Msg.gameReset⟩] ∧
      ∀ k room, mapGet s.rooms k = some room → room.ref = ref →
        room.gameData ≠ none ∧
        ∃ room1, mapGet s1.rooms k = some room1 ∧
          room1.gameState = Phase.waiting ∧
          (∀ q ∈ room1.players, q.isReady = false) ∧
          room1.players = room.players.map (fun q => { q with isReady := false }) ∧
          room1.gameData = room.gameData) ∧
    (∀ k room, mapGet s.rooms k = some room →
      (room.gameState = Phase.playing ∨ room.gameState = Phase.finished) →
      room.gameData ≠ none) := by
  constructor
  · refine ⟨{ s with
        rooms := s.rooms.map (fun e => if e.2.ref = ref then (e.1, resetRoom e.2) else e)
        timers := s.timers.eraseIdx i },
      by simp only [handle, ht, fireTimer, fireReset], ?_⟩
    intro k room hroom href
    obtain ⟨-, -, -, h4⟩ := reachable_refInv hs
    have hmem : Timer.reset ref roomId ∈ s.timers := List.getElem?_mem ht
    refine ⟨h4 ref roomId hmem (k, room) (mapGet_mem k room s.rooms hroom) href, ?_⟩
    refine ⟨resetRoom room, ?_, rfl, ?_, rfl, rfl⟩
    · simp only [mapGet_map_reset, hroom, Option.map_some', href, if_true]
    · intro q hq
      simp only [resetRoom, List.mem_map] at hq
      obtain ⟨q0, -, rfl⟩ := hq
      rfl
  · intro k room hroom hstate
    obtain ⟨-, -, -, hplay, hfin⟩ := roomInv_of_mapGet (reachable_inv hs) hroom
    rcases hstate with h | h
    · obtain ⟨g, hg, -⟩ := hplay h
      simp [hg]
    · exact hfin h

/-- C9 (amended) at the reset scheduled by the move with which `A` won. -/
theorem reset_leaves_gameData_witness :
    Reachable (stateAfter winTrace) ∧
    (stateAfter winTrace).timers[0]? = some (Timer.reset 0 "100000") ∧
    ((∃ s1, handle (stateAfter winTrace) (Event.fire 0)
        = Outcome.done s1 [⟨Target.room "100000", Msg.gameReset⟩] ∧
      ∀ k room, mapGet (stateAfter winTrace).rooms k = some room → room.ref = 0 →
        room.gameData ≠ none ∧
        ∃ room1, mapGet s1.rooms k = some room1 ∧
          room1.gameState = Phase.waiting ∧
          (∀ q ∈ room1.players, q.isReady = false) ∧
          room1.players = room.players.map (fun q => { q with isReady := false }) ∧
          room1.gameData = room.gameData) ∧
    (∀ k room, mapGet (stateAfter winTrace).rooms k = some room →
      (room.gameState = Phase.playing ∨ room.gameState = Phase.finished) →
      room.gameData ≠ none)) :=
  ⟨reachable_stateAfter winTrace (by decide), by decide,
    reset_leaves_gameData (stateAfter winTrace) (reachable_stateAfter winTrace (by decide))
      0 0 "100000" (by decide)⟩

/-! ## C10: leave-room and disconnect -/

/-- C10 (code defect). `A` is the only player of room `"100000"` and is bound
to it. Leaving and disconnecting both empty the player list, unbind the
session and emit `player-left` to the room, but only `leave-room` schedules the
empty-room sweep: after `disconnect` no timer is pending. -/
theorem disconnect_schedules_no_sweep :
    run Server.empty soloTrace = some (stateAfter soloTrace) ∧
    mapGet (stateAfter soloTrace).players "A" = some ⟨"100000", "ann"⟩ ∧
    (leaveRoom (stateAfter soloTrace) "A" "100000").completed = true ∧
    (disconnect (stateAfter soloTrace) "A").completed = true ∧
    (leaveRoom (stateAfter soloTrace) "A" "100000").server?.map (fun s => s.rooms)
      = (disconnect (stateAfter soloTrace) "A").server?.map (fun s => s.rooms) ∧
    ((leaveRoom (stateAfter soloTrace) "A" "100000").server?.bind
        (fun s => s.room? "100000")).map (fun r => r.players) = some [] ∧
    (leaveRoom (stateAfter soloTrace) "A" "100000").server?.map (fun s => s.players)
      = (disconnect (stateAfter soloTrace) "A").server?.map (fun s => s.players) ∧
    (leaveRoom (stateAfter soloTrace) "A" "100000").emits
      = (disconnect (stateAfter soloTrace) "A").emits ∧
    (disconnect (stateAfter soloTrace) "A").emits
      = [⟨Target.room "100000", Msg.playerLeft "A"⟩] ∧
    (leaveRoom (stateAfter soloTrace) "A" "100000").server?.map (fun s => s.timers)
      = some [Timer.sweep "100000"] ∧
    (disconnect (stateAfter soloTrace) "A").server?.map (fun s => s.timers) = some [] := by
  refine ⟨?_, ?_, ?_, ?_, ?_, ?_, ?_, ?_, ?_, ?_, ?_⟩ <;> decide

/-- Where the two handlers agree and where they differ, in general: for a
connection bound to a registered room, `leave-room` for that room and
`disconnect` produce the same registry, the same session index and the same
emission; `disconnect` leaves the timers as they are, `leave-room` adds the
sweep when the room became empty. -/
theorem leaveRoom_disconnect_agree (s : Server) (c : ConnId) (roomId : RoomId)
    (playerName : String) (room : Room)
    (hbound : mapGet s.players c = some ⟨roomId, playerName⟩)
    (hroom : mapGet s.rooms roomId = some room) :
    ∃ s1 s2 out,
      leaveRoom s c roomId = Outcome.done s1 out ∧
      disconnect s c = Outcome.done s2 out ∧
      out = [⟨Target.room roomId, Msg.playerLeft c⟩] ∧
      s1.rooms = s2.rooms ∧ s1.players = s2.players ∧
      s2.timers = s.timers ∧
      s1.timers =
        if (room.players.filter (fun p => decide (p.id ≠ c))).length = 0 then
          s.timers ++ [Timer.sweep roomId]
        else s.timers := by
  refine ⟨{ s with
      rooms := mapSet s.rooms roomId
        { room with players := room.players.filter (fun p => decide (p.id ≠ c)) }
      players := mapDelete s.players c
      timers :=
        if (room.players.filter (fun p => decide (p.id ≠ c))).length = 0 then
          s.timers ++ [Timer.sweep roomId]
        else s.timers },
    { s with
      rooms := mapSet s.rooms roomId
        { room with players := room.players.filter (fun p => decide (p.id ≠ c)) }
      players := mapDelete s.players c },
    [⟨Target.room roomId, Msg.playerLeft c⟩], ?_, ?_, rfl, rfl, rfl, rfl, rfl⟩
  · simp only [leaveRoom, hroom]
  · simp only [disconnect, hbound, hroom]

/-! ## One event, one room -/

theorem mapGet_mapDelete_ne {β : Type} (k k1 : String) (hne : k1 ≠ k) :
    ∀ m : List (String × β), mapGet (mapDelete m k) k1 = mapGet m k1 := by
  intro m
  induction m with
  | nil => rfl
  | cons x rest ih =>
    obtain ⟨k2, v2⟩ := x
    by_cases hk : k2 = k
    · subst hk
      have hk2 : ¬ k2 = k1 := fun h => hne h.symm
      simpa [mapDelete, List.filter_cons, mapGet, hk2] using ih
    · by_cases hk1 : k2 = k1
      · subst hk1
        simp [mapDelete, List.filter_cons, hk, mapGet]
      · simpa [mapDelete, List.filter_cons, hk, mapGet, hk1] using ih

/-- What a completed event does to the entry of the registry under the key
`k`: nothing, one of the changes of `RoomEvent`, the registration of a fresh
room by `create-room`, or the removal of an empty room by the sweep. -/
theorem handle_room_cases {s s1 : Server} {e : Event} {out : List Emit}
    (h : handle s e = Outcome.done s1 out) (k : RoomId) :
    mapGet s1.rooms k = mapGet s.rooms k ∨
    (∃ room room1, mapGet s.rooms k = some room ∧ mapGet s1.rooms k = some room1 ∧
      RoomEvent s k room e room1) ∨
    (mapGet s.rooms k = none ∧ ∃ playerName now draws,
      e = Event.createRoom playerName now draws ∧
      mapGet s1.rooms k = some (freshRoom s.nextRef k playerName now)) ∨
    (mapGet s1.rooms k = none ∧ ∃ room i,
      mapGet s.rooms k = some room ∧ room.players.length = 0 ∧ e = Event.fire i ∧
      s.timers[i]? = some (Timer.sweep k)) := by
  cases e with
  | createRoom playerName now draws =>
    simp only [handle, createRoom] at h
    cases hid : generateRoomId s.rooms draws with
    | none => simp [hid] at h
    | some roomId =>
      simp only [hid, Outcome.done.injEq] at h
      rw [← h.1]
      by_cases hk : k = roomId
      · subst hk
        right; right; left
        exact ⟨generateRoomId_fresh hid, playerName, now, draws, rfl,
          mapGet_mapSet_self _ _ _⟩
      · left
        exact mapGet_mapSet_ne _ _ _ hk _
  | joinRoom c roomId playerName =>
    simp only [handle, joinRoom] at h
    cases hroom : mapGet s.rooms roomId with
    | none =>
      simp only [hroom, Outcome.done.injEq] at h
      rw [← h.1]; exact Or.inl rfl
    | some room =>
      simp only [hroom] at h
      by_cases hfull : room.players.length ≥ room.maxPlayers
      · simp only [hfull, if_true, Outcome.done.injEq] at h
        rw [← h.1]; exact Or.inl rfl
      · simp only [hfull, if_false, Outcome.done.injEq] at h
        rw [← h.1]
        by_cases hk : k = roomId
        · subst hk
          right; left
          exact ⟨room, _, hroom, mapGet_mapSet_self _ _ _,
            RoomEvent.join c playerName (by omega)⟩
        · left
          exact mapGet_mapSet_ne _ _ _ hk _
  | playerReady c roomId playerId =>
    simp only [handle, playerReady] at h
    cases hroom : mapGet s.rooms roomId with
    | none =>
      simp only [hroom, Outcome.done.injEq] at h
      rw [← h.1]; exact Or.inl rfl
    | some room =>
      simp only [hroom] at h
      cases hmark : markReady playerId room.players with
      | none =>
        simp only [hmark, Outcome.done.injEq] at h
        rw [← h.1]; exact Or.inl rfl
      | some players1 =>
        simp only [hmark] at h
        by_cases hall : players1.all (fun p => p.isReady) = true ∧ players1.length ≥ 2
        · simp only [hall, and_self, if_true] at h
          cases hinit : initializeGame players1 with
          | none => simp [hinit] at h
          | some g =>
            simp only [hinit, Outcome.done.injEq] at h
            rw [← h.1]
            by_cases hk : k = roomId
            · subst hk
              right; left
              exact ⟨room, _, hroom, mapGet_mapSet_self _ _ _,
                RoomEvent.start c playerId players1 g hmark hall hinit⟩
            · left
              exact mapGet_mapSet_ne _ _ _ hk _
        · simp only [hall, if_false, Outcome.done.injEq] at h
          rw [← h.1]
          by_cases hk : k = roomId
          · subst hk
            right; left
            exact ⟨room, _, hroom, mapGet_mapSet_self _ _ _,
              RoomEvent.ready c playerId players1 hmark hall⟩
          · left
            exact mapGet_mapSet_ne _ _ _ hk _
  | gameAction c roomId action position =>
    rcases gameAction_done h with ⟨rfl, -⟩ | ⟨room, g, hroom, hplay, hres, -, hcase⟩
    · exact Or.inl rfl
    by_cases hk : k = roomId
    · subst hk
      right; left
      rcases hcase with ⟨hfin, rfl⟩ | ⟨hfin, rfl⟩
      · exact ⟨room, _, hroom, mapGet_mapSet_self _ _ _,
          RoomEvent.finish c action position g hplay hres hfin⟩
      · exact ⟨room, _, hroom, mapGet_mapSet_self _ _ _,
          RoomEvent.move c action position g hplay hres hfin⟩
    · left
      rcases hcase with ⟨-, rfl⟩ | ⟨-, rfl⟩
      · exact mapGet_mapSet_ne _ _ _ hk _
      · exact mapGet_mapSet_ne _ _ _ hk _
  | sendMessage c roomId message playerName timestamp =>
    simp only [handle, sendMessage, Outcome.done.injEq] at h
    rw [← h.1]; exact Or.inl rfl
  | leaveRoom c roomId =>
    simp only [handle, leaveRoom] at h
    cases hroom : mapGet s.rooms roomId with
    | none =>
      simp only [hroom, Outcome.done.injEq] at h
      rw [← h.1]; exact Or.inl rfl
    | some room =>
      simp only [hroom, Outcome.done.injEq] at h
      rw [← h.1]
      by_cases hk : k = roomId
      · subst hk
        right; left
        exact ⟨room, _, hroom, mapGet_mapSet_self _ _ _, RoomEvent.leave c⟩
      · left
        exact mapGet_mapSet_ne _ _ _ hk _
  | disconnect c =>
    simp only [handle, disconnect] at h
    cases hp : mapGet s.players c with
    | none =>
      simp only [hp, Outcome.done.injEq] at h
      rw [← h.1]; exact Or.inl rfl
    | some player =>
      simp only [hp] at h
      cases hroom : mapGet s.rooms player.roomId with
      | none =>
        simp only [hroom, Outcome.done.injEq] at h
        rw [← h.1]; exact Or.inl rfl
      | some room =>
        simp only [hroom, Outcome.done.injEq] at h
        rw [← h.1]
        by_cases hk : k = player.roomId
        · subst hk
          right; left
          exact ⟨room, _, hroom, mapGet_mapSet_self _ _ _,
            RoomEvent.disconnect c player.playerName hp⟩
        · left
          exact mapGet_mapSet_ne _ _ _ hk _
  | fire i =>
    simp only [handle] at h
    cases ht : s.timers[i]? with
    | none =>
      simp only [ht, Outcome.done.injEq] at h
      rw [← h.1]; exact Or.inl rfl
    | some t =>
      simp only [ht] at h
      cases t with
      | reset ref roomId =>
        simp only [fireTimer, fireReset, Outcome.done.injEq] at h
        rw [← h.1]
        simp only [mapGet_map_reset]
        cases hroom : mapGet s.rooms k with
        | none => left; rfl
        | some room =>
          by_cases href : room.ref = ref
          · right; left
            refine ⟨room, resetRoom room, rfl, by simp [href], ?_⟩
            subst href
            exact RoomEvent.reset i roomId ht
          · left
            simp [href]
      | sweep roomId =>
        simp only [fireTimer, fireSweep] at h
        cases hroom : mapGet s.rooms roomId with
        | none =>
          simp only [hroom, Outcome.done.injEq] at h
          rw [← h.1]; exact Or.inl rfl
        | some room =>
          simp only [hroom] at h
          by_cases hempty : room.players.length = 0
          · simp only [hempty, if_true, Outcome.done.injEq] at h
            rw [← h.1]
            by_cases hk : k = roomId
            · subst hk
              right; right; right
              exact ⟨mapGet_mapDelete_self _ _, room, i, hroom, hempty, rfl, ht⟩
            · left
              exact mapGet_mapDelete_ne _ _ hk _
          · simp only [hempty, if_false, Outcome.done.injEq] at h
            rw [← h.1]; exact Or.inl rfl

/-! ## Invariants of single rooms -/

/-- A property of rooms that holds of a freshly created room and is kept by
every change an event makes to a room holds of every registered room in every
reachable state. -/
theorem reachable_room_invariant (P : Room → Prop)
    (hfresh : ∀ ref k playerName now, P (freshRoom ref k playerName now))
    (hkeep : ∀ s k room e room1, RoomInv room → P room → RoomEvent s k room e room1 → P room1)
    {s : Server} (hs : Reachable s) :
    ∀ k room, mapGet s.rooms k = some room → P room := by
  induction hs with
  | init => intro k room h; simp [Server.empty, mapGet] at h
  | @step s0 s1 e hs0 hstep ih =>
    intro k room1 h1
    obtain ⟨-, out, hh⟩ := step_eq_some hstep
    rcases handle_room_cases hh k with heq | ⟨room, room2, h0, h2, hev⟩ |
      ⟨-, playerName, now, draws, -, hfr⟩ | ⟨hnone, -⟩
    · exact ih k room1 (heq ▸ h1)
    · rw [h1] at h2
      simp only [Option.some.injEq] at h2
      subst h2
      exact hkeep s0 k room e room1 (roomInv_of_mapGet (reachable_inv hs0) h0) (ih k room h0) hev
    · rw [h1] at hfr
      simp only [Option.some.injEq] at hfr
      rw [hfr]
      exact hfresh _ _ _ _
    · rw [h1] at hnone
      cases hnone

theorem markReady_map {β : Type} (f : Player → β)
    (hf : ∀ p : Player, f { p with isReady := true } = f p) {playerId : ConnId} :
    ∀ {players players1 : List Player}, markReady playerId players = some players1 →
      players1.map f = players.map f := by
  intro players
  induction players with
  | nil => intro players1 h; simp [markReady] at h
  | cons p ps ih =>
    intro players1 h
    unfold markReady at h
    split_ifs at h with hp
    · simp only [Option.some.injEq] at h
      subst h
      simp [hf]
    · cases hm : markReady playerId ps with
      | none => simp [hm] at h
      | some qs =>
        simp only [hm, Option.map_some', Option.some.injEq] at h
        subst h
        simp [ih hm]

theorem hostInv_iff (room : Room) :
    HostInv room ↔ ∀ b ∈ (room.players.map (fun q => q.isHost)).tail, b = false := by
  unfold HostInv
  rw [← List.map_tail]
  simp only [List.mem_map]
  constructor
  · rintro h b ⟨q, hq, rfl⟩
    exact h q hq
  · intro h q hq
    exact h _ ⟨q, hq, rfl⟩

theorem hostInv_of_map_eq {room room1 : Room}
    (h : room1.players.map (fun q => q.isHost) = room.players.map (fun q => q.isHost))
    (hr : HostInv room) : HostInv room1 := by
  rw [hostInv_iff] at hr ⊢
  rw [h]; exact hr

theorem hostInv_filter {room room1 : Room} (f : Player → Bool)
    (h : room1.players = room.players.filter f) (hr : HostInv room) : HostInv room1 := by
  intro q hq
  rw [h] at hq
  exact hr q ((List.filter_sublist _).tail.subset hq)

/-- In every reachable state only the first player of a room can be host. -/
theorem reachable_hostInv {s : Server} (hs : Reachable s) :
    ∀ k room, mapGet s.rooms k = some room → HostInv room := by
  refine reachable_room_invariant HostInv ?_ ?_ hs
  · intro ref k playerName now q hq
    simp [freshRoom] at hq
  · intro s k room e room1 _ hr hev
    cases hev with
    | join c playerName hfree =>
      intro q hq
      cases hpl : room.players with
      | nil => simp [hpl] at hq
      | cons p ps =>
        simp only [hpl, List.cons_append, List.tail_cons, List.mem_append,
          List.mem_singleton] at hq
        rcases hq with hq | rfl
        · exact hr q (by simp [hpl, hq])
        · simp
    | ready c playerId players1 hmark hwait =>
      exact hostInv_of_map_eq (markReady_map (fun q => q.isHost) (fun _ => rfl) hmark) hr
    | start c playerId players1 g hmark hall hinit =>
      exact hostInv_of_map_eq (markReady_map (fun q => q.isHost) (fun _ => rfl) hmark) hr
    | move c action position g hplay hres hgo => exact hr
    | finish c action position g hplay hres hfin => exact hr
    | leave c => exact hostInv_filter _ rfl hr
    | disconnect c playerName hbound => exact hostInv_filter _ rfl hr
    | reset i roomId htimer =>
      refine hostInv_of_map_eq ?_ hr
      simp [resetRoom, List.map_map, Function.comp]

theorem filter_isHost_of_hostInv {room : Room} (hr : HostInv room) :
    ∀ p rest, room.players = p :: rest →
      room.players.filter (fun q => q.isHost) = if p.isHost then [p] else [] := by
  intro p rest hpl
  have hrest : rest.filter (fun q => q.isHost) = [] := by
    rw [List.filter_eq_nil_iff]
    intro q hq
    have := hr q (by simp [hpl, hq])
    simp [this]
  rw [hpl, List.filter_cons]
  by_cases hp : p.isHost = true
  · simp [hp, hrest]
  · simp [hp, hrest]

theorem countP_set_of_empty (m : Mark) :
    ∀ (board : List Cell) (i : Nat), board[i]? = some none →
      (board.set i (some m)).countP (fun cell => cell.isSome)
        = board.countP (fun cell => cell.isSome) + 1 := by
  intro board
  induction board with
  | nil => intro i h; simp at h
  | cons x rest ih =>
    intro i h
    cases i with
    | zero =>
      simp only [List.getElem?_cons_zero, Option.some.injEq] at h
      subst h
      simp [List.countP_cons]
    | succ i =>
      simp only [List.getElem?_cons_succ] at h
      simp only [List.set_cons_succ, List.countP_cons, ih i h]
      omega

/-- In every reachable state the board of a running game has no complete
pattern, is not full, and holds exactly `round - 1` marks. -/
theorem reachable_gameInv {s : Server} (hs : Reachable s) :
    ∀ k room, mapGet s.rooms k = some room → GameInv room := by
  refine reachable_room_invariant GameInv ?_ ?_ hs
  · intro ref k playerName now hplay
    simp [freshRoom] at hplay
  · intro s k room e room1 hinv hr hev
    cases hev with
    | join c playerName hfree => exact hr
    | ready c playerId players1 hmark hwait => exact hr
    | start c playerId players1 g hmark hall hinit =>
      intro _ g1 hg1
      simp only [Option.some.injEq] at hg1
      subst hg1
      obtain ⟨p, rest, -, hg⟩ := initializeGame_eq_some hinit
      rw [hg]
      simp only
      refine ⟨by decide, by decide, by decide⟩
    | move c action position g hplay hres hgo =>
      intro _ g1 hg1
      simp only [Option.some.injEq] at hg1
      subst hg1
      obtain ⟨-, g0, hg0, -, hcell, hshape⟩ := processGameAction_eq_update hres
      obtain ⟨-, -, hcount⟩ := hr hplay g0 hg0
      rcases hshape with ⟨-, hg⟩ | ⟨-, -, hg⟩ | ⟨hw, hf, q, -, hg⟩
      · rw [hg] at hgo; simp at hgo
      · rw [hg] at hgo; simp at hgo
      · rw [hg]
        refine ⟨hw, hf, ?_⟩
        have hp0 : 0 ≤ position := by
          by_contra hneg
          simp [boardAt, hneg] at hcell
        have hget : g0.board[position.toNat]? = some none := by
          simpa [boardAt, hp0] using hcell
        simp only [countP_set_of_empty _ _ _ hget]
        omega
    | finish c action position g hplay hres hfin =>
      intro hp
      simp at hp
    | leave c => exact hr
    | disconnect c playerName hbound => exact hr
    | reset i roomId htimer =>
      intro hp
      simp [resetRoom] at hp

/-! ## C11: the empty-room sweep -/

/-- C11, as stated, fails in its last part. Room `r` (object `0`, id
`"100000"`) is emptied by `A`, then again by `B`, which schedules two sweeps.
The first sweep removes `r`; `create-room` then issues the freed id to a new
room (object `1`, creator `cat`). When the second sweep, scheduled by the
leave-room that emptied `r`, fires, `r` is no longer registered, and the room
that is removed is the new one: another room is affected. -/
theorem sweep_removes_reused_id_counterexample :
    run Server.empty reusedIdTrace = some (stateAfter reusedIdTrace) ∧
    ((stateAfter emptiedTrace).room? "100000").map (fun r => (r.ref, r.players.length))
      = some (0, 0) ∧
    (stateAfter emptiedTrace).timers = [Timer.sweep "100000"] ∧
    (stateAfter sweptTrace).rooms.map (fun e => e.1) = [] ∧
    (stateAfter sweptTrace).timers = [Timer.sweep "100000"] ∧
    (stateAfter reusedIdTrace).rooms.map (fun e => (e.1, e.2.ref)) = [("100000", 1)] ∧
    ((stateAfter reusedIdTrace).room? "100000").map (fun r => (r.creator, r.players.length))
      = some ("cat", 0) ∧
    (stateAfter reusedIdTrace).timers = [Timer.sweep "100000"] ∧
    (handle (stateAfter reusedIdTrace) (Event.fire 0)).server?.map
      (fun s1 => s1.rooms.map (fun e => e.1)) = some [] := by
  refine ⟨?_, ?_, ?_, ?_, ?_, ?_, ?_, ?_, ?_⟩ <;> decide

/-- C11, amended. When a pending empty-room sweep for the room id `roomId`
fires, the callback completes without emission and looks at the room that is
registered under `roomId` at that moment, whichever room object that is: the
room whose emptying scheduled the sweep, or a room created later under the
same id. That room is removed (registered before, not registered after) if
and only if it has zero players. The registry after the sweep holds exactly
the entries it held before, except the entry of `roomId` when that room was
empty. If no room is registered under `roomId`, or a player is in it, the
registry is left exactly as it was; in every case the entries of all other
room ids, the session index and the other timers are untouched. -/
theorem sweep_removes_room_under_id (s : Server) (i : Nat) (roomId : RoomId)
    (ht : s.timers[i]? = some (Timer.sweep roomId)) :
    ∃ s1, handle s (Event.fire i) = Outcome.done s1 [] ∧
      s1.players = s.players ∧ s1.timers = s.timers.eraseIdx i ∧
      ((mapGet s.rooms roomId ≠ none ∧ mapGet s1.rooms roomId = none) ↔
        ∃ room, mapGet s.rooms roomId = some room ∧ room.players.length = 0) ∧
      (∀ k room, (k, room) ∈ s1.rooms ↔
        (k, room) ∈ s.rooms ∧
          ¬ (k = roomId ∧ ∃ room0, mapGet s.rooms roomId = some room0 ∧
            room0.players.length = 0)) ∧
      (mapGet s.rooms roomId = none → s1.rooms = s.rooms) ∧
      (∀ room, mapGet s.rooms roomId = some room → room.players.length ≠ 0 →
        s1.rooms = s.rooms) ∧
      (∀ k, k ≠ roomId → mapGet s1.rooms k = mapGet s.rooms k) := by
  obtain hroom | ⟨room, hroom⟩ :
      mapGet s.rooms roomId = none ∨ ∃ room, mapGet s.rooms roomId = some room := by
    cases mapGet s.rooms roomId <;> simp
  · refine ⟨{ s with timers := s.timers.eraseIdx i }, ?_, rfl, rfl, ?_, ?_, fun _ => rfl,
      fun _ _ _ => rfl, fun k _ => rfl⟩
    · simp only [handle, ht, fireTimer, fireSweep, hroom]
    · simp [hroom]
    · intro k room
      simp [hroom]
  · by_cases hempty : room.players.length = 0
    · refine ⟨{ s with rooms := mapDelete s.rooms roomId, timers := s.timers.eraseIdx i },
        ?_, rfl, rfl, ?_, ?_, ?_, ?_, ?_⟩
      · simp only [handle, ht, fireTimer, fireSweep, hroom, hempty, if_true]
      · constructor
        · intro _; exact ⟨room, hroom, hempty⟩
        · intro _; exact ⟨by simp [hroom], mapGet_mapDelete_self _ _⟩
      · intro k room1
        simp only [mapDelete, List.mem_filter, decide_eq_true_eq, ne_eq, hroom,
          Option.some.injEq, exists_eq_left', hempty, and_true]
      · intro h
        rw [hroom] at h
        cases h
      · intro room1 h1 hne
        rw [hroom] at h1
        simp only [Option.some.injEq] at h1
        subst h1
        exact absurd hempty hne
      · intro k hk
        exact mapGet_mapDelete_ne _ _ hk _
    · refine ⟨{ s with timers := s.timers.eraseIdx i }, ?_, rfl, rfl, ?_, ?_, fun _ => rfl,
        fun _ _ _ => rfl, fun k _ => rfl⟩
      · simp only [handle, ht, fireTimer, fireSweep, hroom, hempty, if_false]
      · constructor
        · rintro ⟨-, h1⟩
          rw [hroom] at h1
          cases h1
        · rintro ⟨room1, h1, h2⟩
          rw [hroom] at h1
          simp only [Option.some.injEq] at h1
          subst h1
          exact absurd h2 hempty
      · intro k room1
        simp only [hroom, Option.some.injEq, exists_eq_left', hempty, and_false,
          not_false_eq_true, and_true]

/-- C11 (amended) at the second sweep of the removed room, which finds the new
room registered under the reused id `"100000"`. -/
theorem sweep_removes_room_under_id_witness :
    (stateAfter reusedIdTrace).timers[0]? = some (Timer.sweep "100000") ∧
    ∃ s1, handle (stateAfter reusedIdTrace) (Event.fire 0) = Outcome.done s1 [] ∧
      s1.players = (stateAfter reusedIdTrace).players ∧
      s1.timers = (stateAfter reusedIdTrace).timers.eraseIdx 0 ∧
      ((mapGet (stateAfter reusedIdTrace).rooms "100000" ≠ none ∧
          mapGet s1.rooms "100000" = none) ↔
        ∃ room, mapGet (stateAfter reusedIdTrace).rooms "100000" = some room ∧
          room.players.length = 0) ∧
      (∀ k room, (k, room) ∈ s1.rooms ↔
        (k, room) ∈ (stateAfter reusedIdTrace).rooms ∧
          ¬ (k = "100000" ∧ ∃ room0,
            mapGet (stateAfter reusedIdTrace).rooms "100000" = some room0 ∧
            room0.players.length = 0)) ∧
      (mapGet (stateAfter reusedIdTrace).rooms "100000" = none →
        s1.rooms = (stateAfter reusedIdTrace).rooms) ∧
      (∀ room, mapGet (stateAfter reusedIdTrace).rooms "100000" = some room →
        room.players.length ≠ 0 → s1.rooms = (stateAfter reusedIdTrace).rooms) ∧
      (∀ k, k ≠ "100000" →
        mapGet s1.rooms k = mapGet (stateAfter reusedIdTrace).rooms k) :=
  ⟨by decide, sweep_removes_room_under_id (stateAfter reusedIdTrace) 0 "100000" (by decide)⟩

/-! ## C12: room ids and room creation -/

theorem digitChar_isDigit (d : Nat) (h : d < 10) : (Nat.digitChar d).isDigit = true := by
  interval_cases d <;> decide

theorem digitChar_ne_zero (d : Nat) (h0 : 0 < d) (h : d < 10) : Nat.digitChar d ≠ '0' := by
  interval_cases d <;> decide

theorem toDigits_six (n : Nat) (h1 : 100000 ≤ n) (h2 : n ≤ 999999) :
    Nat.toDigits 10 n =
      [Nat.digitChar (n / 100000), Nat.digitChar (n / 10000 % 10),
       Nat.digitChar (n / 1000 % 10), Nat.digitChar (n / 100 % 10),
       Nat.digitChar (n / 10 % 10), Nat.digitChar (n % 10)] := by
  have hfuel : n + 1 = (n - 5) + 1 + 1 + 1 + 1 + 1 + 1 := by omega
  have d1 : n / 10 ≠ 0 := by omega
  have d2 : n / 10 / 10 ≠ 0 := by omega
  have d3 : n / 10 / 10 / 10 ≠ 0 := by omega
  have d4 : n / 10 / 10 / 10 / 10 ≠ 0 := by omega
  have d5 : n / 10 / 10 / 10 / 10 / 10 ≠ 0 := by omega
  have d6 : n / 10 / 10 / 10 / 10 / 10 / 10 = 0 := by omega
  have e2 : n / 10 / 10 = n / 100 := by omega
  have e3 : n / 10 / 10 / 10 = n / 1000 := by omega
  have e4 : n / 10 / 10 / 10 / 10 = n / 10000 := by omega
  have e5 : n / 10 / 10 / 10 / 10 / 10 = n / 100000 := by omega
  have e6 : n / 100000 % 10 = n / 100000 := by omega
  unfold Nat.toDigits
  rw [hfuel]
  simp only [Nat.toDigitsCore, d1, d2, d3, d4, d5, d6, if_false, if_true]
  have f3 : n / 100 / 10 = n / 1000 := by omega
  have f4 : n / 1000 / 10 = n / 10000 := by omega
  have f5 : n / 10000 / 10 = n / 100000 := by omega
  simp only [e2, f3, f4, f5, e6]

theorem mul_trichotomy (P q c : Nat) :
    P * q = P * c ∨ P * q + P ≤ P * c ∨ P * c + P ≤ P * q := by
  rcases Nat.lt_trichotomy q c with h | h | h
  · right; left
    have : P * (q + 1) ≤ P * c := Nat.mul_le_mul_left P h
    rw [Nat.mul_add, Nat.mul_one] at this
    exact this
  · left; rw [h]
  · right; right
    have : P * (c + 1) ≤ P * q := Nat.mul_le_mul_left P h
    rw [Nat.mul_add, Nat.mul_one] at this
    exact this

theorem roundToDouble_of_lt {n : Nat} (h : n < 2 ^ 53) : roundToDouble n = n := by
  unfold roundToDouble
  rw [if_pos h]

/-- With enough halvings allowed, `shiftTo53` brackets a number of at least 54
bits between two consecutive powers of two. -/
theorem shiftTo53_bounds : ∀ (fuel n : Nat), n ≤ fuel → 2 ^ 53 ≤ n →
    2 ^ (52 + shiftTo53 fuel n) ≤ n ∧ n < 2 ^ (53 + shiftTo53 fuel n) := by
  intro fuel
  induction fuel with
  | zero =>
    intro n h0 h
    have : 0 < 2 ^ 53 := Nat.two_pow_pos _
    omega
  | succ fuel ih =>
    intro n hle h
    have hn : ¬ n < 2 ^ 53 := by omega
    simp only [shiftTo53, if_neg hn]
    by_cases hhalf : n / 2 < 2 ^ 53
    · have h0 : shiftTo53 fuel (n / 2) = 0 := by
        cases fuel with
        | zero => rfl
        | succ f => simp only [shiftTo53, if_pos hhalf]
      rw [h0]
      norm_num at hhalf h ⊢
      omega
    · have h2 : 2 ^ 53 ≤ n / 2 := by omega
      have hpos : 0 < 2 ^ 53 := Nat.two_pow_pos _
      obtain ⟨a, b⟩ := ih (n / 2) (by omega) h2
      have e1 : 2 ^ (52 + (shiftTo53 fuel (n / 2) + 1)) = 2 * 2 ^ (52 + shiftTo53 fuel (n / 2)) := by
        rw [← Nat.add_assoc, Nat.pow_succ, Nat.mul_comm]
      have e2 : 2 ^ (53 + (shiftTo53 fuel (n / 2) + 1)) = 2 * 2 ^ (53 + shiftTo53 fuel (n / 2)) := by
        rw [← Nat.add_assoc, Nat.pow_succ, Nat.mul_comm]
      rw [e1, e2]
      omega

/-- The value of `roundToDouble` above `2^53`, with the quotient and the
remainder of the division by the spacing `2^d` made explicit. -/
theorem roundToDouble_cases {n : Nat} (h : 2 ^ 53 ≤ n) :
    ∃ d q rem, 2 ^ (52 + d) ≤ n ∧ n < 2 ^ (53 + d) ∧ n = 2 ^ d * q + rem ∧ rem < 2 ^ d ∧
      ((roundToDouble n = 2 ^ d * q + 2 ^ d ∧ (2 ^ d < 2 * rem ∨ 2 * rem = 2 ^ d)) ∨
       (roundToDouble n = 2 ^ d * q ∧ 2 * rem ≤ 2 ^ d)) := by
  have hn : ¬ n < 2 ^ 53 := by omega
  have hpos : 0 < 2 ^ (shiftTo53 n n) := Nat.two_pow_pos _
  obtain ⟨hb1, hb2⟩ := shiftTo53_bounds n n (Nat.le_refl n) h
  refine ⟨shiftTo53 n n, n / 2 ^ (shiftTo53 n n), n % 2 ^ (shiftTo53 n n), hb1, hb2,
    (Nat.div_add_mod n _).symm, Nat.mod_lt _ hpos, ?_⟩
  unfold roundToDouble
  rw [if_neg hn]
  simp only []
  split_ifs with hup
  · left
    refine ⟨by rw [Nat.add_mul, Nat.one_mul, Nat.mul_comm], ?_⟩
    rcases hup with h1 | h1
    · exact Or.inl h1
    · exact Or.inr h1.1
  · right
    refine ⟨Nat.mul_comm _ _, ?_⟩
    by_contra hc
    exact hup (Or.inl (by omega))

theorem shift_le {n d j : Nat} (hd : 2 ^ (52 + d) ≤ n) (hj : n < 2 ^ (53 + j)) : d ≤ j := by
  by_contra hc
  have : 2 ^ (53 + j) ≤ 2 ^ (52 + d) := Nat.pow_le_pow_right (by decide) (by omega)
  omega

theorem le_shift {n d j : Nat} (hd : n < 2 ^ (53 + d)) (hj : 2 ^ (52 + j) ≤ n) : j ≤ d := by
  by_contra hc
  have : 2 ^ (53 + d) ≤ 2 ^ (52 + j) := Nat.pow_le_pow_right (by decide) (by omega)
  omega

/-- Rounding does not cross a representable number from below. -/
theorem roundToDouble_le_of_le {n K j : Nat} (hj : n < 2 ^ (53 + j)) (hK : 2 ^ j ∣ K)
    (hn : n ≤ K) : roundToDouble n ≤ K := by
  by_cases hsmall : n < 2 ^ 53
  · rw [roundToDouble_of_lt hsmall]; exact hn
  · obtain ⟨d, q, rem, hd1, hd2, hdiv, hrem, hcase⟩ :=
      roundToDouble_cases (by omega : 2 ^ 53 ≤ n)
    have hdj : d ≤ j := shift_le hd1 hj
    obtain ⟨c, hc⟩ : 2 ^ d ∣ K := Nat.dvd_trans (Nat.pow_dvd_pow 2 hdj) hK
    have htri := mul_trichotomy (2 ^ d) q c
    rcases hcase with ⟨hval, hup⟩ | ⟨hval, -⟩ <;> omega

/-- Rounding does not cross a representable number from above. -/
theorem le_roundToDouble_of_le {n K j : Nat} (hj : n < 2 ^ (53 + j)) (hK : 2 ^ j ∣ K)
    (hn : K ≤ n) : K ≤ roundToDouble n := by
  by_cases hsmall : n < 2 ^ 53
  · rw [roundToDouble_of_lt hsmall]; exact hn
  · obtain ⟨d, q, rem, hd1, hd2, hdiv, hrem, hcase⟩ :=
      roundToDouble_cases (by omega : 2 ^ 53 ≤ n)
    have hdj : d ≤ j := shift_le hd1 hj
    obtain ⟨c, hc⟩ : 2 ^ d ∣ K := Nat.dvd_trans (Nat.pow_dvd_pow 2 hdj) hK
    have htri := mul_trichotomy (2 ^ d) q c
    rcases hcase with ⟨hval, hup⟩ | ⟨hval, -⟩ <;> omega

/-- A number strictly below the midpoint between the representable number `K`
and its successor `K + 2^j` is not rounded above `K`. -/
theorem roundToDouble_le_of_lt_mid {n K j : Nat} (hj : n < 2 ^ (53 + j)) (hK : 2 ^ j ∣ K)
    (hlow : 2 ^ (52 + j) ≤ K) (hj1 : 1 ≤ j) (hmid : 2 * n < 2 * K + 2 ^ j) :
    roundToDouble n ≤ K := by
  by_cases hle : n ≤ K
  · exact roundToDouble_le_of_le hj hK hle
  · have hbig : 2 ^ (52 + j) ≤ n := by omega
    have h53 : 2 ^ 53 ≤ n := by
      have : 2 ^ 53 ≤ 2 ^ (52 + j) := Nat.pow_le_pow_right (by decide) (by omega)
      omega
    obtain ⟨d, q, rem, hd1, hd2, hdiv, hrem, hcase⟩ := roundToDouble_cases h53
    have hdj : d = j := by
      have h1 : d ≤ j := shift_le hd1 hj
      have h2 : j ≤ d := le_shift hd2 hbig
      omega
    subst hdj
    obtain ⟨c, hc⟩ := hK
    have htri := mul_trichotomy (2 ^ d) q c
    rcases hcase with ⟨hval, hup⟩ | ⟨hval, -⟩ <;> omega

/-- The scaled draw lies in `[100000, 999999]` for every double of `[0,1)`,
both roundings included: the rounded product stays at least one spacing below
`900000`, so the rounded sum stays below `1000000`. -/
theorem scaled_bounds (r : Draw) (h1 : r.mant < 2 ^ 53) (h2 : r.mant < 2 ^ r.exp) :
    100000 ≤ r.scaled ∧ r.scaled ≤ 999999 := by
  obtain ⟨m, e⟩ := r
  simp only at h1 h2
  simp only [Draw.scaled]
  have hE : 0 < 2 ^ e := Nat.two_pow_pos _
  have hJ : 0 < 2 ^ (e - 33) := Nat.two_pow_pos _
  have hJE : 2 ^ (e - 33) ∣ 2 ^ e := Nat.pow_dvd_pow 2 (by omega)
  have hJle : 2 ^ (e - 33) ≤ 2 ^ e := Nat.pow_le_pow_right (by decide) (by omega)
  have hcap : 2 ^ 20 * 2 ^ e ≤ 2 ^ (53 + (e - 33)) := by
    rw [← Nat.pow_add]
    exact Nat.pow_le_pow_right (by decide) (by omega)
  have hd1 : 2 ^ (e - 33) ∣ 900000 * 2 ^ e - 2 ^ (e - 33) :=
    Nat.dvd_sub' (Dvd.dvd.mul_left hJE _) (dvd_refl _)
  have hd2 : 2 ^ (e - 33) ∣ 1000000 * 2 ^ e - 2 ^ (e - 33) :=
    Nat.dvd_sub' (Dvd.dvd.mul_left hJE _) (dvd_refl _)
  have hd3 : 2 ^ (e - 33) ∣ 100000 * 2 ^ e := Dvd.dvd.mul_left hJE _
  norm_num at h1 hcap
  -- the rounded product stays one spacing below `900000 * 2^e`
  have hB : roundToDouble (m * 900000) ≤ 900000 * 2 ^ e - 2 ^ (e - 33) := by
    rcases Nat.lt_trichotomy e 53 with he | he | he
    · have hJs : 2 ^ (e - 33) ≤ 2 ^ 19 := Nat.pow_le_pow_right (by decide) (by omega)
      norm_num at hJs
      exact roundToDouble_le_of_le (by omega) hd1 (by omega)
    · subst he
      norm_num at hcap hd1 hJle h2 ⊢
      exact @roundToDouble_le_of_lt_mid _ _ 20 (by norm_num; omega) (by norm_num)
        (by norm_num) (by norm_num) (by norm_num; omega)
    · have hEb : 2 ^ 54 ≤ 2 ^ e := Nat.pow_le_pow_right (by decide) (by omega)
      norm_num at hEb
      exact roundToDouble_le_of_le (by omega) hd1 (by omega)
  have hR : roundToDouble (100000 * 2 ^ e + roundToDouble (m * 900000))
      ≤ 1000000 * 2 ^ e - 2 ^ (e - 33) :=
    roundToDouble_le_of_le (by omega) hd2 (by omega)
  have hL : 100000 * 2 ^ e ≤ roundToDouble (100000 * 2 ^ e + roundToDouble (m * 900000)) :=
    le_roundToDouble_of_le (by omega) hd3 (by omega)
  constructor
  · exact (Nat.le_div_iff_mul_le hE).mpr hL
  · have : roundToDouble (100000 * 2 ^ e + roundToDouble (m * 900000)) / 2 ^ e < 1000000 :=
      (Nat.div_lt_iff_lt_mul hE).mpr (by omega)
    omega

/-- The largest double below `1`, `(2^53 - 1) / 2^53`: the product
`900000 * 2^53 - 900000` is rounded down to `900000 * 2^53 - 2^20`, the sum is
exact, and the id is `999999`. -/
theorem scaled_largest_double : Draw.scaled ⟨9007199254740991, 53⟩ = 999999 := by
  decide

/-- The id `generateRoomId` returns comes from the first draw that does not
collide with a registered room. -/
theorem generateRoomId_eq_some {rooms : List (RoomId × Room)} :
    ∀ {draws : List Draw} {roomId : RoomId}, generateRoomId rooms draws = some roomId →
      ∃ pre r post, draws = pre ++ r :: post ∧ roomId = toString r.scaled ∧
        ∀ r1 ∈ pre, mapHas rooms (toString r1.scaled) = true := by
  intro draws
  induction draws with
  | nil => intro roomId h; simp [generateRoomId] at h
  | cons r rest ih =>
    intro roomId h
    simp only [generateRoomId] at h
    split_ifs at h with hhas
    · obtain ⟨pre, r1, post, hd, hid, hpre⟩ := ih h
      refine ⟨r :: pre, r1, post, by simp [hd], hid, ?_⟩
      intro r2 hr2
      rcases List.mem_cons.mp hr2 with rfl | hr2
      · exact hhas
      · exact hpre r2 hr2
    · simp only [Option.some.injEq] at h
      exact ⟨[], r, rest, rfl, h.symm, by simp⟩

/-- The loop of `generateRoomId` returns as soon as one of the draws misses
every registered id. -/
theorem generateRoomId_returns {rooms : List (RoomId × Room)} :
    ∀ {draws : List Draw}, (∃ r ∈ draws, mapHas rooms (toString r.scaled) = false) →
      ∃ roomId, generateRoomId rooms draws = some roomId := by
  intro draws
  induction draws with
  | nil => rintro ⟨r, hr, -⟩; cases hr
  | cons r rest ih =>
    rintro ⟨r1, hr1, hfree⟩
    simp only [generateRoomId]
    split_ifs with hhas
    · rcases List.mem_cons.mp hr1 with rfl | hr1
      · rw [hfree] at hhas
        cases hhas
      · exact ih ⟨r1, hr1, hfree⟩
    · exact ⟨_, rfl⟩

/-- C12. For every state and every sequence of doubles of `[0,1)` on which
`generateRoomId` returns, the id is the decimal string of an integer `n` with
`100000 ≤ n ≤ 999999`: exactly 6 characters, all ASCII digits, the first not
`0`; and no registered room has that id. `create-room` then completes and
registers under that id a room with an empty player list, state `waiting`,
`maxPlayers = 4` and no game object, appended to the registry so that every
existing room is unchanged; session index and timers are untouched. -/
theorem createRoom_spec (s : Server) (playerName : String) (now : Nat) (draws : List Draw)
    (roomId : RoomId) (hdraws : ∀ r ∈ draws, r.valid)
    (hid : generateRoomId s.rooms draws = some roomId) :
    (∃ n, 100000 ≤ n ∧ n ≤ 999999 ∧ roomId = toString n ∧
      roomId.data =
        [Nat.digitChar (n / 100000), Nat.digitChar (n / 10000 % 10),
         Nat.digitChar (n / 1000 % 10), Nat.digitChar (n / 100 % 10),
         Nat.digitChar (n / 10 % 10), Nat.digitChar (n % 10)]) ∧
    roomId.length = 6 ∧
    (∀ ch ∈ roomId.data, ch.isDigit = true) ∧
    roomId.data.head? ≠ some '0' ∧
    mapGet s.rooms roomId = none ∧
    ∃ s1 room,
      createRoom s playerName now draws = Outcome.done s1 [] ∧
      mapGet s1.rooms roomId = some room ∧
      room.id = roomId ∧ room.players = [] ∧ room.gameState = Phase.waiting ∧
      room.maxPlayers = 4 ∧ room.gameData = none ∧ room.creator = playerName ∧
      s1.rooms = s.rooms ++ [(roomId, room)] ∧
      (∀ k room0, mapGet s.rooms k = some room0 → mapGet s1.rooms k = some room0) ∧
      s1.players = s.players ∧ s1.timers = s.timers := by
  obtain ⟨pre, r, post, hd, hrid, -⟩ := generateRoomId_eq_some hid
  have hr : r.valid := hdraws r (by simp [hd])
  obtain ⟨hlo, hhi⟩ := scaled_bounds r hr.1 hr.2.1
  have hfresh := generateRoomId_fresh hid
  have hdata : roomId.data =
      [Nat.digitChar (r.scaled / 100000), Nat.digitChar (r.scaled / 10000 % 10),
       Nat.digitChar (r.scaled / 1000 % 10), Nat.digitChar (r.scaled / 100 % 10),
       Nat.digitChar (r.scaled / 10 % 10), Nat.digitChar (r.scaled % 10)] := by
    rw [hrid]
    show (Nat.toDigits 10 r.scaled).asString.data = _
    rw [toDigits_six r.scaled hlo hhi]
    rfl
  refine ⟨⟨r.scaled, hlo, hhi, hrid, hdata⟩, ?_, ?_, ?_, hfresh, ?_⟩
  · show roomId.data.length = 6
    rw [hdata]; rfl
  · intro ch hch
    rw [hdata] at hch
    simp only [List.mem_cons, List.mem_singleton, List.not_mem_nil, or_false] at hch
    rcases hch with rfl | rfl | rfl | rfl | rfl | rfl
    · exact digitChar_isDigit _ (by omega)
    · exact digitChar_isDigit _ (by omega)
    · exact digitChar_isDigit _ (by omega)
    · exact digitChar_isDigit _ (by omega)
    · exact digitChar_isDigit _ (by omega)
    · exact digitChar_isDigit _ (by omega)
  · rw [hdata]
    simp only [List.head?_cons, ne_eq, Option.some.injEq]
    exact digitChar_ne_zero _ (by omega) (by omega)
  · refine ⟨{ s with
        rooms := mapSet s.rooms roomId (freshRoom s.nextRef roomId playerName now)
        nextRef := s.nextRef + 1 },
      freshRoom s.nextRef roomId playerName now, ?_, mapGet_mapSet_self _ _ _, rfl, rfl, rfl,
      rfl, rfl, rfl, mapSet_of_mapGet_none _ _ _ hfresh, ?_, rfl, rfl⟩
    · simp only [createRoom, hid, freshRoom]
    · intro k room0 hk
      have hne : k ≠ roomId := by
        rintro rfl
        rw [hfresh] at hk
        cases hk
      simp only [mapGet_mapSet_ne _ _ _ hne, hk]

/-- C12 at a registry that already holds `"100000"`: the draw `0` collides,
the draw `1/2` gives `"550000"`. -/
theorem createRoom_spec_witness :
    (∀ r ∈ collidingDraws, r.valid) ∧
    generateRoomId (stateAfter soloTrace).rooms collidingDraws = some "550000" ∧
    ("550000" : String).length = 6 ∧
    mapGet (stateAfter soloTrace).rooms "550000" = none ∧
    ∃ s1 room,
      createRoom (stateAfter soloTrace) "bob" 7 collidingDraws = Outcome.done s1 [] ∧
      mapGet s1.rooms "550000" = some room ∧
      room.id = "550000" ∧ room.players = [] ∧ room.gameState = Phase.waiting ∧
      room.maxPlayers = 4 ∧ room.gameData = none ∧ room.creator = "bob" ∧
      s1.rooms = (stateAfter soloTrace).rooms ++ [("550000", room)] ∧
      (∀ k room0, mapGet (stateAfter soloTrace).rooms k = some room0 →
        mapGet s1.rooms k = some room0) ∧
      s1.players = (stateAfter soloTrace).players ∧
      s1.timers = (stateAfter soloTrace).timers :=
  ⟨by decide, by decide,
    (createRoom_spec (stateAfter soloTrace) "bob" 7 collidingDraws "550000" (by decide)
      (by decide)).2.1,
    (createRoom_spec (stateAfter soloTrace) "bob" 7 collidingDraws "550000" (by decide)
      (by decide)).2.2.2.2.1,
    (createRoom_spec (stateAfter soloTrace) "bob" 7 collidingDraws "550000" (by decide)
      (by decide)).2.2.2.2.2⟩

/-! ## C13: the state machine of a room -/

/-- C13, as stated, fails in all three prohibitions. After `A` has won, the
room is `finished` and the reset is pending; a `player-ready` of `A` finds
every flag still set and takes the room from `finished` to `playing`. The
pending reset then fires and takes the room from `playing` to `waiting`. And in
a room that is `playing` after the first move, a `player-ready` of `B` replaces
the game object by a fresh one with an empty board. -/
theorem state_machine_counterexample :
    run Server.empty winTrace = some (stateAfter winTrace) ∧
    ((stateAfter winTrace).room? "100000").map (fun r => r.gameState) = some Phase.finished ∧
    step (stateAfter winTrace) (Event.playerReady "A" "100000" "A")
      = some (stateAfter restartTrace) ∧
    ((stateAfter restartTrace).room? "100000").map (fun r => r.gameState)
      = some Phase.playing ∧
    (stateAfter restartTrace).timers = [Timer.reset 0 "100000"] ∧
    ((step (stateAfter restartTrace) (Event.fire 0)).bind
        (fun s1 => s1.room? "100000")).map (fun r => r.gameState) = some Phase.waiting ∧
    run Server.empty firstMoveTrace = some (stateAfter firstMoveTrace) ∧
    ((stateAfter firstMoveTrace).room? "100000").map (fun r => (r.gameState, r.gameData))
      = some (Phase.playing, some firstMoveGame) ∧
    ((step (stateAfter firstMoveTrace) (Event.playerReady "B" "100000" "B")).bind
        (fun s1 => s1.room? "100000")).map (fun r => (r.gameState, r.gameData))
      = some (Phase.playing, some freshGame) := by
  refine ⟨?_, ?_, ?_, ?_, ?_, ?_, ?_, ?_, ?_⟩ <;> decide

/-- C13, amended. In a reachable state, when an event changes the state of a
registered room, it does so in one of these ways: to `playing`, from `waiting`
or from `finished`, by a `player-ready` for that room after which all of at
least 2 players are ready; from `playing` to `finished`, by a `move` after
which a pattern is complete or the board is full; to `waiting`, from `finished`
or from `playing`, by the firing of a post-game reset scheduled for that room
object. And the game object of a room that is `playing` changes only by such a
`player-ready`, which installs a fresh one, or by an accepted `move`. -/
theorem state_changes_only_by (s s1 : Server) (e : Event) (hs : Reachable s)
    (hstep : step s e = some s1) (roomId : RoomId) (room room1 : Room)
    (hroom : mapGet s.rooms roomId = some room)
    (hroom1 : mapGet s1.rooms roomId = some room1) :
    (room1.gameState ≠ room.gameState →
      (room1.gameState = Phase.playing ∧
        (room.gameState = Phase.waiting ∨ room.gameState = Phase.finished) ∧
        ∃ c playerId, e = Event.playerReady c roomId playerId ∧
          room1.players.all (fun p => p.isReady) = true ∧ 2 ≤ room1.players.length) ∨
      (room.gameState = Phase.playing ∧ room1.gameState = Phase.finished ∧
        ∃ c p g1, e = Event.gameAction c roomId "move" p ∧ room1.gameData = some g1 ∧
          ((∃ m, checkWin g1.board = some m) ∨ boardFull g1.board = true)) ∨
      (room1.gameState = Phase.waiting ∧
        (room.gameState = Phase.finished ∨ room.gameState = Phase.playing) ∧
        ∃ i rid, e = Event.fire i ∧ s.timers[i]? = some (Timer.reset room.ref rid))) ∧
    (room.gameState = Phase.playing → room1.gameData ≠ room.gameData →
      (∃ c playerId g1, e = Event.playerReady c roomId playerId ∧
        room1.gameState = Phase.playing ∧ room1.gameData = some g1 ∧
        initializeGame room1.players = some g1 ∧
        room1.players.all (fun p => p.isReady) = true ∧ 2 ≤ room1.players.length) ∨
      (∃ c p g1, e = Event.gameAction c roomId "move" p ∧ room1.gameData = some g1 ∧
        processGameAction room "move" p c = ActionResult.update g1)) := by
  obtain ⟨-, out, hh⟩ := step_eq_some hstep
  obtain ⟨-, -, -, hrun, -⟩ := roomInv_of_mapGet (reachable_inv hs) hroom
  rcases handle_room_cases hh roomId with heq | ⟨room0, room2, h0, h2, hev⟩ |
    ⟨hnone, -⟩ | ⟨hnone, -⟩
  · rw [hroom, hroom1] at heq
    simp only [Option.some.injEq] at heq
    subst heq
    exact ⟨fun h => absurd rfl h, fun _ h => absurd rfl h⟩
  · rw [hroom] at h0
    rw [hroom1] at h2
    simp only [Option.some.injEq] at h0 h2
    subst h0
    subst h2
    cases hev with
    | join c playerName hfree => exact ⟨fun h => absurd rfl h, fun _ h => absurd rfl h⟩
    | ready c playerId players1 hmark hwait =>
      exact ⟨fun h => absurd rfl h, fun _ h => absurd rfl h⟩
    | start c playerId players1 g hmark hall hinit =>
      constructor
      · intro hne
        left
        refine ⟨rfl, ?_, c, playerId, rfl, hall.1, hall.2⟩
        cases hst : room.gameState with
        | waiting => exact Or.inl rfl
        | playing => exact absurd hst.symm hne
        | finished => exact Or.inr rfl
      · intro _ _
        left
        exact ⟨c, playerId, g, rfl, rfl, rfl, hinit, hall.1, hall.2⟩
    | move c action position g hplay hres hgo =>
      refine ⟨fun h => absurd rfl h, ?_⟩
      intro _ _
      right
      obtain ⟨hact, -⟩ := processGameAction_eq_update hres
      subst hact
      exact ⟨c, position, g, rfl, rfl, hres⟩
    | finish c action position g hplay hres hfin =>
      obtain ⟨hact, g0, hg0, -, -, hshape⟩ := processGameAction_eq_update hres
      subst hact
      obtain ⟨g00, hg00, hgs0, -⟩ := hrun hplay
      rw [hg0] at hg00
      simp only [Option.some.injEq] at hg00
      subst hg00
      constructor
      · intro _
        right; left
        refine ⟨hplay, rfl, c, position, g, rfl, rfl, ?_⟩
        rcases hshape with ⟨hw, hg⟩ | ⟨-, hf, hg⟩ | ⟨-, -, q, -, hg⟩
        · left; rw [hg]; exact hw
        · right; rw [hg]; exact hf
        · rw [hg] at hfin
          simp only [hgs0] at hfin
          cases hfin
      · intro _ _
        right
        exact ⟨c, position, g, rfl, rfl, hres⟩
    | leave c => exact ⟨fun h => absurd rfl h, fun _ h => absurd rfl h⟩
    | disconnect c playerName hbound =>
      exact ⟨fun h => absurd rfl h, fun _ h => absurd rfl h⟩
    | reset i rid htimer =>
      constructor
      · intro hne
        right; right
        refine ⟨rfl, ?_, i, rid, rfl, htimer⟩
        cases hst : room.gameState with
        | waiting =>
          exfalso
          apply hne
          simp [resetRoom, hst]
        | playing => exact Or.inr rfl
        | finished => exact Or.inl rfl
      · intro _ h
        exact absurd rfl h
  · rw [hroom] at hnone
    cases hnone
  · rw [hroom1] at hnone
    cases hnone

/-- C13 (amended) at the step with which `A` wins: the room goes from `playing`
to `finished` by a `move` that completes a pattern. -/
theorem state_changes_only_by_witness :
    Reachable (stateAfter beforeWinTrace) ∧
    step (stateAfter beforeWinTrace) (Event.gameAction "A" "100000" "move" 2)
      = some (stateAfter winTrace) ∧
    mapGet (stateAfter beforeWinTrace).rooms "100000" = some beforeWinRoom ∧
    mapGet (stateAfter winTrace).rooms "100000" = some wonRoom ∧
    wonRoom.gameState ≠ beforeWinRoom.gameState ∧
    ((wonRoom.gameState = Phase.playing ∧
        (beforeWinRoom.gameState = Phase.waiting ∨ beforeWinRoom.gameState = Phase.finished) ∧
        ∃ c playerId, Event.gameAction "A" "100000" "move" 2
            = Event.playerReady c "100000" playerId ∧
          wonRoom.players.all (fun p => p.isReady) = true ∧ 2 ≤ wonRoom.players.length) ∨
      (beforeWinRoom.gameState = Phase.playing ∧ wonRoom.gameState = Phase.finished ∧
        ∃ c p g1, Event.gameAction "A" "100000" "move" 2
            = Event.gameAction c "100000" "move" p ∧ wonRoom.gameData = some g1 ∧
          ((∃ m, checkWin g1.board = some m) ∨ boardFull g1.board = true)) ∨
      (wonRoom.gameState = Phase.waiting ∧
        (beforeWinRoom.gameState = Phase.finished ∨ beforeWinRoom.gameState = Phase.playing) ∧
        ∃ i rid, Event.gameAction "A" "100000" "move" 2 = Event.fire i ∧
          (stateAfter beforeWinTrace).timers[i]?
            = some (Timer.reset beforeWinRoom.ref rid))) :=
  ⟨reachable_stateAfter beforeWinTrace (by decide), by decide, by decide, by decide, by decide,
    (state_changes_only_by (stateAfter beforeWinTrace) (stateAfter winTrace)
      (Event.gameAction "A" "100000" "move" 2)
      (reachable_stateAfter beforeWinTrace (by decide)) (by decide) "100000" beforeWinRoom
      wonRoom (by decide) (by decide)).1 (by decide)⟩

/-! ## C14: the host -/

/-- C14, as stated, fails. The host `A` and then `B` join a room and `A`
leaves: the room has one player, `B`, the earliest-joined player still
present, and no player with `isHost = true`. -/
theorem no_host_after_host_left_counterexample :
    run Server.empty hostLeftTrace = some (stateAfter hostLeftTrace) ∧
    mapGet (stateAfter hostLeftTrace).rooms "100000" = some hostLeftRoom ∧
    hostLeftRoom.players.length = 1 ∧
    (hostLeftRoom.players.filter (fun q => q.isHost)).length = 0 ∧
    hostLeftRoom.players.head?.map (fun q => (q.id, q.isHost)) = some ("B", false) := by
  refine ⟨?_, ?_, ?_, ?_, ?_⟩ <;> decide

/-- C14, amended. In a reachable state, in every room with at least one player
the players with `isHost = true` are: the first player of the list (the
earliest-joined player still present) alone, if that player's flag is set, and
nobody otherwise; no later player is ever host. -/
theorem host_is_first_player_or_nobody (s : Server) (hs : Reachable s) (roomId : RoomId)
    (room : Room) (p : Player) (rest : List Player)
    (hroom : mapGet s.rooms roomId = some room)
    (hplayers : room.players = p :: rest) :
    room.players.filter (fun q => q.isHost) = (if p.isHost then [p] else []) ∧
    (∀ q ∈ rest, q.isHost = false) ∧
    (p.isHost = true → (room.players.filter (fun q => q.isHost)).length = 1) ∧
    (p.isHost = false → (room.players.filter (fun q => q.isHost)).length = 0) := by
  have hr := reachable_hostInv hs roomId room hroom
  have hf := filter_isHost_of_hostInv hr p rest hplayers
  refine ⟨hf, ?_, ?_, ?_⟩
  · intro q hq
    exact hr q (by simp [hplayers, hq])
  · intro hp
    rw [hf]; simp [hp]
  · intro hp
    rw [hf]; simp [hp]

/-- C14 (amended) at the room the host has left: `B` is first and not host, so
the room has no host. -/
theorem host_is_first_player_or_nobody_witness :
    Reachable (stateAfter hostLeftTrace) ∧
    mapGet (stateAfter hostLeftTrace).rooms "100000" = some hostLeftRoom ∧
    hostLeftRoom.players
      = { id := "B", name := "bob", score := 0, isReady := false, isHost := false } :: [] ∧
    (hostLeftRoom.players.filter (fun q => q.isHost)).length = 0 :=
  ⟨reachable_stateAfter hostLeftTrace (by decide), by decide, by decide,
    (host_is_first_player_or_nobody (stateAfter hostLeftTrace)
      (reachable_stateAfter hostLeftTrace (by decide)) "100000" hostLeftRoom
      { id := "B", name := "bob", score := 0, isReady := false, isHost := false } []
      (by decide) (by decide)).2.2.2 (by decide)⟩

/-! ## C15: the cell a move writes -/

/-- The mark is `'X'` exactly for the connection of the first player of the
list. -/
theorem markOf_eq (room : Room) (c : ConnId) :
    markOf room c =
      if room.players.head?.map (fun q => q.id) = some c then Mark.X else Mark.O := by
  unfold markOf findIndex
  cases hpl : room.players with
  | nil => simp [findIndexFrom]
  | cons q rest =>
    by_cases hq : q.id = c
    · simp [findIndexFrom, hq]
    · have hne : findIndexFrom c rest (0 + 1) ≠ 0 := by
        rcases findIndexFrom_bounds c rest (0 + 1) with h | ⟨h, -⟩
        · rw [h]; decide
        · intro h0
          rw [h0] at h
          omega
      simp [findIndexFrom, hq, hne]

/-- C15. In a reachable state, for every accepted move at position `p` by
connection `c`: `p` is one of 0..8, the cell `p` was empty and now holds `X`
if `c` is the first player in the room's join order and `O` otherwise, every
other cell is unchanged, and the board had and still has exactly 9 cells. -/
theorem move_writes_one_cell (s : Server) (hs : Reachable s) (c : ConnId)
    (roomId : RoomId) (p : Int) (room : Room) (g : GameData) (s1 : Server) (g1 : GameData)
    (hroom : mapGet s.rooms roomId = some room)
    (hg : room.gameData = some g)
    (hmove : gameAction s c roomId "move" p
      = Outcome.done s1 [⟨Target.room roomId, Msg.gameUpdate g1⟩]) :
    0 ≤ p ∧ p ≤ 8 ∧
    g.board[p.toNat]? = some none ∧
    g1.board[p.toNat]? = some (some
      (if room.players.head?.map (fun q => q.id) = some c then Mark.X else Mark.O)) ∧
    (∀ i, i ≠ p.toNat → g1.board[i]? = g.board[i]?) ∧
    g.board.length = 9 ∧ g1.board.length = 9 := by
  obtain ⟨-, hres, -⟩ := gameAction_accepted hroom hmove
  obtain ⟨-, -, hlen, -, -⟩ := roomInv_of_mapGet (reachable_inv hs) hroom
  have hlen0 : g.board.length = 9 := hlen g hg
  obtain ⟨-, g0, hg0, -, hcell, hshape⟩ := processGameAction_eq_update hres
  rw [hg] at hg0
  simp only [Option.some.injEq] at hg0
  subst hg0
  have hp0 : 0 ≤ p := by
    by_contra hneg
    simp [boardAt, hneg] at hcell
  have hget : g.board[p.toNat]? = some none := by simpa [boardAt, hp0] using hcell
  have hlt : p.toNat < g.board.length := (List.getElem?_eq_some.mp hget).1
  have hboard : g1.board = g.board.set p.toNat (some (markOf room c)) := by
    rcases hshape with ⟨-, h⟩ | ⟨-, -, h⟩ | ⟨-, -, q, -, h⟩ <;> rw [h]
  refine ⟨hp0, by omega, hget, ?_, ?_, hlen0, ?_⟩
  · rw [hboard, ← markOf_eq]
    simp [List.getElem?_set_self, hlt]
  · intro i hi
    rw [hboard]
    exact List.getElem?_set_ne (Ne.symm hi)
  · rw [hboard]
    simpa using hlen0

/-- C15 at the first move of a two-player game: `A`, the first player, moves
on cell 4, which becomes `X`. -/
theorem move_writes_one_cell_witness :
    Reachable (stateAfter startedTrace) ∧
    mapGet (stateAfter startedTrace).rooms "100000" = some startedRoom ∧
    startedRoom.gameData = some freshGame ∧
    gameAction (stateAfter startedTrace) "A" "100000" "move" 4
      = Outcome.done firstMoveState [⟨Target.room "100000", Msg.gameUpdate firstMoveGame⟩] ∧
    (0 : Int) ≤ 4 ∧ (4 : Int) ≤ 8 ∧
    freshGame.board[(4 : Int).toNat]? = some none ∧
    firstMoveGame.board[(4 : Int).toNat]? = some (some
      (if startedRoom.players.head?.map (fun q => q.id) = some "A" then Mark.X
        else Mark.O)) ∧
    (∀ i, i ≠ (4 : Int).toNat → firstMoveGame.board[i]? = freshGame.board[i]?) ∧
    freshGame.board.length = 9 ∧ firstMoveGame.board.length = 9 :=
  ⟨reachable_stateAfter startedTrace (by decide), by decide, by decide, by decide,
    move_writes_one_cell (stateAfter startedTrace)
      (reachable_stateAfter startedTrace (by decide)) "A" "100000" 4 startedRoom freshGame
      firstMoveState firstMoveGame (by decide) (by decide) (by decide)⟩

/-! ## C16: the turn holder -/

/-- C16, as stated, fails. `A` and `B` start a game, `A` holds the turn and
leaves the room: the room is still `playing`, its only player is `B`, and
`gameData.turn` is still `A`, the id of no present player. -/
theorem turn_holder_left_counterexample :
    run Server.empty turnHolderLeftTrace = some (stateAfter turnHolderLeftTrace) ∧
    ((stateAfter turnHolderLeftTrace).room? "100000").map
        (fun r => (r.gameState, r.players.map (fun q => q.id)))
      = some (Phase.playing, ["B"]) ∧
    ((stateAfter turnHolderLeftTrace).game? "100000").map (fun g => g.turn) = some "A" ∧
    ((stateAfter turnHolderLeftTrace).room? "100000").map
        (fun r => r.players.any (fun q => decide (q.id = "A"))) = some false := by
  refine ⟨?_, ?_, ?_, ?_⟩ <;> decide

theorem exists_id_of_markReady {playerId c : ConnId} {players players1 : List Player}
    (hmark : markReady playerId players = some players1) :
    (∃ q ∈ players1, q.id = c) ↔ (∃ q ∈ players, q.id = c) := by
  have hmap := markReady_map (fun q => q.id) (fun _ => rfl) hmark
  have h1 : (∃ q ∈ players1, q.id = c) ↔ c ∈ players1.map (fun q => q.id) := by
    simp [List.mem_map]
  have h2 : (∃ q ∈ players, q.id = c) ↔ c ∈ players.map (fun q => q.id) := by
    simp [List.mem_map]
  rw [h1, h2, hmap]

/-- C16, amended. In every state, reachable or not, after any event, in a room
that is `playing`: `gameData.turn` is the id of a player present in the room's player
list, unless the room was already `playing` with the same turn before the event
and either the turn holder was already absent or the event is the `leave-room`
or `disconnect` of the turn holder itself. So the turn is always given to a
present player (at game start and by every accepted move), and only the
departure of that connection, which leaves the turn unchanged, makes the holder
absent. -/
theorem turn_holder_present_unless_left (s s1 : Server) (e : Event)
    (hstep : step s e = some s1) (roomId : RoomId) (room1 : Room) (g1 : GameData)
    (hroom1 : mapGet s1.rooms roomId = some room1)
    (hplay1 : room1.gameState = Phase.playing)
    (hg1 : room1.gameData = some g1) :
    (∃ q ∈ room1.players, q.id = g1.turn) ∨
    ∃ room g, mapGet s.rooms roomId = some room ∧ room.gameState = Phase.playing ∧
      room.gameData = some g ∧ g.turn = g1.turn ∧
      ((¬ ∃ q ∈ room.players, q.id = g.turn) ∨
        e = Event.leaveRoom g.turn roomId ∨ e = Event.disconnect g.turn) := by
  obtain ⟨-, out, hh⟩ := step_eq_some hstep
  have hsame : ∀ room, mapGet s.rooms roomId = some room →
      room.gameState = Phase.playing → room.gameData = some g1 →
      ((∃ q ∈ room.players, q.id = g1.turn) → ∃ q ∈ room1.players, q.id = g1.turn) →
      (∃ q ∈ room1.players, q.id = g1.turn) ∨
      ∃ room g, mapGet s.rooms roomId = some room ∧ room.gameState = Phase.playing ∧
        room.gameData = some g ∧ g.turn = g1.turn ∧
        ((¬ ∃ q ∈ room.players, q.id = g.turn) ∨
          e = Event.leaveRoom g.turn roomId ∨ e = Event.disconnect g.turn) := by
    intro room h0 hp hg hkeep
    by_cases hin : ∃ q ∈ room.players, q.id = g1.turn
    · exact Or.inl (hkeep hin)
    · exact Or.inr ⟨room, g1, h0, hp, hg, rfl, Or.inl hin⟩
  rcases handle_room_cases hh roomId with heq | ⟨room, room2, h0, h2, hev⟩ |
    ⟨-, playerName, now, draws, -, hfr⟩ | ⟨hnone, -⟩
  · rw [hroom1] at heq
    exact hsame room1 heq.symm hplay1 hg1 id
  · rw [hroom1] at h2
    simp only [Option.some.injEq] at h2
    subst h2
    cases hev with
    | join c playerName hfree =>
      refine hsame room h0 hplay1 hg1 ?_
      rintro ⟨q, hq, hid⟩
      exact ⟨q, by simp [hq], hid⟩
    | ready c playerId players1 hmark hwait =>
      refine hsame room h0 hplay1 hg1 ?_
      intro hin
      exact (exists_id_of_markReady hmark).mpr hin
    | start c playerId players1 g hmark hall hinit =>
      left
      simp only [Option.some.injEq] at hg1
      subst hg1
      obtain ⟨p, rest, hpl, hg⟩ := initializeGame_eq_some hinit
      exact ⟨p, by simp [hpl], by rw [hg]⟩
    | move c action position g hplay hres hgo =>
      left
      simp only [Option.some.injEq] at hg1
      subst hg1
      obtain ⟨-, g0, -, -, -, hshape⟩ := processGameAction_eq_update hres
      rcases hshape with ⟨-, hg⟩ | ⟨-, -, hg⟩ | ⟨-, -, q, hq, hg⟩
      · rw [hg] at hgo; simp at hgo
      · rw [hg] at hgo; simp at hgo
      · exact ⟨q, List.getElem?_mem hq, by rw [hg]⟩
    | finish c action position g hplay hres hfin => simp at hplay1
    | leave c =>
      by_cases hc : c = g1.turn
      · by_cases hin : ∃ q ∈ room.players, q.id = g1.turn
        · exact Or.inr ⟨room, g1, h0, hplay1, hg1, rfl, Or.inr (Or.inl (by rw [hc]))⟩
        · exact Or.inr ⟨room, g1, h0, hplay1, hg1, rfl, Or.inl hin⟩
      · refine hsame room h0 hplay1 hg1 ?_
        rintro ⟨q, hq, hid⟩
        refine ⟨q, ?_, hid⟩
        simp only [List.mem_filter, hq, true_and, decide_eq_true_eq, ne_eq]
        rw [hid]
        exact fun h => hc h.symm
    | disconnect c playerName hbound =>
      by_cases hc : c = g1.turn
      · by_cases hin : ∃ q ∈ room.players, q.id = g1.turn
        · exact Or.inr ⟨room, g1, h0, hplay1, hg1, rfl, Or.inr (Or.inr (by rw [hc]))⟩
        · exact Or.inr ⟨room, g1, h0, hplay1, hg1, rfl, Or.inl hin⟩
      · refine hsame room h0 hplay1 hg1 ?_
        rintro ⟨q, hq, hid⟩
        refine ⟨q, ?_, hid⟩
        simp only [List.mem_filter, hq, true_and, decide_eq_true_eq, ne_eq]
        rw [hid]
        exact fun h => hc h.symm
    | reset i rid htimer => simp [resetRoom] at hplay1
  · rw [hroom1] at hfr
    simp only [Option.some.injEq] at hfr
    rw [hfr] at hplay1
    simp [freshRoom] at hplay1
  · rw [hroom1] at hnone
    cases hnone

/-- C16 (amended) at the step in which the turn holder `A` leaves: afterwards
`A` is absent, the room was `playing` with the turn of `A` before, and the
event is the `leave-room` of `A`. -/
theorem turn_holder_present_unless_left_witness :
    step (stateAfter startedTrace) (Event.leaveRoom "A" "100000")
      = some (stateAfter turnHolderLeftTrace) ∧
    mapGet (stateAfter turnHolderLeftTrace).rooms "100000" = some turnHolderLeftRoom ∧
    turnHolderLeftRoom.gameState = Phase.playing ∧
    turnHolderLeftRoom.gameData = some freshGame ∧
    ((∃ q ∈ turnHolderLeftRoom.players, q.id = freshGame.turn) ∨
      ∃ room g, mapGet (stateAfter startedTrace).rooms "100000" = some room ∧
        room.gameState = Phase.playing ∧ room.gameData = some g ∧ g.turn = freshGame.turn ∧
        ((¬ ∃ q ∈ room.players, q.id = g.turn) ∨
          Event.leaveRoom "A" "100000" = Event.leaveRoom g.turn "100000" ∨
          Event.leaveRoom "A" "100000" = Event.disconnect g.turn)) :=
  ⟨by decide, by decide, by decide, by decide,
    turn_holder_present_unless_left (stateAfter startedTrace)
      (stateAfter turnHolderLeftTrace) (Event.leaveRoom "A" "100000")
      (by decide) "100000" turnHolderLeftRoom
      freshGame (by decide) (by decide) (by decide)⟩

/-! ## C17: connections, rooms and sessions -/

/-- C17, as stated, fails in all three parts. The socket `A` joins room
`"100000"`, then room `"550000"` twice. `A` is then a player of both rooms,
occurs twice in the player list of `"550000"`, and is a player of `"100000"`
while the session index binds it to `"550000"`. -/
theorem connection_in_two_rooms_counterexample :
    run Server.empty twoRoomsTrace = some (stateAfter twoRoomsTrace) ∧
    ((stateAfter twoRoomsTrace).room? "100000").map (fun r => r.players.map (fun q => q.id))
      = some ["A"] ∧
    ((stateAfter twoRoomsTrace).room? "550000").map (fun r => r.players.map (fun q => q.id))
      = some ["A", "A"] ∧
    mapGet (stateAfter twoRoomsTrace).players "A" = some ⟨"550000", "ann"⟩ := by
  refine ⟨?_, ?_, ?_, ?_⟩ <;> decide

theorem mapGet_mapDelete {β : Type} (m : List (String × β)) (k k1 : String) :
    mapGet (mapDelete m k) k1 = if k1 = k then none else mapGet m k1 := by
  by_cases h : k1 = k
  · subst h
    simp [mapGet_mapDelete_self]
  · simp [h, mapGet_mapDelete_ne k k1 h]

/-- Replacing the room under `roomId` keeps a connection a player of the room
it is bound to, provided the replacement keeps that connection's entries. -/
theorem bound_after_update {rooms : List (RoomId × Room)} {roomId r1 : RoomId}
    {room room1 : Room} {c : ConnId} (hroom : mapGet rooms roomId = some room)
    (hkeep : (∃ p ∈ room.players, p.id = c) → ∃ p ∈ room1.players, p.id = c)
    (h : ∃ room0, mapGet rooms r1 = some room0 ∧ ∃ p ∈ room0.players, p.id = c) :
    ∃ room0, mapGet (mapSet rooms roomId room1) r1 = some room0 ∧
      ∃ p ∈ room0.players, p.id = c := by
  obtain ⟨room0, h0, hin⟩ := h
  by_cases hr : r1 = roomId
  · subst hr
    rw [hroom] at h0
    simp only [Option.some.injEq] at h0
    subst h0
    exact ⟨room1, mapGet_mapSet_self _ _ _, hkeep hin⟩
  · exact ⟨room0, by rw [mapGet_mapSet_ne _ _ _ hr]; exact h0, hin⟩

theorem exists_id_filter_of_ne {players : List Player} {c c1 : ConnId} (hne : c1 ≠ c)
    (h : ∃ p ∈ players, p.id = c1) :
    ∃ p ∈ players.filter (fun p => decide (p.id ≠ c)), p.id = c1 := by
  obtain ⟨p, hp, hid⟩ := h
  refine ⟨p, ?_, hid⟩
  simp only [List.mem_filter, hp, true_and, decide_eq_true_eq, ne_eq]
  rw [hid]; exact hne

theorem handle_boundInv {s s1 : Server} {e : Event} {out : List Emit}
    (hs : BoundInv s) (h : handle s e = Outcome.done s1 out) : BoundInv s1 := by
  cases e with
  | createRoom playerName now draws =>
    simp only [handle, createRoom] at h
    cases hid : generateRoomId s.rooms draws with
    | none => simp [hid] at h
    | some roomId =>
      simp only [hid, Outcome.done.injEq] at h
      rw [← h.1]
      intro c sess hc
      obtain ⟨room, hroom, hin⟩ := hs c sess hc
      have hne : sess.roomId ≠ roomId := by
        intro heq
        rw [heq, generateRoomId_fresh hid] at hroom
        cases hroom
      exact ⟨room, by simp only [mapGet_mapSet_ne _ _ _ hne, hroom], hin⟩
  | joinRoom c roomId playerName =>
    simp only [handle, joinRoom] at h
    cases hroom : mapGet s.rooms roomId with
    | none =>
      simp only [hroom, Outcome.done.injEq] at h
      rw [← h.1]; exact hs
    | some room =>
      simp only [hroom] at h
      split_ifs at h
      · simp only [Outcome.done.injEq] at h
        rw [← h.1]; exact hs
      · simp only [Outcome.done.injEq] at h
        rw [← h.1]
        intro c1 sess hc1
        simp only [mapGet_mapSet] at hc1
        split_ifs at hc1 with hcc
        · simp only [Option.some.injEq] at hc1
          subst hc1
          subst hcc
          exact ⟨_, mapGet_mapSet_self _ _ _, _,
            List.mem_append_right _ (List.mem_singleton_self _), rfl⟩
        · refine bound_after_update hroom ?_ (hs c1 sess hc1)
          rintro ⟨p, hp, hpid⟩
          exact ⟨p, by simp [hp], hpid⟩
  | playerReady c roomId playerId =>
    simp only [handle, playerReady] at h
    cases hroom : mapGet s.rooms roomId with
    | none =>
      simp only [hroom, Outcome.done.injEq] at h
      rw [← h.1]; exact hs
    | some room =>
      simp only [hroom] at h
      cases hmark : markReady playerId room.players with
      | none =>
        simp only [hmark, Outcome.done.injEq] at h
        rw [← h.1]; exact hs
      | some players1 =>
        simp only [hmark] at h
        split_ifs at h
        · cases hinit : initializeGame players1 with
          | none => simp [hinit] at h
          | some g =>
            simp only [hinit, Outcome.done.injEq] at h
            rw [← h.1]
            intro c1 sess hc1
            exact bound_after_update hroom (exists_id_of_markReady hmark).mpr (hs c1 sess hc1)
        · simp only [Outcome.done.injEq] at h
          rw [← h.1]
          intro c1 sess hc1
          exact bound_after_update hroom (exists_id_of_markReady hmark).mpr (hs c1 sess hc1)
  | gameAction c roomId action position =>
    rcases gameAction_done h with ⟨rfl, -⟩ | ⟨room, g, hroom, -, -, -, hcase⟩
    · exact hs
    rcases hcase with ⟨-, rfl⟩ | ⟨-, rfl⟩
    · intro c1 sess hc1
      exact bound_after_update hroom id (hs c1 sess hc1)
    · intro c1 sess hc1
      exact bound_after_update hroom id (hs c1 sess hc1)
  | sendMessage c roomId message playerName timestamp =>
    simp only [handle, sendMessage, Outcome.done.injEq] at h
    rw [← h.1]; exact hs
  | leaveRoom c roomId =>
    simp only [handle, leaveRoom] at h
    cases hroom : mapGet s.rooms roomId with
    | none =>
      simp only [hroom, Outcome.done.injEq] at h
      rw [← h.1]; exact hs
    | some room =>
      simp only [hroom, Outcome.done.injEq] at h
      rw [← h.1]
      intro c1 sess hc1
      simp only [mapGet_mapDelete] at hc1
      split_ifs at hc1 with hcc
      exact bound_after_update hroom (exists_id_filter_of_ne hcc) (hs c1 sess hc1)
  | disconnect c =>
    simp only [handle, disconnect] at h
    cases hp : mapGet s.players c with
    | none =>
      simp only [hp, Outcome.done.injEq] at h
      rw [← h.1]; exact hs
    | some player =>
      simp only [hp] at h
      cases hroom : mapGet s.rooms player.roomId with
      | none =>
        simp only [hroom, Outcome.done.injEq] at h
        rw [← h.1]
        intro c1 sess hc1
        simp only [mapGet_mapDelete] at hc1
        split_ifs at hc1 with hcc
        exact hs c1 sess hc1
      | some room =>
        simp only [hroom, Outcome.done.injEq] at h
        rw [← h.1]
        intro c1 sess hc1
        simp only [mapGet_mapDelete] at hc1
        split_ifs at hc1 with hcc
        exact bound_after_update hroom (exists_id_filter_of_ne hcc) (hs c1 sess hc1)
  | fire i =>
    simp only [handle] at h
    cases ht : s.timers[i]? with
    | none =>
      simp only [ht, Outcome.done.injEq] at h
      rw [← h.1]; exact hs
    | some t =>
      simp only [ht] at h
      cases t with
      | reset ref roomId =>
        simp only [fireTimer, fireReset, Outcome.done.injEq] at h
        rw [← h.1]
        intro c1 sess hc1
        obtain ⟨room, hroom, p, hp, hpid⟩ := hs c1 sess hc1
        simp only [mapGet_map_reset, hroom, Option.map_some']
        refine ⟨_, rfl, ?_⟩
        split_ifs
        · exact ⟨{ p with isReady := false }, by
            simp only [resetRoom, List.mem_map]
            exact ⟨p, hp, rfl⟩, hpid⟩
        · exact ⟨p, hp, hpid⟩
      | sweep roomId =>
        simp only [fireTimer, fireSweep] at h
        cases hroom : mapGet s.rooms roomId with
        | none =>
          simp only [hroom, Outcome.done.injEq] at h
          rw [← h.1]; exact hs
        | some room =>
          simp only [hroom] at h
          split_ifs at h with hempty
          · simp only [Outcome.done.injEq] at h
            rw [← h.1]
            intro c1 sess hc1
            obtain ⟨room0, hroom0, p, hp, hpid⟩ := hs c1 sess hc1
            have hne : sess.roomId ≠ roomId := by
              intro heq
              rw [heq, hroom] at hroom0
              simp only [Option.some.injEq] at hroom0
              subst hroom0
              rw [List.length_eq_zero] at hempty
              rw [hempty] at hp
              cases hp
            exact ⟨room0, by simp only [mapGet_mapDelete_ne _ _ hne, hroom0], p, hp, hpid⟩
          · simp only [Outcome.done.injEq] at h
            rw [← h.1]; exact hs

/-- Every reachable state satisfies `BoundInv`. -/
theorem reachable_boundInv {s : Server} (hs : Reachable s) : BoundInv s := by
  induction hs with
  | init => intro c sess h; simp [Server.empty, mapGet] at h
  | step e _ hstep ih =>
    obtain ⟨-, out, hh⟩ := step_eq_some hstep
    exact handle_boundInv ih hh

/-- C17, amended. A connection can be a player of several rooms and occur
several times in one list; what holds in every reachable state is the converse
of the last part: whenever the session index binds a connection to a room id,
a room is registered under that id and the connection is one of its players. -/
theorem bound_connection_is_player (s : Server) (hs : Reachable s) (c : ConnId)
    (sess : Session) (hbound : mapGet s.players c = some sess) :
    ∃ room, mapGet s.rooms sess.roomId = some room ∧ ∃ p ∈ room.players, p.id = c :=
  reachable_boundInv hs c sess hbound

/-- C17 (amended) at the socket `A` that joined two rooms: it is bound to
`"550000"`, the room it joined last, and is a player of it. -/
theorem bound_connection_is_player_witness :
    Reachable (stateAfter twoRoomsTrace) ∧
    mapGet (stateAfter twoRoomsTrace).players "A" = some ⟨"550000", "ann"⟩ ∧
    ∃ room, mapGet (stateAfter twoRoomsTrace).rooms "550000" = some room ∧
      ∃ p ∈ room.players, p.id = "A" :=
  ⟨reachable_stateAfter twoRoomsTrace (by decide), by decide,
    bound_connection_is_player (stateAfter twoRoomsTrace)
      (reachable_stateAfter twoRoomsTrace (by decide)) "A" ⟨"550000", "ann"⟩ (by decide)⟩

/-! ## C18: the board of a running game -/

theorem exists_empty_of_not_full :
    ∀ board : List Cell, boardFull board = false → ∃ i, i < board.length ∧ board[i]? = some none := by
  intro board
  induction board with
  | nil => intro h; simp [boardFull] at h
  | cons x rest ih =>
    intro h
    cases x with
    | none => exact ⟨0, by simp, by simp⟩
    | some m =>
      have hrest : boardFull rest = false := by
        simpa [boardFull] using h
      obtain ⟨i, hi, hget⟩ := ih hrest
      exact ⟨i + 1, by simpa using hi, by simpa using hget⟩

/-- C18. In a reachable state, the board of a room that is `playing` has no
complete pattern (`checkWin` is `null`) and at least one of its 9 cells is
empty. Hence, for every accepted move on it, every pattern that is complete
afterwards contains the cell just written and holds the mark written for the
acting player, and the win check returns that mark whatever the order in which
the 8 patterns are tested. -/
theorem playing_board_has_no_win (s : Server) (hs : Reachable s) (roomId : RoomId)
    (room : Room) (g : GameData)
    (hroom : mapGet s.rooms roomId = some room)
    (hplay : room.gameState = Phase.playing)
    (hg : room.gameData = some g) :
    checkWin g.board = none ∧
    g.board.length = 9 ∧
    (∃ i, i < 9 ∧ g.board[i]? = some none) ∧
    ∀ c p s1 g1,
      gameAction s c roomId "move" p
        = Outcome.done s1 [⟨Target.room roomId, Msg.gameUpdate g1⟩] →
      (∀ t ∈ winPatterns, ∀ m, tripleHolds g1.board t m →
        (t.1 = p.toNat ∨ t.2.1 = p.toNat ∨ t.2.2 = p.toNat) ∧ m = markOf room c) ∧
      ((∃ t ∈ winPatterns, ∃ m, tripleHolds g1.board t m) →
        ∀ pats : List (Nat × Nat × Nat), pats.Perm winPatterns →
          checkWinLoop g1.board pats = some (markOf room c)) := by
  obtain ⟨hnowin, hnotfull, -⟩ := reachable_gameInv hs roomId room hroom hplay g hg
  obtain ⟨-, -, hlen, -, -⟩ := roomInv_of_mapGet (reachable_inv hs) hroom
  have hlen0 : g.board.length = 9 := hlen g hg
  have hnone := (checkWinLoop_eq_none_iff g.board winPatterns).mp hnowin
  refine ⟨hnowin, hlen0, ?_, ?_⟩
  · obtain ⟨i, hi, hget⟩ := exists_empty_of_not_full g.board hnotfull
    exact ⟨i, by omega, hget⟩
  intro c p s1 g1 hmove
  obtain ⟨-, hres, -⟩ := gameAction_accepted hroom hmove
  obtain ⟨-, g0, hg0, -, hcell, hshape⟩ := processGameAction_eq_update hres
  rw [hg] at hg0
  simp only [Option.some.injEq] at hg0
  subst hg0
  have hp0 : 0 ≤ p := by
    by_contra hneg
    simp [boardAt, hneg] at hcell
  have hget : g.board[p.toNat]? = some none := by simpa [boardAt, hp0] using hcell
  have hlt : p.toNat < g.board.length := (List.getElem?_eq_some.mp hget).1
  have hboard : g1.board = g.board.set p.toNat (some (markOf room c)) := by
    rcases hshape with ⟨-, h⟩ | ⟨-, -, h⟩ | ⟨-, -, q, -, h⟩ <;> rw [h]
  have hat : ∀ i m, g1.board[i]? = some (some m) →
      (i = p.toNat ∧ m = markOf room c) ∨ (i ≠ p.toNat ∧ g.board[i]? = some (some m)) := by
    intro i m hi
    by_cases hip : i = p.toNat
    · left
      subst hip
      rw [hboard] at hi
      simp only [List.getElem?_set_self hlt, Option.some.injEq] at hi
      exact ⟨rfl, hi.symm⟩
    · right
      rw [hboard, List.getElem?_set_ne (Ne.symm hip)] at hi
      exact ⟨hip, hi⟩
  have hall : ∀ t ∈ winPatterns, ∀ m, tripleHolds g1.board t m →
      (t.1 = p.toNat ∨ t.2.1 = p.toNat ∨ t.2.2 = p.toNat) ∧ m = markOf room c := by
    intro t ht m hholds
    obtain ⟨h1, h2, h3⟩ := hholds
    rcases hat _ m h1 with ⟨e1, hm⟩ | ⟨-, o1⟩
    · exact ⟨Or.inl e1, hm⟩
    rcases hat _ m h2 with ⟨e2, hm⟩ | ⟨-, o2⟩
    · exact ⟨Or.inr (Or.inl e2), hm⟩
    rcases hat _ m h3 with ⟨e3, hm⟩ | ⟨-, o3⟩
    · exact ⟨Or.inr (Or.inr e3), hm⟩
    exact absurd ⟨o1, o2, o3⟩ (hnone t ht m)
  refine ⟨hall, ?_⟩
  rintro ⟨t, ht, m, hholds⟩ pats hperm
  cases hloop : checkWinLoop g1.board pats with
  | none =>
    have := (checkWinLoop_eq_none_iff g1.board pats).mp hloop t (hperm.mem_iff.mpr ht) m
    exact absurd hholds this
  | some m1 =>
    obtain ⟨pre, u, post, hpats, hu, -⟩ := (checkWinLoop_eq_some_iff g1.board m1 pats).mp hloop
    have hmem : u ∈ winPatterns := hperm.mem_iff.mp (by simp [hpats])
    rw [(hall u hmem m1 hu).2]

/-- C18 at a game in which `A` is about to complete the row `0,1,2`. -/
theorem playing_board_has_no_win_witness :
    Reachable (stateAfter beforeWinTrace) ∧
    mapGet (stateAfter beforeWinTrace).rooms "100000" = some beforeWinRoom ∧
    beforeWinRoom.gameState = Phase.playing ∧
    beforeWinRoom.gameData = some beforeWinGame ∧
    checkWin beforeWinGame.board = none ∧
    beforeWinGame.board.length = 9 ∧
    (∃ i, i < 9 ∧ beforeWinGame.board[i]? = some none) ∧
    ∀ c p s1 g1,
      gameAction (stateAfter beforeWinTrace) c "100000" "move" p
        = Outcome.done s1 [⟨Target.room "100000", Msg.gameUpdate g1⟩] →
      (∀ t ∈ winPatterns, ∀ m, tripleHolds g1.board t m →
        (t.1 = p.toNat ∨ t.2.1 = p.toNat ∨ t.2.2 = p.toNat) ∧ m = markOf beforeWinRoom c) ∧
      ((∃ t ∈ winPatterns, ∃ m, tripleHolds g1.board t m) →
        ∀ pats : List (Nat × Nat × Nat), pats.Perm winPatterns →
          checkWinLoop g1.board pats = some (markOf beforeWinRoom c)) :=
  ⟨reachable_stateAfter beforeWinTrace (by decide), by decide, by decide, by decide,
    playing_board_has_no_win (stateAfter beforeWinTrace)
      (reachable_stateAfter beforeWinTrace (by decide)) "100000" beforeWinRoom beforeWinGame
      (by decide) (by decide) (by decide)⟩

/-! ## C19: rounds and marks -/

/-- C19. In a reachable state, in a room that is `playing` the number of
non-empty cells of the board equals `round - 1`, and every cell is empty or
holds `X` or `O`. -/
theorem playing_round_counts_marks (s : Server) (hs : Reachable s) (roomId : RoomId)
    (room : Room) (g : GameData)
    (hroom : mapGet s.rooms roomId = some room)
    (hplay : room.gameState = Phase.playing)
    (hg : room.gameData = some g) :
    g.board.countP (fun cell => cell.isSome) = g.round - 1 ∧
    1 ≤ g.round ∧
    ∀ (i : Nat) (cell : Cell), g.board[i]? = some cell →
      cell = none ∨ cell = some Mark.X ∨ cell = some Mark.O := by
  obtain ⟨-, -, hcount⟩ := reachable_gameInv hs roomId room hroom hplay g hg
  refine ⟨by omega, by omega, ?_⟩
  intro i cell _
  cases cell with
  | none => exact Or.inl rfl
  | some m => cases m <;> simp

/-- C19 at a game after four moves: four marks on the board, round 5. -/
theorem playing_round_counts_marks_witness :
    Reachable (stateAfter beforeWinTrace) ∧
    mapGet (stateAfter beforeWinTrace).rooms "100000" = some beforeWinRoom ∧
    beforeWinRoom.gameState = Phase.playing ∧
    beforeWinRoom.gameData = some beforeWinGame ∧
    beforeWinGame.board.countP (fun cell => cell.isSome) = beforeWinGame.round - 1 ∧
    1 ≤ beforeWinGame.round ∧
    ∀ (i : Nat) (cell : Cell), beforeWinGame.board[i]? = some cell →
      cell = none ∨ cell = some Mark.X ∨ cell = some Mark.O :=
  ⟨reachable_stateAfter beforeWinTrace (by decide), by decide, by decide, by decide,
    playing_round_counts_marks (stateAfter beforeWinTrace)
      (reachable_stateAfter beforeWinTrace (by decide)) "100000" beforeWinRoom beforeWinGame
      (by decide) (by decide) (by decide)⟩

/-! ## C20: at most one host -/

/-- C20. In a reachable state every registered room has at most one player
with `isHost = true`, and a player with `isHost = true` is the first element
of the room's player list. -/
theorem at_most_one_host_first (s : Server) (hs : Reachable s) (roomId : RoomId)
    (room : Room) (hroom : mapGet s.rooms roomId = some room) :
    (room.players.filter (fun q => q.isHost)).length ≤ 1 ∧
    ∀ i p, room.players[i]? = some p → p.isHost = true → i = 0 := by
  have hr := reachable_hostInv hs roomId room hroom
  constructor
  · cases hpl : room.players with
    | nil => simp
    | cons p rest =>
      rw [← hpl, filter_isHost_of_hostInv hr p rest hpl]
      split_ifs <;> simp
  · intro i p hp hhost
    cases i with
    | zero => rfl
    | succ i =>
      have hmem : p ∈ room.players.tail := by
        cases hpl : room.players with
        | nil => simp [hpl] at hp
        | cons q rest =>
          rw [hpl] at hp
          simp only [List.getElem?_cons_succ] at hp
          simpa using List.getElem?_mem hp
      rw [hr p hmem] at hhost
      cases hhost

/-- C20 at the full room: `A`, the first player, is the only host. -/
theorem at_most_one_host_first_witness :
    Reachable (stateAfter fullTrace) ∧
    mapGet (stateAfter fullTrace).rooms "100000" = some fullRoom ∧
    (fullRoom.players.filter (fun q => q.isHost)).length ≤ 1 ∧
    ∀ i p, fullRoom.players[i]? = some p → p.isHost = true → i = 0 :=
  ⟨reachable_stateAfter fullTrace (by decide), by decide,
    at_most_one_host_first (stateAfter fullTrace)
      (reachable_stateAfter fullTrace (by decide)) "100000" fullRoom (by decide)⟩

end MultiplayerGame
